import Mathlib

/-!
# opendkim-db.c: a shallow embedding

The database abstraction of `opendkim/opendkim-db.c` (revision 1.7), embedded as
pure Lean functions.

Conventions of the embedding.

* A C string is the list of its characters before the terminating NUL.  A
  pointer into a buffer is an offset into the list that models the buffer.
* A pointer to a linked chain is the list of the nodes reachable from it; the
  NULL pointer is the empty list.
* Out-parameters are results: a field that is `none` was not written.
* A function returns `none` where the C program has no defined result: an
  assertion fails, a pointer that is not valid is dereferenced, a read leaves
  the object it started in, or a loop does not end.
* `malloc`, `strdup` and `realloc` are taken to succeed; the branches that
  handle their failure are not embedded.
* Memory from `malloc` is not cleared by the program.  `dkimf_db_open` never
  writes the `db_list_next` of the last node of a chain nor the
  `db_list_value` of a node without value; what the calls that follow read in
  these fields is a matter of the allocator (`Config.zeroed_malloc`): NULL
  when it hands out memory that reads as zero, and no defined value when it
  does not.  The chain is part of what `dkimf_db_open` hands back, so in the
  second case the embedding gives the call no result when the chain is not
  empty.
* The file is read with the Berkeley DB version checks `DB_VERSION_CHECK(2,0,0)`
  and later true, and with `LOCK_EX`, `LOCK_SH` and `LOCK_UN` defined.
* `size_t` is 64 bits wide, `u_int` is 32 bits wide.
-/

namespace OpenDKIM

/-! ## The C library -/

/-- A C string: its characters, without the terminating NUL. -/
abbrev CStr := List Char

/-- Character classification `isascii` of `<ctype.h>`. -/
def isascii (c : Char) : Bool := decide (c.toNat < 128)

/-- Character classification `isspace` of `<ctype.h>`, in the C locale:
space, and the control characters from horizontal tab to carriage return. -/
def isspace (c : Char) : Bool :=
  decide (c.toNat = 32) || (decide (9 ≤ c.toNat) && decide (c.toNat ≤ 13))

/-- Case mapping `tolower` of `<ctype.h>`, in the C locale. -/
def tolower (c : Char) : Char :=
  if 65 ≤ c.toNat ∧ c.toNat ≤ 90 then Char.ofNat (c.toNat + 32) else c

/-- String comparison `strcmp`: zero when the strings are equal, else the
difference of the first two characters that differ (the terminator counts as
zero). -/
def strcmp : CStr → CStr → Int
  | [], [] => 0
  | [], b :: _ => 0 - (b.toNat : Int)
  | a :: _, [] => (a.toNat : Int)
  | a :: s, b :: t => if a = b then strcmp s t else (a.toNat : Int) - (b.toNat : Int)

/-- String comparison `strcasecmp`: `strcmp` on the lower-cased strings. -/
def strcasecmp : CStr → CStr → Int
  | [], [] => 0
  | [], b :: _ => 0 - ((tolower b).toNat : Int)
  | a :: _, [] => ((tolower a).toNat : Int)
  | a :: s, b :: t =>
    if tolower a = tolower b then strcasecmp s t
    else ((tolower a).toNat : Int) - ((tolower b).toNat : Int)

/-- Search `strchr`: the offset of the first occurrence of `c` in `s`, or
`none` (the NULL pointer) when there is none. -/
def strchr : CStr → Char → Option Nat
  | [], _ => none
  | a :: s, c => if a = c then some 0 else (strchr s c).map (· + 1)

/-- Search `strstr`: the offset of the first occurrence of `needle` in `hay`,
or `none` (the NULL pointer). -/
def strstr : CStr → CStr → Option Nat
  | [], needle => if needle = [] then some 0 else none
  | a :: s, needle =>
    if needle.isPrefixOf (a :: s) then some 0 else (strstr s needle).map (· + 1)

/-- Bounded copy `strlcpy (dst, src, size)`: what is stored in `dst` (nothing
when `size` is zero, else at most `size - 1` characters of `src` and a
terminator) and the value returned, which is the length of `src`. -/
def strlcpy (src : CStr) (size : Nat) : Option CStr × Nat :=
  (if size = 0 then none else some (src.take (size - 1)), src.length)

/-- Bounded copy `strncpy (dst, src, n)` into a zero-filled buffer longer than
`n`: the string then found in `dst`. -/
def strncpy (src : CStr) (n : Nat) : CStr := src.take n

/-- Tokenizer `strtok_r (s, delim, ctx)` for a single delimiter character:
skips leading delimiters; at the end of the string there is no token; else the
token runs up to the next delimiter, which is overwritten by a NUL, and the
context is what follows. -/
def strtok_r (s : CStr) (delim : Char) : Option (CStr × CStr) :=
  match s.dropWhile (· == delim) with
  | [] => none
  | a :: t =>
    some ((a :: t).takeWhile (· != delim), ((a :: t).dropWhile (· != delim)).drop 1)

/-- All the tokens of the loop
`for (p = strtok_r(s, d, &ctx); p != NULL; p = strtok_r(NULL, d, &ctx))`,
in order; `fuel` bounds the number of iterations. -/
def strtok_loop (delim : Char) : Nat → CStr → List CStr
  | 0, _ => []
  | fuel + 1, s =>
    match strtok_r s delim with
    | none => []
    | some (tok, ctx) => tok :: strtok_loop delim fuel ctx

/-- Line input `fgets (line, n, f)` on the unread part `f` of a stream: `none`
at end of file (and for `n = 0`), else the characters stored in `line`, at
most `n - 1` of them and none after a newline, and the unread rest. -/
def fgets (n : Nat) (f : CStr) : Option (CStr × CStr) :=
  if n = 0 then none
  else
    match f with
    | [] => none
    | _ :: _ =>
      let upto := f.takeWhile (· != '\n')
      let line := if upto.length < f.length then upto ++ ['\n'] else upto
      some (line.take (n - 1), f.drop (line.take (n - 1)).length)

/-- The C string that starts at offset `p` of a buffer: the characters from
there up to the first NUL. -/
def cstr_at (buf : List Char) (p : Nat) : CStr :=
  (buf.drop p).takeWhile (· != '\x00')

/-- Conversion of an `int` or `ptrdiff_t` value to `size_t`. -/
def to_size_t (x : Int) : Nat := (x % (2 : Int) ^ 64).toNat

/-- Conversion of an `int` value to `u_int`. -/
def to_u_int (x : Int) : Nat := (x % (2 : Int) ^ 32).toNat

/-- The macro `MIN` of `<sys/param.h>`. -/
def MIN (a b : Nat) : Nat := if a < b then a else b

/-- The error number `EINVAL` of `<errno.h>`. -/
def EINVAL : Int := 22

/-! ## Build parameters and constants -/

/-- What is fixed outside this file: whether `USE_DB` is defined (the
Berkeley DB backend is compiled in), the buffer sizes `BUFRSZ` and
`DEFARRAYSZ` of `opendkim.h`, and whether the allocator that the program runs
with hands out memory that reads as zero (the C standard leaves the content of
memory from `malloc` open). -/
structure Config where
  USE_DB : Bool
  BUFRSZ : Nat
  DEFARRAYSZ : Nat
  zeroed_malloc : Bool
  deriving DecidableEq, Repr

def DKIMF_DB_TYPE_UNKNOWN : Int := -1
def DKIMF_DB_TYPE_FILE : Int := 0
def DKIMF_DB_TYPE_REFILE : Int := 1
def DKIMF_DB_TYPE_CSL : Int := 2
/-- Defined only under `USE_DB`. -/
def DKIMF_DB_TYPE_BDB : Int := 3

def DKIMF_DB_IFLAG_FREEARRAY : Nat := 0x01

/-- Modelled from the spec: `opendkim-db.h` is not among the sources; this is
the `ReadOnly` flag of the flag set, one bit of its own. -/
def DKIMF_DB_FLAG_READONLY : Nat := 0x01

/-- Modelled from the spec: `opendkim-db.h` is not among the sources; this is
the `CaseInsensitive` flag of the flag set, one bit of its own. -/
def DKIMF_DB_FLAG_ICASE : Nat := 0x02

/-- Modelled from the spec: `opendkim-db.h` is not among the sources; this is
the `MatchKeyOrValue` flag of the flag set, one bit of its own. -/
def DKIMF_DB_FLAG_MATCHBOTH : Nat := 0x04

/-- Modelled from the spec: `opendkim-db.h` is not among the sources; this is
the `SplitValueList` flag of the flag set, one bit of its own. -/
def DKIMF_DB_FLAG_VALLIST : Nat := 0x08

def DKIMF_DB_TYPE_COUNT : Nat := 4

/-- The table `dbtypes`; its last entry exists only under `USE_DB`. -/
def dbtypes (cfg : Config) : List (CStr × Int) :=
  [ ("csl".toList, DKIMF_DB_TYPE_CSL),
    ("file".toList, DKIMF_DB_TYPE_FILE),
    ("refile".toList, DKIMF_DB_TYPE_REFILE) ] ++
  (if cfg.USE_DB then [("db".toList, DKIMF_DB_TYPE_BDB)] else [])

/-! ## Data types -/

/-- A node of `struct dkimf_db_list`; `db_list_next` is the rest of the list
the node stands in. -/
structure dkimf_db_list where
  db_list_key : CStr
  db_list_value : Option CStr
  deriving DecidableEq, Repr

/-- A compiled pattern `regex_t`: the pattern text and the flags it was
compiled with. -/
structure regex_t where
  pattern : CStr
  cflags : Nat
  deriving DecidableEq, Repr

/-- A node of `struct dkimf_db_relist`. -/
structure dkimf_db_relist where
  db_relist_re : regex_t
  deriving DecidableEq, Repr

/-- A Berkeley DB handle `DB`: the records of the store, in the order the
engine iterates over them. -/
structure DB where
  records : List (CStr × CStr)
  deriving DecidableEq, Repr

/-- A Berkeley DB cursor `DBC`: the index of the record it stands on, `none`
before it is positioned. -/
structure DBC where
  position : Option Nat
  deriving DecidableEq, Repr

/-- What `db_handle` points to. -/
inductive db_handle_t where
  | NULL
  | list (chain : List dkimf_db_list)
  | relist (chain : List dkimf_db_relist)
  | bdb (db : DB)
  deriving DecidableEq, Repr

/-- What `db_cursor` points to. -/
inductive db_cursor_t where
  | NULL
  | list (chain : List dkimf_db_list)
  | dbc (c : DBC)
  deriving DecidableEq, Repr

/-- The handle `struct dkim_db`.  `db_lock` tells whether the caller supplied
a mutex; `db_array` is NULL or the entries of the array, each a string or
NULL. -/
structure dkim_db where
  db_flags : Nat
  db_iflags : Nat
  db_type : Nat
  db_status : Int
  db_nrecs : Int
  db_lock : Bool
  db_handle : db_handle_t
  db_data : Option regex_t
  db_cursor : db_cursor_t
  db_array : Option (List (Option CStr))
  deriving DecidableEq, Repr

/-- The cast `(struct dkimf_db_list *) db->db_handle`. -/
def db_handle_t.as_list : db_handle_t → List dkimf_db_list
  | .list chain => chain
  | _ => []

/-- The cast `(struct dkimf_db_relist *) db->db_handle`. -/
def db_handle_t.as_relist : db_handle_t → List dkimf_db_relist
  | .relist chain => chain
  | _ => []

/-- The cast `(DB *) db->db_handle`. -/
def db_handle_t.as_bdb : db_handle_t → DB
  | .bdb d => d
  | _ => ⟨[]⟩

/-- The cast `(struct dkimf_db_list *) db->db_cursor`. -/
def db_cursor_t.as_list : db_cursor_t → List dkimf_db_list
  | .list chain => chain
  | _ => []

/-- The test `db->db_cursor == NULL`. -/
def db_cursor_t.is_null : db_cursor_t → Bool
  | .NULL => true
  | .list [] => true
  | _ => false

/-- The chain of a handle of one of the two list types. -/
def dkim_db.chain (db : dkim_db) : List dkimf_db_list := db.db_handle.as_list

/-- The locks a call can hold: the mutex the caller supplied and the advisory
lock on the descriptor of the store. -/
structure Locks where
  mutex : Bool
  advisory : Bool
  deriving DecidableEq, Repr

/-! ## The environment: files, regular expressions, Berkeley DB, locks -/

/-- The value `DB_NOTFOUND` of `<db.h>`. -/
def DB_NOTFOUND : Int := -30988

/-- The value `DB_BUFFER_SMALL` of `<db.h>`. -/
def DB_BUFFER_SMALL : Int := -30999

/-- What a call finds outside the program: the files that can be opened for
reading and their contents, the pattern compiler `dkimf_mkregexp` of `util.c`,
`regcomp` and `regexec`, the outcome of opening a Berkeley DB store, and, for
one operation on an open store, the outcome of `DB->fd`, of taking the
advisory lock, of the engine call (`op_error = none`: the engine does its
work; `some e`: it fails with status `e` and does nothing) and of releasing
the advisory lock.  `array_as_int` is the `int` that the address of the cached
array converts to. -/
structure Env where
  fopen : CStr → Option CStr
  dkimf_mkregexp : CStr → Option CStr
  regcomp : CStr → Nat → Int
  regexec : regex_t → CStr → Int
  db_open : CStr → Bool → Int × DB
  fd_status : Int
  fd : Int
  lock_status : Int
  op_error : Option Int
  cursor_error : Option Int
  unlock_status : Int
  array_as_int : Int

/-- Call `pthread_mutex_lock`. -/
def pthread_mutex_lock (l : Locks) : Locks := { l with mutex := true }

/-- Call `pthread_mutex_unlock`. -/
def pthread_mutex_unlock (l : Locks) : Locks := { l with mutex := false }

/-- Call `flock (fd, LOCK_EX)` or `flock (fd, LOCK_SH)` that returns `status`:
the lock is held afterwards when the call succeeded. -/
def flock_lock (status : Int) (l : Locks) : Locks :=
  if status = 0 then { l with advisory := true } else l

/-- Call `flock (fd, LOCK_UN)` that returns `status`: the lock is given up
when the call succeeded. -/
def flock_unlock (status : Int) (l : Locks) : Locks :=
  if status = 0 then { l with advisory := false } else l

/-- The `size` bytes at `buf` that a `DBT` names, `buf` being a C string
followed by its terminator; `none` when they reach past the terminator. -/
def mem_block (buf : CStr) (size : Nat) : Option (List Char) :=
  if size ≤ buf.length + 1 then some ((buf ++ ['\x00']).take size) else none

/-- The key `DBT` of an operation: `q.data = buf` and
`q.size = (buflen == 0 ? strlen(q.data) : buflen)`. -/
def key_dbt (buf : CStr) (buflen : Nat) : Option (List Char) :=
  if buflen = 0 then some buf else mem_block buf buflen

/-- Engine call `DB->put` with flags 0: the record replaces the one stored
under the key, or is added. -/
def DB.put (e : Env) (bdb : DB) (k d : List Char) : Int × DB :=
  match e.op_error with
  | some err => (err, bdb)
  | none =>
    if bdb.records.any (fun r => r.1 == k) then
      (0, ⟨bdb.records.map (fun r => if r.1 == k then (k, d) else r)⟩)
    else (0, ⟨bdb.records ++ [(k, d)]⟩)

/-- Engine call `DB->del`: the record stored under the key is removed;
`DB_NOTFOUND` when there is none. -/
def DB.del (e : Env) (bdb : DB) (k : List Char) : Int × DB :=
  match e.op_error with
  | some err => (err, bdb)
  | none =>
    if bdb.records.any (fun r => r.1 == k) then
      (0, ⟨bdb.records.filter (fun r => !(r.1 == k))⟩)
    else (DB_NOTFOUND, bdb)

/-- The data `DBT` handed to `DB->get`: its `size`, `ulen`, `dlen`, `doff`
fields and the two flags `DB_DBT_USERMEM` and `DB_DBT_PARTIAL`. -/
structure DBT where
  size : Nat
  ulen : Nat
  dlen : Nat
  doff : Nat
  usermem : Bool
  part : Bool
  deriving DecidableEq, Repr

/-- Engine call `DB->get`: the status, the bytes stored in the buffer of the
data `DBT` (if any) and its `size` field afterwards.  With `DB_DBT_PARTIAL`
only the `dlen` bytes from offset `doff` of the record are returned; with
`DB_DBT_USERMEM` they are stored in the caller's buffer when they fit in `ulen`
bytes, and `DB_BUFFER_SMALL` is returned when they do not. -/
def DB.get (e : Env) (bdb : DB) (k : List Char) (d : DBT) : Int × Option (List Char) × Nat :=
  match e.op_error with
  | some err => (err, none, d.size)
  | none =>
    match bdb.records.find? (fun r => r.1 == k) with
    | none => (DB_NOTFOUND, none, d.size)
    | some r =>
      let bytes := if d.part then (r.2.drop d.doff).take d.dlen else r.2
      if d.usermem && decide (d.ulen < bytes.length) then (DB_BUFFER_SMALL, none, bytes.length)
      else (0, some bytes, bytes.length)

/-! ## dkimf_db_delete, dkimf_db_put, dkimf_db_get -/

/-- The test that opens `dkimf_db_delete` and `dkimf_db_put`: the handle is of
type file, csl or refile. -/
def is_memory_type (db : dkim_db) : Bool :=
  db.db_type == to_u_int DKIMF_DB_TYPE_FILE ||
  db.db_type == to_u_int DKIMF_DB_TYPE_CSL ||
  db.db_type == to_u_int DKIMF_DB_TYPE_REFILE

/-- What an operation hands back apart from its outputs: the value returned,
the handle and the locks as the call leaves them. -/
structure op_result where
  ret : Int
  db : dkim_db
  locks : Locks
  deriving DecidableEq, Repr

/-- Function `dkimf_db_delete (db, buf, buflen)`. -/
def dkimf_db_delete (cfg : Config) (e : Env) (db : dkim_db) (l : Locks)
    (buf : CStr) (buflen : Nat) : Option op_result :=
  if is_memory_type db then some ⟨EINVAL, db, l⟩
  else if !cfg.USE_DB then none
  else
    let bdb := db.db_handle.as_bdb
    match key_dbt buf buflen with
    | none => none
    | some q =>
      -- establish write-lock
      let status := e.fd_status
      let fd := e.fd
      let l := if db.db_lock then pthread_mutex_lock l else l
      if status = 0 ∧ fd ≠ -1 ∧ e.lock_status ≠ 0 then
        some ⟨-1, { db with db_status := e.lock_status }, flock_lock e.lock_status l⟩
      else
        let l := if status = 0 ∧ fd ≠ -1 then flock_lock e.lock_status l else l
        let (status, bdb) := DB.del e bdb q
        let ret : Int := if status = 0 then 0 else status
        let db := { db with db_handle := .bdb bdb }
        -- surrender write-lock
        if fd ≠ -1 ∧ e.unlock_status ≠ 0 then
          some ⟨-1, { db with db_status := e.unlock_status }, flock_unlock e.unlock_status l⟩
        else
          let l := if fd ≠ -1 then flock_unlock e.unlock_status l else l
          let l := if db.db_lock then pthread_mutex_unlock l else l
          some ⟨ret, db, l⟩

/-- Function `dkimf_db_put (db, buf, buflen, outbuf, outbuflen)`. -/
def dkimf_db_put (cfg : Config) (e : Env) (db : dkim_db) (l : Locks)
    (buf : CStr) (buflen : Nat) (outbuf : CStr) (outbuflen : Nat) : Option op_result :=
  if is_memory_type db then some ⟨EINVAL, db, l⟩
  else if !cfg.USE_DB then none
  else
    let bdb := db.db_handle.as_bdb
    match mem_block outbuf outbuflen, key_dbt buf buflen with
    | some d, some q =>
      -- establish write-lock
      let status := e.fd_status
      let fd := e.fd
      let l := if db.db_lock then pthread_mutex_lock l else l
      if status = 0 ∧ fd ≠ -1 ∧ e.lock_status ≠ 0 then
        some ⟨-1, { db with db_status := e.lock_status }, flock_lock e.lock_status l⟩
      else
        let l := if status = 0 ∧ fd ≠ -1 then flock_lock e.lock_status l else l
        let (status, bdb) := DB.put e bdb q d
        let ret : Int := if status = 0 then 0 else status
        let db := { db with db_handle := .bdb bdb }
        -- surrender write-lock
        if fd ≠ -1 ∧ e.unlock_status ≠ 0 then
          some ⟨-1, { db with db_status := e.unlock_status }, flock_unlock e.unlock_status l⟩
        else
          let l := if fd ≠ -1 then flock_unlock e.unlock_status l else l
          let l := if db.db_lock then pthread_mutex_unlock l else l
          some ⟨ret, db, l⟩
    | _, _ => none

/-- The comparison of the probe with a key or a value in `dkimf_db_get`:
`strcmp` when `DKIMF_DB_FLAG_ICASE` is clear, `strcasecmp` when it is set. -/
def get_matched (flags : Nat) (buf s : CStr) : Bool :=
  if flags &&& DKIMF_DB_FLAG_ICASE = 0 then decide (strcmp buf s = 0)
  else decide (strcasecmp buf s = 0)

/-- The scan of `dkimf_db_get` over a chain: the value of `list` when the
loop is left, which is the node the scan broke out at, with its successors,
or NULL. -/
def dkimf_db_get_scan (flags : Nat) (buf : CStr) : List dkimf_db_list → List dkimf_db_list
  | [] => []
  | node :: next =>
    -- break out on single matches
    if get_matched flags buf node.db_list_key && decide (flags &&& DKIMF_DB_FLAG_MATCHBOTH = 0) then
      node :: next
    else
      -- double match with no value matches all
      match node.db_list_value with
      | none => node :: next
      | some value =>
        if get_matched flags buf value then node :: next
        else dkimf_db_get_scan flags buf next

/-- The scan of `dkimf_db_get` over a chain of patterns: whether some pattern
matches the probe. -/
def dkimf_db_get_rescan (e : Env) (buf : CStr) : List dkimf_db_relist → Bool
  | [] => false
  | node :: next =>
    if e.regexec node.db_relist_re buf = 0 then true else dkimf_db_get_rescan e buf next

/-- What `dkimf_db_get` hands back: the value returned, the handle and the
locks as the call leaves them, and what was stored through `exists`, in
`outbuf` and through `outbuflen`. -/
structure get_result where
  ret : Int
  db : dkim_db
  locks : Locks
  found : Option Bool
  outbuf : Option (List Char)
  outbuflen : Option Nat
  deriving DecidableEq, Repr

/-- Function `dkimf_db_get (db, buf, buflen, outbuf, outbuflen, exists)`.
The argument `outbuf` is `none` when `outbuf` and `outbuflen` are NULL, else
the number found in `*outbuflen`; `want_exists` tells whether `exists` is not
NULL. -/
def dkimf_db_get (cfg : Config) (e : Env) (db : dkim_db) (l : Locks)
    (buf : CStr) (buflen : Nat) (outbuf : Option Nat) (want_exists : Bool) :
    Option get_result :=
  let report (b : Bool) : Option Bool := if want_exists then some b else none
  if db.db_type = to_u_int DKIMF_DB_TYPE_FILE ∨ db.db_type = to_u_int DKIMF_DB_TYPE_CSL then
    match dkimf_db_get_scan db.db_flags buf db.db_handle.as_list with
    | [] => some ⟨0, db, l, report false, none, none⟩
    | node :: _ =>
      match node.db_list_value, outbuf with
      | some value, some size =>
        some ⟨0, db, l, report true, (strlcpy value size).1, some (strlcpy value size).2⟩
      | _, _ => some ⟨0, db, l, report true, none, none⟩
  else if db.db_type = to_u_int DKIMF_DB_TYPE_REFILE then
    if dkimf_db_get_rescan e buf db.db_handle.as_relist then
      some ⟨0, db, l, report true, none, none⟩
    else some ⟨0, db, l, report false, none, none⟩
  else if cfg.USE_DB ∧ db.db_type = to_u_int DKIMF_DB_TYPE_BDB then
    let bdb := db.db_handle.as_bdb
    match key_dbt buf buflen with
    | none => none
    | some q =>
      let d : DBT := ⟨outbuf.getD 0, 0, 0, 0, true, true⟩
      -- establish read-lock
      let status := e.fd_status
      let fd := e.fd
      let l := if db.db_lock then pthread_mutex_lock l else l
      if status = 0 ∧ fd ≠ -1 ∧ e.lock_status ≠ 0 then
        some ⟨-1, { db with db_status := e.lock_status }, flock_lock e.lock_status l,
          none, none, none⟩
      else
        let l := if status = 0 ∧ fd ≠ -1 then flock_lock e.lock_status l else l
        let (status, data, size) := DB.get e bdb q d
        let ret : Int := if status = 0 then 0 else if status = DB_NOTFOUND then 0 else status
        let found : Option Bool :=
          if status = 0 then report true else if status = DB_NOTFOUND then report false else none
        let data : Option (List Char) := if outbuf.isSome then data else none
        let outlen : Option Nat := if status = 0 ∧ outbuf.isSome then some size else none
        -- surrender read-lock
        if fd ≠ -1 ∧ e.unlock_status ≠ 0 then
          some ⟨-1, { db with db_status := e.unlock_status }, flock_unlock e.unlock_status l,
            found, data, outlen⟩
        else
          let l := if fd ≠ -1 then flock_unlock e.unlock_status l else l
          let l := if db.db_lock then pthread_mutex_unlock l else l
          some ⟨ret, db, l, found, data, outlen⟩
  else none

/-! ## dkimf_db_walk -/

/-- A pointer argument of type `size_t *`: NULL, a pointer to a `size_t`
holding `v`, or a value that is not the address of any object. -/
inductive size_ptr where
  | NULL
  | valid (v : Nat)
  | invalid
  deriving DecidableEq, Repr

/-- Engine call `DB->cursor`: a new cursor, not positioned yet. -/
def DB.cursor (e : Env) : Int × DBC :=
  match e.cursor_error with
  | some err => (err, ⟨none⟩)
  | none => (0, ⟨none⟩)

/-- Engine call `DBC->c_get` with `DB_FIRST` (`first`) or `DB_NEXT`, key and
data `DBT` both `DB_DBT_USERMEM` with `ulen` as given: the status, the cursor
afterwards, the record stored in the two buffers (if any) and the `size`
fields.  `DB_NEXT` on a cursor that is not positioned is `DB_FIRST`. -/
def DBC.c_get (e : Env) (bdb : DB) (c : DBC) (first : Bool) (kulen dulen : Nat) :
    Int × DBC × Option (List Char × List Char) × Nat × Nat :=
  match e.op_error with
  | some err => (err, c, none, 0, 0)
  | none =>
    let i : Nat := if first then 0 else match c.position with
      | none => 0
      | some j => j + 1
    match bdb.records.get? i with
    | none => (DB_NOTFOUND, c, none, 0, 0)
    | some r =>
      if kulen < r.1.length ∨ dulen < r.2.length then
        (DB_BUFFER_SMALL, c, none, r.1.length, r.2.length)
      else (0, ⟨some i⟩, some r, r.1.length, r.2.length)

/-- What `dkimf_db_walk` hands back: the value returned, the handle as the
call leaves it, and what was stored in `key`, through `keylen`, in `data` and
through `datalen`. -/
structure walk_result where
  ret : Int
  db : dkim_db
  key : Option (List Char)
  keylen : Option Nat
  data : Option (List Char)
  datalen : Option Nat
  deriving DecidableEq, Repr

/-- One of the two copies of `dkimf_db_walk` on a list node: under
`if (buf != NULL)`, `assert(len != NULL)` and then, when the string is not
NULL, `*len = strlcpy(buf, src, *len)`.  Handed back: what was stored in the
buffer and through `len`. -/
def walk_copy (buf : Bool) (len : size_ptr) (src : Option CStr) :
    Option (Option (List Char) × Option Nat) :=
  if !buf then some (none, none)
  else
    match len, src with
    | .NULL, _ => none
    | _, none => some (none, none)
    | .invalid, some _ => none
    | .valid n, some s => some ((strlcpy s n).1, some (strlcpy s n).2)

/-- The read `(len != NULL ? *len : 0)`. -/
def size_ptr.read_or_zero : size_ptr → Option Nat
  | .NULL => some 0
  | .valid v => some v
  | .invalid => none

/-- Function `dkimf_db_walk (db, first, key, keylen, data, datalen)`; `key`
and `data` tell whether the two buffers are not NULL. -/
def dkimf_db_walk (cfg : Config) (e : Env) (db : dkim_db) (first : Bool)
    (key : Bool) (keylen : size_ptr) (data : Bool) (datalen : size_ptr) :
    Option walk_result :=
  if db.db_type = to_u_int DKIMF_DB_TYPE_REFILE then some ⟨-1, db, none, none, none, none⟩
  else if db.db_type = to_u_int DKIMF_DB_TYPE_CSL ∨ db.db_type = to_u_int DKIMF_DB_TYPE_FILE then
    let list := if first then db.db_handle.as_list else db.db_cursor.as_list
    match list with
    | [] => some ⟨1, db, none, none, none, none⟩
    | node :: next =>
      match walk_copy key keylen (some node.db_list_key),
            walk_copy data datalen node.db_list_value with
      | some k, some d =>
        some ⟨0, { db with db_cursor := .list next }, k.1, k.2, d.1, d.2⟩
      | _, _ => none
  else if cfg.USE_DB ∧ db.db_type = to_u_int DKIMF_DB_TYPE_BDB then
    let bdb := db.db_handle.as_bdb
    -- establish a cursor if needed
    let made : Int × Option DBC :=
      if db.db_cursor.is_null then ((DB.cursor e).1, some (DB.cursor e).2)
      else match db.db_cursor with
        | .dbc c => (0, some c)
        | _ => (0, none)
    if made.1 ≠ 0 then some ⟨-1, { db with db_status := made.1 }, none, none, none, none⟩
    else
      match made.2, keylen.read_or_zero, datalen.read_or_zero with
      | some dbc, some kulen, some dulen =>
        let (status, dbc, rec, ksize, dsize) := DBC.c_get e bdb dbc first kulen dulen
        -- the cursor object is the handle's own only when it was not made here
        let db := if db.db_cursor.is_null then db else { db with db_cursor := .dbc dbc }
        if status = DB_NOTFOUND then some ⟨1, db, none, none, none, none⟩
        else if status ≠ 0 then
          some ⟨-1, { db with db_status := status }, none, none, none, none⟩
        else
          match rec with
          | none => none
          | some r =>
            if (!key ∧ r.1 ≠ []) ∨ (!data ∧ r.2 ≠ []) then none
            else
              some ⟨0, db, if key then some r.1 else none,
                if keylen = .NULL then none else some ksize,
                if data then some r.2 else none,
                if datalen = .NULL then none else some dsize⟩
      | _, _, _ => none
  else none

/-! ## dkimf_db_mkarray -/

/-- The loop `for (c = 0; c < db->db_nrecs; c++)` of `dkimf_db_mkarray` with
the store of the terminator after it: the array filled, or `none` when `cur`
is NULL where it is dereferenced. -/
def mkarray_fill : Nat → List dkimf_db_list → Option (List (Option CStr))
  | 0, _ => some [none]
  | _ + 1, [] => none
  | n + 1, cur :: next => (mkarray_fill n next).map (some cur.db_list_key :: ·)

/-- What `dkimf_db_mkarray` hands back: the value returned, the handle as the
call leaves it, and the array stored through `a`, if one was. -/
structure mkarray_result where
  ret : Int
  db : dkim_db
  a : Option (List (Option CStr))
  deriving DecidableEq, Repr

/-- The state of the loop `while (status == 0)` of `dkimf_db_mkarray`: the
handle, `nr`, `na` and the array `out` (its entries up to the terminator). -/
structure mkarray_state where
  db : dkim_db
  nr : Nat
  na : Nat
  out : List CStr
  deriving DecidableEq, Repr

/-- The loop `while (status == 0)` of `dkimf_db_mkarray` on a Berkeley DB
handle: the last status and the state the loop ends in; `none` when a call of
`dkimf_db_walk` has no result or the loop is still running after `fuel`
rounds, or the branch
that grows the array is entered (it stores through `out`, the block that
`realloc` was handed, and never assigns `newout`).  The argument
`sizeof keybuf - 1` is passed where a `size_t *` is
expected: the pointer is NULL when the number is zero and not valid else. -/
def mkarray_loop (cfg : Config) (e : Env) : Nat → mkarray_state → Option (Int × mkarray_state)
  | 0, _ => none
  | fuel + 1, st =>
    let keylen : size_ptr := if cfg.BUFRSZ = 0 then .NULL else .invalid
    match dkimf_db_walk cfg e st.db (st.nr == 0) true keylen false .NULL with
    | none => none
    | some w =>
      let keybuf : CStr := cstr_at ((w.key.getD []) ++ ['\x00']) 0
      if st.nr = 0 then
        -- `out[1] = NULL` needs an array of two entries at least
        if cfg.DEFARRAYSZ < 2 then none
        else if w.ret = 0 then mkarray_loop cfg e fuel ⟨w.db, 1, cfg.DEFARRAYSZ, [keybuf]⟩
        else some (w.ret, ⟨w.db, 1, cfg.DEFARRAYSZ, [keybuf]⟩)
      else if st.nr + 1 = st.na then
        -- `out` is used after `realloc` was handed the block it points to
        none
      else if w.ret = 0 then mkarray_loop cfg e fuel { st with db := w.db }
      else some (w.ret, { st with db := w.db })

/-- Function `dkimf_db_mkarray (db, a)`; `fuel` bounds the rounds of the loop
over a Berkeley DB store. -/
def dkimf_db_mkarray (cfg : Config) (e : Env) (fuel : Nat) (db : dkim_db) :
    Option mkarray_result :=
  if db.db_type = to_u_int DKIMF_DB_TYPE_REFILE then some ⟨-1, db, none⟩
  else if cfg.USE_DB ∧ db.db_type ≠ to_u_int DKIMF_DB_TYPE_BDB ∧ db.db_nrecs = 0 then
    some ⟨0, db, none⟩
  else if cfg.USE_DB ∧ db.db_type ≠ to_u_int DKIMF_DB_TYPE_BDB ∧ db.db_array ≠ none then
    some ⟨e.array_as_int, db, none⟩
  else if db.db_type = to_u_int DKIMF_DB_TYPE_FILE ∨ db.db_type = to_u_int DKIMF_DB_TYPE_CSL then
    match mkarray_fill db.db_nrecs.toNat db.db_handle.as_list with
    | none => none
    | some out => some ⟨(db.db_nrecs.toNat : Int), { db with db_array := some out }, some out⟩
  else if cfg.USE_DB ∧ db.db_type = to_u_int DKIMF_DB_TYPE_BDB then
    let db := { db with db_array := none }
    match mkarray_loop cfg e fuel ⟨db, 0, 0, []⟩ with
    | none => none
    | some (status, st) =>
      if status = -1 then some ⟨-1, st.db, none⟩
      else
        some ⟨(st.nr : Int),
          { st.db with db_array := some (st.out.map some ++ [none]),
                       db_iflags := st.db.db_iflags ||| DKIMF_DB_IFLAG_FREEARRAY },
          some (st.out.map some ++ [none])⟩
  else none

/-! ## dkimf_db_open -/

/-- The flag `REG_EXTENDED` of `<regex.h>`. -/
def REG_EXTENDED : Nat := 1

/-- The flag `REG_ICASE` of `<regex.h>`. -/
def REG_ICASE : Nat := 2

/-- Modelled from the spec: `dkimf_trimspaces` of `util.c` is not among the
sources; it trims the whitespace at both ends of the line ("leading/trailing
whitespace trimmed"). -/
def dkimf_trimspaces (line : CStr) : CStr :=
  ((line.dropWhile (fun c => isascii c && isspace c)).reverse.dropWhile
    (fun c => isascii c && isspace c)).reverse

/-- The loop `for (p = strstr(name, ".db"); p != NULL; p = strstr(p + 1, ".db")) q = p;`
started with `p` and `q`: the value of `q` when it ends, or `none` when it is
still running after `fuel` rounds. -/
def db_suffix_loop (name : CStr) : Nat → Option Nat → Option Nat → Option (Option Nat)
  | 0, _, _ => none
  | _ + 1, none, q => some q
  | fuel + 1, some p, _ =>
    db_suffix_loop name fuel
      ((strstr (name.drop (p + 1)) ".db".toList).map (· + (p + 1))) (some p)

/-- The loop `for (c = 0; c < DKIMF_DB_TYPE_COUNT; c++)` over the table
`dbtypes`, for the values of `c` listed: the type found, or `none` when
`dbtypes[c]` is read past the end of the table. -/
def dbtype_loop (cfg : Config) (dbtype : CStr) : List Nat → Nat → Option Nat
  | [], ty => some ty
  | c :: cs, ty =>
    match (dbtypes cfg).get? c with
    | none => none
    | some ent =>
      dbtype_loop cfg dbtype cs (if strcasecmp ent.1 dbtype = 0 then to_u_int ent.2 else ty)

/-- What the first part of `dkimf_db_open` settles: the function returns 1
(unknown type), or goes on with a type and the locator `p`. -/
inductive open_type where
  | unknown
  | known (db_type : Nat) (p : CStr)
  deriving DecidableEq, Repr

/-- The first part of `dkimf_db_open`, up to the `switch`: the type of the
database and the locator, from the name. -/
def dkimf_db_open_type (cfg : Config) (name : CStr) : Option open_type :=
  match strchr name ':' with
  | none =>
    let bdb : Option Bool :=
      if cfg.USE_DB then
        (db_suffix_loop name (name.length + 1) (strstr name ".db".toList) none).map
          (fun q => match q with
            | none => false
            | some q => decide (name.drop (q + 3) = []))
      else some false
    bdb.map (fun b =>
      if b then .known (to_u_int DKIMF_DB_TYPE_BDB) name
      else if name.head? = some '/' then .known (to_u_int DKIMF_DB_TYPE_FILE) name
      else .known (to_u_int DKIMF_DB_TYPE_CSL) name)
  | some p =>
    -- `name - p`, not `p - name`
    let clen := MIN cfg.BUFRSZ (to_size_t ((0 : Int) - (p : Int)))
    let dbtype := strncpy name clen
    match dbtype_loop cfg dbtype (List.range DKIMF_DB_TYPE_COUNT)
        (to_u_int DKIMF_DB_TYPE_UNKNOWN) with
    | none => none
    | some ty =>
      if ty = to_u_int DKIMF_DB_TYPE_UNKNOWN then some .unknown
      else some (.known ty (name.drop (p + 1)))

/-- The state of the field `db_list_value` of a node under construction that
no statement has written.  The nodes come from `malloc` and are not cleared,
and `dkimf_db_open` never stores NULL in the field: in a chain under
construction a value is either a string that `strdup` made or not written. -/
abbrev not_written : Option CStr := none

/-- The chain under construction and the counter `n`: the nodes linked so far,
in order.  The `db_list_value` of a node is `not_written` or the string
stored; the `db_list_next` of the last node is not written either. -/
structure build_state where
  list : List dkimf_db_list
  n : Int
  deriving DecidableEq, Repr

/-- The end of each construction branch: the new node is linked behind the
last one (`next->db_list_next = newl`) or becomes the head, and `n` is
incremented.  The `db_list_next` of the new node itself is not written. -/
def build_state.add (st : build_state) (newl : dkimf_db_list) : build_state :=
  ⟨st.list ++ [newl], st.n + 1⟩

/-- The number of pointer fields of the chain under construction that no
statement has written: the `db_list_value` of each node added without value,
and the `db_list_next` of the last node. -/
def build_state.unwritten_fields (st : build_state) : Nat :=
  (st.list.filter (fun node => node.db_list_value.isNone)).length +
    (if st.list.isEmpty then 0 else 1)

/-- The chain that `new->db_handle = list` hands over, as the calls that
follow read it.  A field that was never written reads as NULL when the
allocator hands out zeroed memory; when it does not, the field holds what the
memory held before, which is no pointer of the program, and the chain has no
defined content. -/
def build_state.read (cfg : Config) (st : build_state) : Option (List dkimf_db_list) :=
  if st.unwritten_fields = 0 ∨ cfg.zeroed_malloc = true then some st.list else none

/-- The body of the token loop of the csl case, for the token `p`.  For a
token without '=' the branch `if (eq != NULL)` is skipped and nothing is
stored in `db_list_value`. -/
def csl_token (flags : Nat) (p : CStr) (st : build_state) : build_state :=
  match strchr p '=' with
  | some eq =>
    if flags &&& DKIMF_DB_FLAG_VALLIST ≠ 0 then
      (strtok_loop '|' ((p.drop (eq + 1)).length + 1) (p.drop (eq + 1))).foldl
        (fun st q => st.add ⟨p.take eq, some q⟩) st
    else st.add ⟨p.take eq, some (p.drop (eq + 1))⟩
  | none => st.add ⟨p, not_written⟩

/-- The scan of a flat-file line for the key and the value: the buffer, the
pointers `key` and `value` (offsets into it) and `gapfound`. -/
structure scan_state where
  line : List Char
  key : Option Nat
  value : Option Nat
  gapfound : Bool
  deriving DecidableEq, Repr

/-- The body of the loop `for (p = line; *p != '\0'; p++)` that finds the key
and the value, at offset `p` where the character `c` stands. -/
def scan_step (st : scan_state) (p : Nat) (c : Char) : scan_state :=
  if !isascii c || !isspace c then
    if st.key = none then { st with key := some p }
    else if st.value = none ∧ st.gapfound = true then { st with value := some p }
    else st
  else if st.key ≠ none ∧ st.value = none then
    { st with line := st.line.set p '\x00', gapfound := true }
  else st

/-- The loop `for (p = line; *p != '\0'; p++)` from offset `p` on, over the
characters not read yet. -/
def scan_loop : scan_state → Nat → List Char → scan_state
  | st, _, [] => st
  | st, p, c :: cs => scan_loop (scan_step st p c) (p + 1) cs

/-- The first loop over a line read by `fgets`: the line is cut at the first
newline or `#`. -/
def strip_comment (line : List Char) : CStr :=
  line.takeWhile (fun c => c != '\x00' && c != '\n' && c != '#')

/-- The body of the line loop of the file case once the line is trimmed and
not empty: `none` when `assert(key != NULL)` fails.  In the branch for
`DKIMF_DB_FLAG_VALLIST` the key is `strdup(p)`, `p` standing at the end of
the line where the scan left it.  For a line without value the branch
`if (value != NULL)` is skipped and nothing is stored in `db_list_value`. -/
def file_line (flags : Nat) (line : CStr) (st : build_state) : Option build_state :=
  let sc := scan_loop ⟨line, none, none, false⟩ 0 line
  let p := line.length
  match sc.key with
  | none => none
  | some key =>
    match sc.value with
    | some value =>
      if flags &&& DKIMF_DB_FLAG_VALLIST ≠ 0 then
        some ((strtok_loop '|' ((cstr_at sc.line value).length + 1) (cstr_at sc.line value)).foldl
          (fun st q => st.add ⟨cstr_at sc.line p, some q⟩) st)
      else some (st.add ⟨cstr_at sc.line key, some (cstr_at sc.line value)⟩)
    | none => some (st.add ⟨cstr_at sc.line key, not_written⟩)

/-- The loop `while (fgets(line, BUFRSZ, f) != NULL)` of the file case on the
unread part `f` of the file: `none` when an assertion fails or the loop is
still running after `fuel` rounds. -/
def file_loop (cfg : Config) (flags : Nat) : Nat → CStr → build_state → Option build_state
  | 0, _, _ => none
  | fuel + 1, f, st =>
    match fgets cfg.BUFRSZ f with
    | none => some st
    | some (line, rest) =>
      let line := dkimf_trimspaces (strip_comment line)
      if line.length = 0 then file_loop cfg flags fuel rest st
      else
        match file_line flags line st with
        | none => none
        | some st => file_loop cfg flags fuel rest st

/-- The loop `while (fgets(line, BUFRSZ, f) != NULL)` of the refile case: the
chain built (each new node is put in front), or the value the function
returns when a line cannot be compiled; `none` when the loop is still running
after `fuel` rounds. -/
def refile_loop (cfg : Config) (e : Env) (reflags : Nat) :
    Nat → CStr → List dkimf_db_relist → Option (Except Int (List dkimf_db_relist))
  | 0, _, _ => none
  | fuel + 1, f, list =>
    match fgets cfg.BUFRSZ f with
    | none => some (.ok list)
    | some (line, rest) =>
      let line := dkimf_trimspaces (strip_comment line)
      if line.length = 0 then refile_loop cfg e reflags fuel rest list
      else
        match e.dkimf_mkregexp line with
        | none => some (.error (-1))
        | some patbuf =>
          if e.regcomp patbuf reflags ≠ 0 then some (.error (-1))
          else refile_loop cfg e reflags fuel rest (⟨⟨patbuf, reflags⟩⟩ :: list)

/-- What `dkimf_db_open` hands back: the value returned and the handle stored
through `db`, if one was. -/
structure open_result where
  ret : Int
  db : Option dkim_db
  deriving DecidableEq, Repr

/-- The second part of `dkimf_db_open`: the `switch` on the type of the new
handle and the two statements after it.  In the csl and the file case the
handle receives the chain as built; the result is `none` when the chain holds
a field that was never written and the allocator does not hand out zeroed
memory (`build_state.read`). -/
def dkimf_db_open_switch (cfg : Config) (e : Env) (new : dkim_db) (p : CStr) (flags : Nat) :
    Option open_result :=
  if new.db_type = to_u_int DKIMF_DB_TYPE_CSL then
    let st := (strtok_loop ',' (p.length + 1) p).foldl
      (fun st tok => csl_token new.db_flags tok st) ⟨[], 0⟩
    match st.read cfg with
    | none => none
    | some list => some ⟨0, some { new with db_handle := .list list, db_nrecs := st.n }⟩
  else if new.db_type = to_u_int DKIMF_DB_TYPE_FILE then
    if flags &&& DKIMF_DB_FLAG_READONLY = 0 then some ⟨2, none⟩
    else
      match e.fopen p with
      | none => some ⟨-1, none⟩
      | some f =>
        match file_loop cfg new.db_flags (f.length + 1) f ⟨[], 0⟩ with
        | none => none
        | some st =>
          match st.read cfg with
          | none => none
          | some list => some ⟨0, some { new with db_handle := .list list, db_nrecs := st.n }⟩
  else if new.db_type = to_u_int DKIMF_DB_TYPE_REFILE then
    if flags &&& DKIMF_DB_FLAG_READONLY = 0 then some ⟨2, none⟩
    else
      match e.fopen p with
      | none => some ⟨-1, none⟩
      | some f =>
        let reflags :=
          if new.db_flags &&& DKIMF_DB_FLAG_ICASE ≠ 0 then REG_EXTENDED ||| REG_ICASE
          else REG_EXTENDED
        match refile_loop cfg e reflags (f.length + 1) f [] with
        | none => none
        | some (.error r) => some ⟨r, none⟩
        | some (.ok list) => some ⟨0, some { new with db_handle := .relist list }⟩
  else if cfg.USE_DB ∧ new.db_type = to_u_int DKIMF_DB_TYPE_BDB then
    let opened := e.db_open p (decide (flags &&& DKIMF_DB_FLAG_READONLY ≠ 0))
    if opened.1 ≠ 0 then some ⟨3, none⟩
    else some ⟨0, some { new with db_handle := .bdb opened.2 }⟩
  else some ⟨0, some new⟩

/-- The handle `new` of `dkimf_db_open` when the `switch` is entered: zeroed
by `memset`, then `db_lock`, `db_flags` and `db_type` are set. -/
def new_handle (flags : Nat) (lock : Bool) (db_type : Nat) : dkim_db :=
  ⟨flags, 0, db_type, 0, 0, lock, .NULL, none, .NULL, none⟩

/-- Function `dkimf_db_open (db, name, flags, lock)`; `lock` tells whether the
caller supplies a mutex. -/
def dkimf_db_open (cfg : Config) (e : Env) (name : CStr) (flags : Nat) (lock : Bool) :
    Option open_result :=
  match dkimf_db_open_type cfg name with
  | none => none
  | some .unknown => some ⟨1, none⟩
  | some (.known ty p) =>
    dkimf_db_open_switch cfg e (new_handle flags lock ty) p flags

/-! ## dkimf_db_close -/

/-- The loop `while (list != NULL)` of `dkimf_db_list_free`: the strings
handed to `free` (the key of each node, and its value when that is not NULL),
in order, and the number of nodes handed to `free`. -/
def list_free_loop : List dkimf_db_list → List CStr × Nat
  | [] => ([], 0)
  | node :: next =>
    (node.db_list_key :: (node.db_list_value.toList ++ (list_free_loop next).1),
      (list_free_loop next).2 + 1)

/-- Function `dkimf_db_list_free (list)`: `none` when `assert(list != NULL)`
fails. -/
def dkimf_db_list_free (list : List dkimf_db_list) : Option (List CStr × Nat) :=
  match list with
  | [] => none
  | _ :: _ => some (list_free_loop list)

/-- Function `dkimf_db_relist_free (list)`: the patterns handed to `regfree`,
in order (one node is freed with each); `none` when `assert(list != NULL)`
fails. -/
def dkimf_db_relist_free (list : List dkimf_db_relist) : Option (List regex_t) :=
  match list with
  | [] => none
  | _ :: _ => some (list.map (fun node => node.db_relist_re))

/-- The loop `for (c = 0; db->db_array != NULL; c++) free(db->db_array[c]);`
of `dkimf_db_close` from `c` on: the strings handed to `free` when the loop
ends (`free(NULL)` does nothing).  The loop ends when `db->db_array` is NULL,
and nothing in it assigns `db->db_array`; the result is `none` when
`db->db_array[c]` is read past the end of the array, or the loop is still
running after `fuel` rounds. -/
def close_array_loop (db_array : Option (List (Option CStr))) : Nat → Nat → Option (List CStr)
  | 0, _ => none
  | fuel + 1, c =>
    match db_array with
    | none => some []
    | some arr =>
      match arr.get? c with
      | none => none
      | some ent => (close_array_loop db_array fuel (c + 1)).map (ent.toList ++ ·)

/-- What a call of `dkimf_db_close` released: the strings handed to `free` (in
order), the number of chain nodes handed to `free`, the patterns handed to
`regfree`, whether the block of `db_array` was handed to `free`, whether the
cursor was closed, whether the engine handle was closed, and whether the
handle itself was handed to `free`. -/
structure close_result where
  strings : List CStr
  nodes : Nat
  patterns : List regex_t
  array : Bool
  cursor : Bool
  engine : Bool
  handle : Bool
  deriving DecidableEq, Repr

/-- Function `dkimf_db_close (db)`; `fuel` bounds the rounds of the loop over
the array.  The result is `none` when an assertion fails, the array is read
past its end, or that loop does not end. -/
def dkimf_db_close (cfg : Config) (fuel : Nat) (db : dkim_db) : Option close_result :=
  let freed : Option (List CStr × Bool) :=
    match db.db_array with
    | none => some ([], false)
    | some _ =>
      if db.db_iflags &&& DKIMF_DB_IFLAG_FREEARRAY ≠ 0 then
        (close_array_loop db.db_array fuel 0).map (fun s => (s, true))
      else some ([], true)
  match freed with
  | none => none
  | some (strings, array) =>
    if db.db_type = to_u_int DKIMF_DB_TYPE_FILE ∨ db.db_type = to_u_int DKIMF_DB_TYPE_CSL then
      match dkimf_db_list_free db.db_handle.as_list with
      | none => none
      | some (s, n) => some ⟨strings ++ s, n, [], array, false, false, true⟩
    else if db.db_type = to_u_int DKIMF_DB_TYPE_REFILE then
      match dkimf_db_relist_free db.db_handle.as_relist with
      | none => none
      | some pats => some ⟨strings, pats.length, pats, array, false, false, true⟩
    else if cfg.USE_DB ∧ db.db_type = to_u_int DKIMF_DB_TYPE_BDB then
      some ⟨strings, 0, [], array, !db.db_cursor.is_null, true, false⟩
    else none

/-! ## Running the operations -/

/-- The condition under which the scan of `dkimf_db_get` breaks out at a
node: the probe matches the key and `DKIMF_DB_FLAG_MATCHBOTH` is clear, or
the node has no value, or the probe matches the value. -/
def get_hit (flags : Nat) (buf : CStr) (node : dkimf_db_list) : Prop :=
  (get_matched flags buf node.db_list_key = true ∧ flags &&& DKIMF_DB_FLAG_MATCHBOTH = 0) ∨
  node.db_list_value = none ∨
  ∃ value, node.db_list_value = some value ∧ get_matched flags buf value = true

/-- As many calls of `dkimf_db_walk` as the first numeric argument says, the
first with `first` as given and the later ones with `first = false`, each
with a key buffer of `keylen` bytes and a data buffer of `datalen` bytes: the
results of the calls, in order. -/
def walk_calls (cfg : Config) (e : Env) (keylen datalen : Nat) :
    Nat → Bool → dkim_db → Option (List walk_result)
  | 0, _, _ => some []
  | k + 1, first, db =>
    match dkimf_db_walk cfg e db first true (.valid keylen) true (.valid datalen) with
    | none => none
    | some w => (walk_calls cfg e keylen datalen k false w.db).map (w :: ·)

/-- The type that the resolution rules give to a name without a type in
front: the engine when it is compiled in and the name ends in ".db", else the
flat file when the name begins with '/', else the comma list. -/
def spec_default_type (cfg : Config) (name : CStr) : Nat :=
  if cfg.USE_DB = true ∧ ".db".toList <:+ name then to_u_int DKIMF_DB_TYPE_BDB
  else if name.head? = some '/' then to_u_int DKIMF_DB_TYPE_FILE
  else to_u_int DKIMF_DB_TYPE_CSL

/-- The pieces that a string falls into when it is cut at every `d`, the empty
pieces included. -/
def spec_split (d : Char) : CStr → List CStr
  | [] => [[]]
  | c :: cs =>
    if c = d then [] :: spec_split d cs
    else
      match spec_split d cs with
      | [] => [[c]]
      | t :: ts => (c :: t) :: ts

/-- The tokens of the spec: the non-empty pieces of a string cut at every `d`,
in order. -/
def spec_tokens (d : Char) (s : CStr) : List CStr :=
  (spec_split d s).filter (fun t => !t.isEmpty)

/-- The record that the spec gives for a token of a comma list: with a '=' in it, the
key is the text before the first '=' and the value all the text after it;
without one, the key is the token and there is no value. -/
def spec_csl_record (tok : CStr) : dkimf_db_list :=
  if '=' ∈ tok then ⟨tok.takeWhile (· != '='), some ((tok.dropWhile (· != '=')).drop 1)⟩
  else ⟨tok, none⟩

/-- The test of the scan of a flat-file line for a character that is not
white space: `!isascii(*p) || !isspace(*p)`. -/
def scan_nonspace (c : Char) : Bool := !isascii c || !isspace c

/-- The record that a trimmed flat-file line gives without
`DKIMF_DB_FLAG_VALLIST`: the key is the first run of characters that are not
white space; the value is what follows the white space after the key, up to
the end of the line (white space inside it included); when nothing follows
the value field is not written.  This is the closed form of what the scan of
the file case computes; `file_line_eq` compares the two. -/
def file_record (line : CStr) : dkimf_db_list :=
  ⟨line.takeWhile scan_nonspace,
    if ((line.dropWhile scan_nonspace).dropWhile (fun c => !scan_nonspace c)) = [] then
      not_written
    else some ((line.dropWhile scan_nonspace).dropWhile (fun c => !scan_nonspace c))⟩

/-- The record that the spec gives for a trimmed flat-file line: the key is
the first run of characters that are not white space, the value the next such
run after the white space that follows the key. -/
def spec_file_record (line : CStr) : dkimf_db_list :=
  ⟨line.takeWhile scan_nonspace,
    if ((line.dropWhile scan_nonspace).dropWhile (fun c => !scan_nonspace c)) = [] then none
    else some (((line.dropWhile scan_nonspace).dropWhile
      (fun c => !scan_nonspace c)).takeWhile scan_nonspace)⟩

/-! ## Sample inputs -/

/-- A build with Berkeley DB, `BUFRSZ` 1024 and `DEFARRAYSZ` 16, run with an
allocator that hands out zeroed memory. -/
def sample_config : Config := ⟨true, 1024, 16, true⟩

/-- The same build run with an allocator that does not clear the memory it
hands out. -/
def sample_config_raw : Config := ⟨true, 1024, 16, false⟩

/-- An environment without files, in which every engine and lock call
succeeds. -/
def sample_env : Env :=
  { fopen := fun _ => none, dkimf_mkregexp := fun _ => none, regcomp := fun _ _ => 0,
    regexec := fun _ _ => 1, db_open := fun _ _ => (0, ⟨[]⟩), fd_status := 0, fd := 3,
    lock_status := 0, op_error := none, cursor_error := none, unlock_status := 0,
    array_as_int := 0 }

/-- The environment in which every file holds `content`. -/
def sample_file_env (content : CStr) : Env := { sample_env with fopen := fun _ => some content }

/-- The environment in which the advisory lock cannot be taken. -/
def sample_lock_fails : Env := { sample_env with lock_status := -1 }

/-- The environment in which the advisory lock cannot be released. -/
def sample_unlock_fails : Env := { sample_env with unlock_status := -1 }

/-- The handle that `dkimf_db_open` hands back for a comma list without a
mutex: the flags and the chain are as given. -/
def sample_list_db (flags : Nat) (chain : List dkimf_db_list) : dkim_db :=
  ⟨flags, 0, to_u_int DKIMF_DB_TYPE_CSL, 0, chain.length, false, .list chain, none, .NULL, none⟩

/-- A Berkeley DB handle with the records given, with or without a mutex. -/
def sample_bdb_db (lock : Bool) (records : List (CStr × CStr)) : dkim_db :=
  ⟨0, 0, to_u_int DKIMF_DB_TYPE_BDB, 0, 0, lock, .bdb ⟨records⟩, none, .NULL, none⟩

/-- A build without Berkeley DB, `BUFRSZ` 1024 and `DEFARRAYSZ` 16, run with
an allocator that hands out zeroed memory. -/
def sample_config_nodb : Config := ⟨false, 1024, 16, true⟩

/-- The handle that `dkimf_db_open` hands back for a flat file without a
mutex: the flags and the chain are as given. -/
def sample_file_db (flags : Nat) (chain : List dkimf_db_list) : dkim_db :=
  ⟨flags, 0, to_u_int DKIMF_DB_TYPE_FILE, 0, chain.length, false, .list chain, none, .NULL, none⟩

/-- The file of the scenario: two entries and a comment line. -/
def sample_list_txt : CStr := "alice secret1\n#comment\nbob secret2\n".toList

/-- The chain that the comma list "a=1|2,b=3" gives under
`DKIMF_DB_FLAG_VALLIST`. -/
def sample_vallist_chain : List dkimf_db_list :=
  [⟨"a".toList, some "1".toList⟩, ⟨"a".toList, some "2".toList⟩, ⟨"b".toList, some "3".toList⟩]

/-- A handle of type refile with the patterns given, as `dkimf_db_open` builds
it. -/
def sample_refile_db (chain : List dkimf_db_relist) : dkim_db :=
  ⟨1, 0, to_u_int DKIMF_DB_TYPE_REFILE, 0, 0, false, .relist chain, none, .NULL, none⟩

/-- An environment in which `regexec` reports a match exactly when the text of
the pattern is a leading part of the string. -/
def sample_regex_env : Env :=
  { sample_env with regexec := fun re s => if re.pattern.isPrefixOf s then 0 else 1 }

/-- A build with Berkeley DB in which `BUFRSZ` is 0, so that
`sizeof keybuf - 1` is the null pointer constant. -/
def sample_config_zero : Config := ⟨true, 0, 16, true⟩

/-- A Berkeley DB handle as the last statements of `dkimf_db_mkarray` leave
it: `db_array` holds the keys given and the terminator, and
`DKIMF_DB_IFLAG_FREEARRAY` is set. -/
def sample_bdb_array_db (records : List (CStr × CStr)) : dkim_db :=
  { sample_bdb_db false records with
    db_iflags := DKIMF_DB_IFLAG_FREEARRAY,
    db_array := some (records.map (fun r => some r.1) ++ [none]) }

/-! ## Lemmas on the C library -/

theorem char_eq_of_toNat_eq (a b : Char) (h : a.toNat = b.toNat) : a = b := by
  rw [← Char.ofNat_toNat a, ← Char.ofNat_toNat b, h]

theorem tolower_toNat_eq_zero (c : Char) (h : (tolower c).toNat = 0) : c.toNat = 0 := by
  unfold tolower at h
  split at h
  · rename_i hu
    obtain ⟨h1, h2⟩ := hu
    generalize c.toNat = n at *
    interval_cases n <;> revert h <;> decide
  · exact h

theorem strcasecmp_eq_zero (a : CStr) : ∀ (b : CStr), strcasecmp a b = 0 →
    '\x00' ∉ a → '\x00' ∉ b → a.map tolower = b.map tolower := by
  induction a with
  | nil =>
    intro b h _ hb
    cases b with
    | nil => rfl
    | cons c t =>
      exfalso
      unfold strcasecmp at h
      have h0 : (tolower c).toNat = 0 := by omega
      have := char_eq_of_toNat_eq c '\x00' (tolower_toNat_eq_zero c h0)
      exact hb (this ▸ List.mem_cons_self _ _)
  | cons c s ih =>
    intro b h ha hb
    cases b with
    | nil =>
      exfalso
      unfold strcasecmp at h
      have h0 : (tolower c).toNat = 0 := by omega
      have := char_eq_of_toNat_eq c '\x00' (tolower_toNat_eq_zero c h0)
      exact ha (this ▸ List.mem_cons_self _ _)
    | cons d t =>
      unfold strcasecmp at h
      split at h
      · rename_i heq
        simp only [List.map_cons, heq, List.cons.injEq, true_and]
        exact ih t h (fun hm => ha (List.mem_cons_of_mem _ hm))
          (fun hm => hb (List.mem_cons_of_mem _ hm))
      · rename_i hne
        exfalso
        apply hne
        apply char_eq_of_toNat_eq
        omega

theorem strcmp_eq_zero_iff (a : CStr) : ∀ (b : CStr), '\x00' ∉ a → '\x00' ∉ b →
    (strcmp a b = 0 ↔ a = b) := by
  induction a with
  | nil =>
    intro b _ hb
    cases b with
    | nil => simp [strcmp]
    | cons c t =>
      unfold strcmp
      constructor
      · intro h
        have h0 : c.toNat = 0 := by omega
        exact absurd (char_eq_of_toNat_eq c '\x00' h0 ▸ List.mem_cons_self _ _) hb
      · intro h; cases h
  | cons c s ih =>
    intro b ha hb
    cases b with
    | nil =>
      unfold strcmp
      constructor
      · intro h
        have h0 : c.toNat = 0 := by omega
        exact absurd (char_eq_of_toNat_eq c '\x00' h0 ▸ List.mem_cons_self _ _) ha
      · intro h; cases h
    | cons d t =>
      unfold strcmp
      split
      · rename_i heq
        subst heq
        rw [ih t (fun hm => ha (List.mem_cons_of_mem _ hm))
          (fun hm => hb (List.mem_cons_of_mem _ hm))]
        simp
      · rename_i hne
        constructor
        · intro h
          exact absurd (char_eq_of_toNat_eq c d (by omega)) hne
        · intro h
          cases h
          exact absurd rfl hne

theorem strchr_none_iff (c : Char) : ∀ (s : CStr), strchr s c = none ↔ c ∉ s := by
  intro s
  induction s with
  | nil => simp [strchr]
  | cons a s ih =>
    unfold strchr
    by_cases h : a = c
    · simp [h]
    · rw [if_neg h]
      simp only [Option.map_eq_none', ih, List.mem_cons, not_or]
      exact ⟨fun hs => ⟨fun hc => h hc.symm, hs⟩, fun hs => hs.2⟩

theorem strchr_some (c : Char) : ∀ (s : CStr) (p : Nat), strchr s c = some p →
    s[p]? = some c ∧ s.take p = s.takeWhile (· != c) := by
  intro s
  induction s with
  | nil => intro p h; simp [strchr] at h
  | cons a s ih =>
    intro p h
    unfold strchr at h
    by_cases hac : a = c
    · rw [if_pos hac] at h
      cases h
      simp [hac]
    · rw [if_neg hac] at h
      cases hs : strchr s c with
      | none => rw [hs] at h; cases h
      | some k =>
        rw [hs] at h
        simp only [Option.map_some', Option.some.injEq] at h
        subst h
        obtain ⟨h1, h2⟩ := ih k hs
        refine ⟨by simpa using h1, ?_⟩
        simp [List.takeWhile_cons, hac, h2]

theorem strstr_none (nd : CStr) : ∀ (s : CStr), strstr s nd = none →
    ∀ j, nd.isPrefixOf (s.drop j) = false := by
  intro s
  induction s with
  | nil =>
    intro h j
    unfold strstr at h
    split at h
    · cases h
    · rename_i hne
      cases nd with
      | nil => exact absurd rfl hne
      | cons a t => simp [List.isPrefixOf]
  | cons a s ih =>
    intro h j
    unfold strstr at h
    split at h
    · cases h
    · rename_i hnp
      have hs : strstr s nd = none := by
        cases hs : strstr s nd with
        | none => rfl
        | some i => rw [hs] at h; cases h
      cases j with
      | zero => exact eq_false_of_ne_true hnp
      | succ j => simpa using ih hs j

theorem strstr_some (nd : CStr) : ∀ (s : CStr) (i : Nat), strstr s nd = some i →
    nd.isPrefixOf (s.drop i) = true ∧ ∀ j, j < i → nd.isPrefixOf (s.drop j) = false := by
  intro s
  induction s with
  | nil =>
    intro i h
    unfold strstr at h
    split at h
    · rename_i hnil
      cases h
      subst hnil
      exact ⟨by simp [List.isPrefixOf], fun j hj => absurd hj (Nat.not_lt_zero _)⟩
    · cases h
  | cons a s ih =>
    intro i h
    unfold strstr at h
    split at h
    · rename_i hp
      cases h
      exact ⟨by simpa using hp, fun j hj => absurd hj (Nat.not_lt_zero _)⟩
    · rename_i hnp
      cases hs : strstr s nd with
      | none => rw [hs] at h; cases h
      | some k =>
        rw [hs] at h
        simp only [Option.map_some', Option.some.injEq] at h
        subst h
        obtain ⟨h1, h2⟩ := ih k hs
        refine ⟨by simpa using h1, ?_⟩
        intro j hj
        cases j with
        | zero => exact eq_false_of_ne_true hnp
        | succ j => simpa using h2 j (by omega)

theorem isPrefixOf_length (nd s : CStr) (h : nd.isPrefixOf s = true) : nd.length ≤ s.length := by
  have := List.isPrefixOf_iff_prefix.1 h
  exact this.length_le

theorem strlcpy_fits (s : CStr) (n : Nat) (h : s.length < n) :
    strlcpy s n = (some s, s.length) := by
  unfold strlcpy
  have h0 : n ≠ 0 := by omega
  rw [if_neg h0, List.take_of_length_le (by omega)]

/-! ## Lemmas on dkimf_db_get -/

theorem get_scan_ne_nil_iff (flags : Nat) (buf : CStr) (chain : List dkimf_db_list) :
    dkimf_db_get_scan flags buf chain ≠ [] ↔ ∃ node ∈ chain, get_hit flags buf node := by
  induction chain with
  | nil => simp [dkimf_db_get_scan]
  | cons node next ih =>
    unfold dkimf_db_get_scan
    by_cases h1 : (get_matched flags buf node.db_list_key &&
        decide (flags &&& DKIMF_DB_FLAG_MATCHBOTH = 0)) = true
    · rw [if_pos h1]
      simp only [ne_eq, reduceCtorEq, not_false_eq_true, List.mem_cons, exists_eq_or_imp, true_iff]
      left; left
      simpa using h1
    · rw [if_neg h1]
      cases hv : node.db_list_value with
      | none =>
        simp only [ne_eq, reduceCtorEq, not_false_eq_true, List.mem_cons, exists_eq_or_imp,
          true_iff]
        left; right; left; exact hv
      | some value =>
        simp only
        by_cases h2 : get_matched flags buf value = true
        · rw [if_pos h2]
          simp only [ne_eq, reduceCtorEq, not_false_eq_true, List.mem_cons, exists_eq_or_imp,
            true_iff]
          left; right; right; exact ⟨value, hv, h2⟩
        · rw [if_neg h2, ih]
          simp only [List.mem_cons, exists_eq_or_imp]
          constructor
          · intro h; right; exact h
          · rintro (h | h)
            · rcases h with h | h | ⟨v, hv2, hm⟩
              · exact absurd (by simpa using h) h1
              · rw [hv] at h; cases h
              · rw [hv] at hv2; cases hv2; exact absurd hm h2
            · exact h

theorem get_list_result (cfg : Config) (e : Env) (db : dkim_db) (l : Locks)
    (buf : CStr) (buflen : Nat) (outbuf : Option Nat)
    (hty : db.db_type = to_u_int DKIMF_DB_TYPE_FILE ∨ db.db_type = to_u_int DKIMF_DB_TYPE_CSL) :
    ∃ r, dkimf_db_get cfg e db l buf buflen outbuf true = some r ∧ r.ret = 0 ∧
      r.found = some (decide (dkimf_db_get_scan db.db_flags buf db.chain ≠ [])) := by
  unfold dkimf_db_get dkim_db.chain
  rw [if_pos hty]
  cases hs : dkimf_db_get_scan db.db_flags buf db.db_handle.as_list with
  | nil => simp
  | cons node rest =>
    cases hv : node.db_list_value with
    | none => simp [hv]
    | some value =>
      cases outbuf with
      | none => simp [hv]
      | some size => simp [hv]

/-! ## Lemmas on dkimf_db_walk and dkimf_db_mkarray -/

theorem list_type_ne_refile (db : dkim_db)
    (hty : db.db_type = to_u_int DKIMF_DB_TYPE_FILE ∨ db.db_type = to_u_int DKIMF_DB_TYPE_CSL) :
    db.db_type ≠ to_u_int DKIMF_DB_TYPE_REFILE ∧ db.db_type ≠ to_u_int DKIMF_DB_TYPE_BDB := by
  rcases hty with h | h <;> rw [h] <;> decide

theorem walk_list_step (cfg : Config) (e : Env) (db : dkim_db) (first : Bool)
    (keylen datalen : Nat) (node : dkimf_db_list) (next : List dkimf_db_list)
    (hty : db.db_type = to_u_int DKIMF_DB_TYPE_FILE ∨ db.db_type = to_u_int DKIMF_DB_TYPE_CSL)
    (hlist : (if first then db.db_handle.as_list else db.db_cursor.as_list) = node :: next)
    (hk : node.db_list_key.length < keylen)
    (hd : ∀ v, node.db_list_value = some v → v.length < datalen) :
    dkimf_db_walk cfg e db first true (.valid keylen) true (.valid datalen) =
      some ⟨0, { db with db_cursor := .list next }, some node.db_list_key,
        some node.db_list_key.length, node.db_list_value,
        node.db_list_value.map List.length⟩ := by
  unfold dkimf_db_walk
  rw [if_neg (list_type_ne_refile db hty).1, if_pos hty.symm]
  simp only [hlist, walk_copy, strlcpy_fits _ _ hk]
  cases hv : node.db_list_value with
  | none => simp
  | some v => simp [strlcpy_fits _ _ (hd v hv)]

theorem walk_list_end (cfg : Config) (e : Env) (db : dkim_db) (first : Bool)
    (key data : Bool) (keylen datalen : size_ptr)
    (hty : db.db_type = to_u_int DKIMF_DB_TYPE_FILE ∨ db.db_type = to_u_int DKIMF_DB_TYPE_CSL)
    (hlist : (if first then db.db_handle.as_list else db.db_cursor.as_list) = []) :
    dkimf_db_walk cfg e db first key keylen data datalen = some ⟨1, db, none, none, none, none⟩ := by
  unfold dkimf_db_walk
  rw [if_neg (list_type_ne_refile db hty).1, if_pos hty.symm]
  simp only [hlist]

theorem walk_calls_list (cfg : Config) (e : Env) (keylen datalen : Nat)
    (rest : List dkimf_db_list) :
    ∀ (db : dkim_db) (first : Bool),
      (db.db_type = to_u_int DKIMF_DB_TYPE_FILE ∨ db.db_type = to_u_int DKIMF_DB_TYPE_CSL) →
      (if first then db.db_handle.as_list else db.db_cursor.as_list) = rest →
      (∀ node ∈ rest, node.db_list_key.length < keylen) →
      (∀ node ∈ rest, ∀ v, node.db_list_value = some v → v.length < datalen) →
      ∃ ws, walk_calls cfg e keylen datalen (rest.length + 1) first db = some ws ∧
        ws.map (fun w => (w.ret, w.key, w.data)) =
          rest.map (fun node => ((0 : Int), some node.db_list_key, node.db_list_value)) ++
            [((1 : Int), none, none)] := by
  induction rest with
  | nil =>
    intro db first hty hlist _ _
    refine ⟨[⟨1, db, none, none, none, none⟩], ?_, rfl⟩
    simp [walk_calls, walk_list_end cfg e db first true true _ _ hty hlist]
  | cons node next ih =>
    intro db first hty hlist hk hd
    have hstep := walk_list_step cfg e db first keylen datalen node next hty hlist
      (hk node (List.mem_cons_self _ _)) (hd node (List.mem_cons_self _ _))
    obtain ⟨ws, hws, hmap⟩ := ih { db with db_cursor := .list next } false hty rfl
      (fun n hn => hk n (List.mem_cons_of_mem _ hn))
      (fun n hn => hd n (List.mem_cons_of_mem _ hn))
    refine ⟨(⟨0, { db with db_cursor := .list next }, some node.db_list_key,
        some node.db_list_key.length, node.db_list_value,
        node.db_list_value.map List.length⟩ : walk_result) :: ws, ?_, ?_⟩
    · rw [List.length_cons, walk_calls, hstep]
      simp only [hws, Option.map_some']
    · simp [hmap]

theorem mkarray_fill_chain (chain : List dkimf_db_list) :
    mkarray_fill chain.length chain =
      some (chain.map (fun node => some node.db_list_key) ++ [none]) := by
  induction chain with
  | nil => rfl
  | cons node next ih => simp [mkarray_fill, ih]

theorem mkarray_list_first (cfg : Config) (e : Env) (fuel : Nat) (db : dkim_db)
    (hty : db.db_type = to_u_int DKIMF_DB_TYPE_FILE ∨ db.db_type = to_u_int DKIMF_DB_TYPE_CSL)
    (hn : db.db_nrecs = (db.chain.length : Int)) (harr : db.db_array = none) :
    ∃ m, dkimf_db_mkarray cfg e fuel db = some m ∧ m.ret = (db.chain.length : Int) ∧
      (db.chain ≠ [] →
        m.a = some (db.chain.map (fun node => some node.db_list_key) ++ [none])) := by
  unfold dkimf_db_mkarray
  rw [if_neg (list_type_ne_refile db hty).1]
  by_cases h0 : cfg.USE_DB = true ∧ db.db_type ≠ to_u_int DKIMF_DB_TYPE_BDB ∧ db.db_nrecs = 0
  · rw [if_pos h0]
    have hlen : db.chain.length = 0 := by
      have := h0.2.2; rw [hn] at this; exact_mod_cast this
    refine ⟨_, rfl, by simp [hlen], ?_⟩
    intro hne
    exact absurd (List.length_eq_zero.1 hlen) hne
  · rw [if_neg h0, if_neg (by simp [harr]), if_pos hty]
    have hfill : mkarray_fill db.db_nrecs.toNat db.db_handle.as_list =
        some (db.chain.map (fun node => some node.db_list_key) ++ [none]) := by
      rw [hn, Int.toNat_ofNat]; exact mkarray_fill_chain _
    rw [hfill]
    exact ⟨_, rfl, by simp [hn], fun _ => rfl⟩

/-! ## Lemmas on dkimf_db_open -/

/-- The loop that looks for the last ".db" ends, and hands back the last
offset at which ".db" occurs in the name. -/
theorem db_suffix_loop_last (name : CStr) :
    ∀ (fuel : Nat) (p q : Option Nat) (b : Nat),
      b ≤ name.length → name.length + 1 ≤ fuel + b →
      (match p with
        | none => ∀ j, b ≤ j → ".db".toList.isPrefixOf (name.drop j) = false
        | some i => b ≤ i ∧ ".db".toList.isPrefixOf (name.drop i) = true ∧
            ∀ j, b ≤ j → j < i → ".db".toList.isPrefixOf (name.drop j) = false) →
      (match q with
        | none => ∀ j, j < b → ".db".toList.isPrefixOf (name.drop j) = false
        | some i => i < b ∧ ".db".toList.isPrefixOf (name.drop i) = true ∧
            ∀ j, i < j → j < b → ".db".toList.isPrefixOf (name.drop j) = false) →
      ∃ r, db_suffix_loop name fuel p q = some r ∧
        (match r with
          | none => ∀ j, ".db".toList.isPrefixOf (name.drop j) = false
          | some i => ".db".toList.isPrefixOf (name.drop i) = true ∧
              ∀ j, i < j → ".db".toList.isPrefixOf (name.drop j) = false) := by
  intro fuel
  induction fuel with
  | zero => intro p q b hb hf; omega
  | succ fuel ih =>
    intro p q b hb hf hp hq
    cases p with
    | none =>
      refine ⟨q, rfl, ?_⟩
      cases q with
      | none =>
        intro j
        by_cases hj : j < b
        · exact hq j hj
        · exact hp j (by omega)
      | some i =>
        refine ⟨hq.2.1, ?_⟩
        intro j hij
        by_cases hj : j < b
        · exact hq.2.2 j hij hj
        · exact hp j (by omega)
    | some i =>
      obtain ⟨hbi, hocc, hfirst⟩ := hp
      have hlen : i + 3 ≤ name.length := by
        have := isPrefixOf_length _ _ hocc
        simp only [List.length_drop] at this
        have h3 : ".db".toList.length = 3 := rfl
        omega
      unfold db_suffix_loop
      apply ih _ _ (i + 1) (by omega) (by omega)
      · cases hs : strstr (name.drop (i + 1)) ".db".toList with
        | none =>
          simp only [Option.map_none']
          intro j hj
          have := strstr_none _ _ hs (j - (i + 1))
          rw [List.drop_drop] at this
          have e : i + 1 + (j - (i + 1)) = j := by omega
          rwa [e] at this
        | some k =>
          simp only [Option.map_some']
          obtain ⟨h1, h2⟩ := strstr_some _ _ _ hs
          rw [List.drop_drop] at h1
          refine ⟨by omega, ?_, ?_⟩
          · have e : i + 1 + k = k + (i + 1) := by omega
            rwa [e] at h1
          · intro j hj1 hj2
            have := h2 (j - (i + 1)) (by omega)
            rw [List.drop_drop] at this
            have e : i + 1 + (j - (i + 1)) = j := by omega
            rwa [e] at this
      · exact ⟨by omega, hocc, fun j h1 h2 => by omega⟩

/-- Whether the loop of `dkimf_db_open` finds that the name ends in ".db". -/
theorem db_suffix_found_iff (name : CStr) :
    ∃ q, db_suffix_loop name (name.length + 1) (strstr name ".db".toList) none = some q ∧
      ((∃ i, q = some i ∧ name.drop (i + 3) = []) ↔ ".db".toList <:+ name) := by
  obtain ⟨r, hr, hlast⟩ := db_suffix_loop_last name (name.length + 1)
    (strstr name ".db".toList) none 0 (Nat.zero_le _) (by omega)
    (by
      cases hs : strstr name ".db".toList with
      | none => intro j _; exact strstr_none _ _ hs j
      | some i =>
        obtain ⟨h1, h2⟩ := strstr_some _ _ _ hs
        exact ⟨Nat.zero_le _, h1, fun j _ hj => h2 j hj⟩)
    (by intro j hj; omega)
  refine ⟨r, hr, ?_⟩
  cases r with
  | none =>
    simp only [reduceCtorEq, false_and, exists_false, false_iff]
    rintro ⟨pre, hpre⟩
    have hno := hlast pre.length
    have e : name.drop pre.length = ".db".toList := by rw [← hpre, List.drop_left]
    have hfalse : (".db".toList).isPrefixOf (".db".toList) = false := e ▸ hno
    revert hfalse; decide
  | some i =>
    obtain ⟨hocc, hafter⟩ := hlast
    have hp := List.isPrefixOf_iff_prefix.1 hocc
    simp only [Option.some.injEq, exists_eq_left']
    constructor
    · intro hnil
      obtain ⟨t, ht⟩ := hp
      have h3 : name.drop (i + 3) = t := by
        have : name.drop (i + 3) = (name.drop i).drop 3 := by
          rw [List.drop_drop]
        rw [this, ← ht]; rfl
      rw [hnil] at h3
      subst h3
      refine ⟨name.take i, ?_⟩
      rw [List.append_nil] at ht
      rw [ht]
      exact List.take_append_drop i name
    · rintro ⟨pre, hpre⟩
      have hlen := isPrefixOf_length _ _ hocc
      simp only [List.length_drop] at hlen
      have h3 : ".db".toList.length = 3 := rfl
      have hnl : name.length = pre.length + 3 := by rw [← hpre, List.length_append, h3]
      have hle : pre.length ≤ i := by
        by_contra hlt
        have hno := hafter pre.length (by omega)
        have e : name.drop pre.length = ".db".toList := by rw [← hpre, List.drop_left]
        have hfalse : (".db".toList).isPrefixOf (".db".toList) = false := e ▸ hno
        revert hfalse; decide
      apply List.drop_of_length_le
      omega

/-- The type that a name without ':' stands for. -/
theorem open_type_no_colon (cfg : Config) (name : CStr) (h : ':' ∉ name) :
    dkimf_db_open_type cfg name =
      some (.known
        (if cfg.USE_DB = true ∧ ".db".toList <:+ name then to_u_int DKIMF_DB_TYPE_BDB
         else if name.head? = some '/' then to_u_int DKIMF_DB_TYPE_FILE
         else to_u_int DKIMF_DB_TYPE_CSL) name) := by
  unfold dkimf_db_open_type
  rw [(strchr_none_iff ':' name).2 h]
  simp only
  obtain ⟨q, hq, hiff⟩ := db_suffix_found_iff name
  by_cases hdb : cfg.USE_DB = true
  · rw [if_pos hdb, hq]
    simp only [Option.map_some']
    cases q with
    | none =>
      have hs : ¬ ".db".toList <:+ name := fun hc => by
        obtain ⟨i, hi, _⟩ := hiff.2 hc
        cases hi
      simp only [Bool.false_eq_true, if_false, hs, and_false]
      split <;> rfl
    | some i =>
      by_cases hnil : name.drop (i + 3) = []
      · have hs : ".db".toList <:+ name := hiff.1 ⟨i, rfl, hnil⟩
        simp only [hnil, decide_True, if_true, hs, hdb, and_self]
      · have hs : ¬ ".db".toList <:+ name := fun hc => by
          obtain ⟨j, hj, hjn⟩ := hiff.2 hc
          cases hj
          exact hnil hjn
        simp only [hnil, decide_False, Bool.false_eq_true, if_false, hs, and_false]
        split <;> rfl
  · rw [if_neg hdb]
    simp only [Option.map_some', Bool.false_eq_true, if_false, hdb, false_and]
    split <;> rfl

/-- The chain that is read is the chain that was built. -/
theorem build_read_some (cfg : Config) (st : build_state) (list : List dkimf_db_list)
    (h : st.read cfg = some list) : list = st.list := by
  unfold build_state.read at h
  split at h
  · simp only [Option.some.injEq] at h
    exact h.symm
  · cases h

/-- With an allocator that hands out zeroed memory every chain built can be
read. -/
theorem build_read_zeroed (cfg : Config) (st : build_state) (h : cfg.zeroed_malloc = true) :
    st.read cfg = some st.list := by
  unfold build_state.read
  rw [if_pos (Or.inr h)]

/-- A chain that is not empty holds a field that was never written, and can
be read only with an allocator that hands out zeroed memory. -/
theorem build_read_raw (cfg : Config) (st : build_state) (h : cfg.zeroed_malloc = false)
    (hne : st.list ≠ []) : 0 < st.unwritten_fields ∧ st.read cfg = none := by
  have hpos : 0 < st.unwritten_fields := by
    unfold build_state.unwritten_fields
    cases hl : st.list with
    | nil => exact absurd hl hne
    | cons a t => simp
  refine ⟨hpos, ?_⟩
  unfold build_state.read
  rw [if_neg]
  rintro (h0 | h1)
  · omega
  · rw [h] at h1
    cases h1

/-- The `switch` of `dkimf_db_open` leaves the type of the handle alone. -/
theorem open_switch_type (cfg : Config) (e : Env) (new : dkim_db) (p : CStr) (flags : Nat)
    (r : Int) (db : dkim_db)
    (h : dkimf_db_open_switch cfg e new p flags = some ⟨r, some db⟩) :
    db.db_type = new.db_type := by
  unfold dkimf_db_open_switch at h
  repeat' split at h
  all_goals try simp only [] at h
  all_goals try split at h
  all_goals first
    | (simp at h; done)
    | (simp only [Option.some.injEq, open_result.mk.injEq] at h
       rw [← h.2])

/-- With Berkeley DB compiled in, the loop over `dbtypes` stays within the
table, and leaves the type unknown when no entry matches. -/
theorem dbtype_loop_unknown (cfg : Config) (hdb : cfg.USE_DB = true) (d : CStr)
    (h : ∀ ent ∈ dbtypes cfg, strcasecmp ent.1 d ≠ 0) :
    dbtype_loop cfg d (List.range DKIMF_DB_TYPE_COUNT) (to_u_int DKIMF_DB_TYPE_UNKNOWN) =
      some (to_u_int DKIMF_DB_TYPE_UNKNOWN) := by
  have hr : List.range DKIMF_DB_TYPE_COUNT = [0, 1, 2, 3] := by decide
  have ht : dbtypes cfg = [("csl".toList, DKIMF_DB_TYPE_CSL), ("file".toList, DKIMF_DB_TYPE_FILE),
      ("refile".toList, DKIMF_DB_TYPE_REFILE), ("db".toList, DKIMF_DB_TYPE_BDB)] := by
    simp [dbtypes, hdb]
  rw [ht] at h
  have h0 : strcasecmp "csl".toList d ≠ 0 := h ("csl".toList, DKIMF_DB_TYPE_CSL) (by simp)
  have h1 : strcasecmp "file".toList d ≠ 0 := h ("file".toList, DKIMF_DB_TYPE_FILE) (by simp)
  have h2 : strcasecmp "refile".toList d ≠ 0 :=
    h ("refile".toList, DKIMF_DB_TYPE_REFILE) (by simp)
  have h3 : strcasecmp "db".toList d ≠ 0 := h ("db".toList, DKIMF_DB_TYPE_BDB) (by simp)
  rw [hr]
  simp only [dbtype_loop]
  rw [ht]
  simp only [List.get?, h0, h1, h2, h3, if_false]

/-- No entry of `dbtypes` matches a string that is empty, holds a ':' or is
longer than six characters. -/
theorem dbtypes_no_match (cfg : Config) (d : CStr) (hnul : '\x00' ∉ d)
    (hd : d = [] ∨ ':' ∈ d ∨ 6 < d.length) :
    ∀ ent ∈ dbtypes cfg, strcasecmp ent.1 d ≠ 0 := by
  intro ent hent h0
  have hmem : ent ∈ [("csl".toList, DKIMF_DB_TYPE_CSL), ("file".toList, DKIMF_DB_TYPE_FILE),
      ("refile".toList, DKIMF_DB_TYPE_REFILE), ("db".toList, DKIMF_DB_TYPE_BDB)] := by
    unfold dbtypes at hent
    split at hent
    · simpa using hent
    · simp only [List.append_nil, List.mem_cons, List.mem_singleton, List.not_mem_nil,
        or_false] at hent
      simp only [List.mem_cons, List.mem_singleton, List.not_mem_nil, or_false]
      rcases hent with h | h | h
      · exact Or.inl h
      · exact Or.inr (Or.inl h)
      · exact Or.inr (Or.inr (Or.inl h))
  have hlit : '\x00' ∉ ent.1 ∧ ent.1 ≠ [] ∧ ent.1.length ≤ 6 ∧ ':' ∉ ent.1.map tolower := by
    simp only [List.mem_cons, List.mem_singleton, List.not_mem_nil, or_false] at hmem
    rcases hmem with h | h | h | h <;> rw [h] <;> decide
  have hmap := strcasecmp_eq_zero _ _ h0 hlit.1 hnul
  have hlen : ent.1.length = d.length := by
    have := congrArg List.length hmap
    simpa using this
  rcases hd with h | h | h
  · subst h
    exact hlit.2.1 (List.length_eq_zero.1 hlen)
  · apply hlit.2.2.2
    rw [hmap]
    have : tolower ':' = ':' := by decide
    rw [← this]
    exact List.mem_map_of_mem _ h
  · omega

/-- Every name that holds a ':' is of unknown type: the length handed to
`strncpy` is computed from `name - p`, so that `dbtype` holds the name and
not the text before the ':'. -/
theorem open_type_colon (cfg : Config) (name : CStr) (hdb : cfg.USE_DB = true)
    (hbuf : 6 < cfg.BUFRSZ) (hsize : cfg.BUFRSZ + name.length < 2 ^ 64)
    (hnul : '\x00' ∉ name) (hcolon : ':' ∈ name) :
    dkimf_db_open_type cfg name = some .unknown := by
  unfold dkimf_db_open_type
  cases hp : strchr name ':' with
  | none => exact absurd hcolon ((strchr_none_iff _ _).1 hp)
  | some p =>
    obtain ⟨hget, _⟩ := strchr_some _ _ _ hp
    have hplt : p < name.length := by
      obtain ⟨hlt, _⟩ := List.getElem?_eq_some.1 hget
      exact hlt
    simp only
    have hno := dbtypes_no_match cfg (strncpy name (MIN cfg.BUFRSZ (to_size_t ((0 : Int) - (p : Int)))))
      (fun hm => hnul (List.mem_of_mem_take hm))
      (by
        unfold strncpy MIN to_size_t
        by_cases hp0 : p = 0
        · left
          subst hp0
          simp
        · right
          have hmod : (((0 : Int) - (p : Int)) % (2 : Int) ^ 64).toNat = 2 ^ 64 - p := by
            norm_num
            omega
          rw [hmod, if_pos (by omega)]
          by_cases hpb : p < cfg.BUFRSZ
          · left
            exact List.getElem?_mem ((List.getElem?_take_of_lt hpb).trans hget)
          · right
            rw [List.length_take]
            omega)
    rw [dbtype_loop_unknown cfg hdb _ hno]
    simp

/-- The values that the `switch` of `dkimf_db_open` can return for a type
other than refile. -/
theorem open_switch_ret (cfg : Config) (e : Env) (new : dkim_db) (p : CStr) (flags : Nat)
    (r : open_result) (hty : new.db_type ≠ to_u_int DKIMF_DB_TYPE_REFILE)
    (h : dkimf_db_open_switch cfg e new p flags = some r) :
    r.ret = 0 ∨ r.ret = 2 ∨ r.ret = -1 ∨ r.ret = 3 := by
  unfold dkimf_db_open_switch at h
  rw [if_neg hty] at h
  repeat' split at h
  all_goals try simp only [] at h
  all_goals try split at h
  all_goals first
    | (simp at h; done)
    | (simp only [Option.some.injEq] at h
       rw [← h]
       simp)

theorem strtok_r_ctx_length (s : CStr) (delim : Char) (tok ctx : CStr)
    (h : strtok_r s delim = some (tok, ctx)) : ctx.length < s.length := by
  unfold strtok_r at h
  split at h
  · cases h
  · rename_i a t hs
    simp only [Option.some.injEq, Prod.mk.injEq] at h
    obtain ⟨_, hctx⟩ := h
    subst hctx
    have h1 : (a :: t).length ≤ s.length := by
      rw [← hs]
      exact (List.dropWhile_sublist _).length_le
    have ha : (a != delim) = true := by
      have := List.head_dropWhile_not (· == delim) s (by rw [hs]; simp)
      simp only [hs, List.head_cons] at this
      simpa using this
    rw [List.dropWhile_cons, if_pos ha, List.length_drop]
    have h2 : (List.dropWhile (fun x => x != delim) t).length ≤ t.length :=
      (List.dropWhile_sublist _).length_le
    simp only [List.length_cons] at h1
    omega

/-- The token loop gives the same tokens for every bound above the length of
the string: the bound used in `dkimf_db_open` does not cut it short. -/
theorem strtok_loop_fuel (delim : Char) : ∀ (f1 f2 : Nat) (s : CStr),
    s.length < f1 → s.length < f2 → strtok_loop delim f1 s = strtok_loop delim f2 s := by
  intro f1
  induction f1 with
  | zero => intro f2 s h; omega
  | succ f1 ih =>
    intro f2 s h1 h2
    cases f2 with
    | zero => omega
    | succ f2 =>
      unfold strtok_loop
      cases hs : strtok_r s delim with
      | none => rfl
      | some tc =>
        obtain ⟨tok, ctx⟩ := tc
        have := strtok_r_ctx_length s delim tok ctx hs
        simp only
        rw [ih f2 ctx (by omega) (by omega)]

/-- Adding nodes to the chain keeps `n` equal to the length of the chain. -/
theorem build_add_fold (g : CStr → dkimf_db_list) : ∀ (qs : List CStr) (st : build_state),
    st.n = (st.list.length : Int) →
    (qs.foldl (fun st q => st.add (g q)) st).n =
      ((qs.foldl (fun st q => st.add (g q)) st).list.length : Int) := by
  intro qs
  induction qs with
  | nil => intro st h; exact h
  | cons q qs ih =>
    intro st h
    simp only [List.foldl_cons]
    apply ih
    simp [build_state.add, h]

theorem csl_token_n (flags : Nat) (p : CStr) (st : build_state)
    (h : st.n = (st.list.length : Int)) :
    (csl_token flags p st).n = ((csl_token flags p st).list.length : Int) := by
  unfold csl_token
  split
  · split
    · exact build_add_fold _ _ st h
    · simp [build_state.add, h]
  · simp [build_state.add, h]

theorem csl_fold_n (flags : Nat) : ∀ (toks : List CStr) (st : build_state),
    st.n = (st.list.length : Int) →
    (toks.foldl (fun st tok => csl_token flags tok st) st).n =
      ((toks.foldl (fun st tok => csl_token flags tok st) st).list.length : Int) := by
  intro toks
  induction toks with
  | nil => intro st h; exact h
  | cons t ts ih =>
    intro st h
    simp only [List.foldl_cons]
    exact ih _ (csl_token_n flags t st h)

theorem file_line_n (flags : Nat) (line : CStr) (st st2 : build_state)
    (h : st.n = (st.list.length : Int)) (h2 : file_line flags line st = some st2) :
    st2.n = (st2.list.length : Int) := by
  unfold file_line at h2
  simp only at h2
  split at h2
  · cases h2
  · split at h2
    · split at h2
      · simp only [Option.some.injEq] at h2
        rw [← h2]
        exact build_add_fold _ _ st h
      · simp only [Option.some.injEq] at h2
        rw [← h2]
        simp [build_state.add, h]
    · simp only [Option.some.injEq] at h2
      rw [← h2]
      simp [build_state.add, h]

theorem file_loop_n (cfg : Config) (flags : Nat) : ∀ (fuel : Nat) (f : CStr)
    (st st2 : build_state), st.n = (st.list.length : Int) →
    file_loop cfg flags fuel f st = some st2 → st2.n = (st2.list.length : Int) := by
  intro fuel
  induction fuel with
  | zero => intro f st st2 _ h2; simp [file_loop] at h2
  | succ fuel ih =>
    intro f st st2 h h2
    unfold file_loop at h2
    split at h2
    · simp only [Option.some.injEq] at h2
      rw [← h2]; exact h
    · simp only at h2
      split at h2
      · exact ih _ _ _ h h2
      · split at h2
        · cases h2
        · rename_i st3 h3
          exact ih _ _ _ (file_line_n flags _ st st3 h h3) h2

/-- A handle that `dkimf_db_open` hands back has no array and no cursor yet,
and when it is of type csl or file its `db_nrecs` is the length of its
chain. -/
theorem open_handle_fresh (cfg : Config) (e : Env) (name : CStr) (flags : Nat) (lock : Bool)
    (r : Int) (db : dkim_db) (h : dkimf_db_open cfg e name flags lock = some ⟨r, some db⟩) :
    db.db_array = none ∧ db.db_cursor = .NULL ∧ db.db_flags = flags ∧
    (db.db_type = to_u_int DKIMF_DB_TYPE_FILE ∨ db.db_type = to_u_int DKIMF_DB_TYPE_CSL →
      db.db_nrecs = (db.chain.length : Int)) := by
  unfold dkimf_db_open at h
  split at h
  · cases h
  · simp at h
  · rename_i ty p _
    unfold dkimf_db_open_switch at h
    split at h
    · simp only at h
      split at h
      · cases h
      · rename_i list hl
        have hlist := build_read_some cfg _ list hl
        subst hlist
        simp only [Option.some.injEq, open_result.mk.injEq] at h
        obtain ⟨_, h2⟩ := h
        subst h2
        refine ⟨rfl, rfl, rfl, fun _ => ?_⟩
        exact csl_fold_n _ _ _ rfl
    · split at h
      · split at h
        · simp at h
        · split at h
          · simp at h
          · split at h
            · simp at h
            · rename_i st hst
              split at h
              · cases h
              · rename_i list hl
                have hlist := build_read_some cfg _ list hl
                subst hlist
                simp only [Option.some.injEq, open_result.mk.injEq] at h
                obtain ⟨_, h2⟩ := h
                subst h2
                refine ⟨rfl, rfl, rfl, fun _ => ?_⟩
                exact file_loop_n cfg _ _ _ _ st rfl hst
      · rename_i hncsl hnfile
        have hnot : ∀ db2 : dkim_db, db2.db_type = ty →
            ¬ (db2.db_type = to_u_int DKIMF_DB_TYPE_FILE ∨
              db2.db_type = to_u_int DKIMF_DB_TYPE_CSL) := by
          intro db2 h2 hc
          rw [h2] at hc
          rcases hc with hc | hc
          · exact hnfile hc
          · exact hncsl hc
        repeat' split at h
        all_goals try simp only [] at h
        all_goals try split at h
        all_goals first
          | (simp at h; done)
          | (simp only [Option.some.injEq, open_result.mk.injEq] at h
             obtain ⟨_, h2⟩ := h
             subst h2
             exact ⟨rfl, rfl, rfl, fun hc => absurd hc (hnot _ rfl)⟩)

/-- For a name without ':', `dkimf_db_open` enters the `switch` with the type
that the resolution rules give and with the whole name as locator. -/
theorem open_no_colon (cfg : Config) (e : Env) (name : CStr) (flags : Nat)
    (lock : Bool) (h : ':' ∉ name) :
    dkimf_db_open_type cfg name = some (.known (spec_default_type cfg name) name) ∧
    dkimf_db_open cfg e name flags lock =
      dkimf_db_open_switch cfg e (new_handle flags lock (spec_default_type cfg name)) name flags ∧
    ∀ r db, dkimf_db_open cfg e name flags lock = some ⟨r, some db⟩ →
      db.db_type = spec_default_type cfg name := by
  have hres := open_type_no_colon cfg name h
  have hopen : dkimf_db_open cfg e name flags lock =
      dkimf_db_open_switch cfg e (new_handle flags lock (spec_default_type cfg name))
        name flags := by
    unfold dkimf_db_open
    rw [hres]
    rfl
  refine ⟨hres, hopen, ?_⟩
  intro r db hr
  rw [hopen] at hr
  exact open_switch_type cfg e _ name flags r db hr

/-- Without Berkeley DB the table has three entries and the loop over it
reads a fourth: for a name that holds a ':' the embedding gives
`dkimf_db_open` no result. -/
theorem open_colon_without_db (cfg : Config) (e : Env) (name : CStr) (flags : Nat) (lock : Bool)
    (hdb : cfg.USE_DB = false) (hcolon : ':' ∈ name) :
    dkimf_db_open cfg e name flags lock = none := by
  unfold dkimf_db_open dkimf_db_open_type
  cases hp : strchr name ':' with
  | none => exact absurd hcolon ((strchr_none_iff _ _).1 hp)
  | some p =>
    have hr : List.range DKIMF_DB_TYPE_COUNT = [0, 1, 2, 3] := by decide
    have ht : dbtypes cfg = [("csl".toList, DKIMF_DB_TYPE_CSL),
        ("file".toList, DKIMF_DB_TYPE_FILE), ("refile".toList, DKIMF_DB_TYPE_REFILE)] := by
      simp [dbtypes, hdb]
    simp only [hr, dbtype_loop]
    rw [ht]
    simp only [List.get?]

/-- With Berkeley DB compiled in, `BUFRSZ` above 6 and a name that fits the
address space, `dkimf_db_open` returns 1 and hands back no handle for every
name that holds a ':' before which none of the registered types stands; and
in every build it returns 1 for no name without ':'. -/
theorem open_unknown_type_with_db (cfg : Config) (e : Env) (name : CStr) (flags : Nat)
    (lock : Bool) :
    (cfg.USE_DB = true → 6 < cfg.BUFRSZ → cfg.BUFRSZ + name.length < 2 ^ 64 →
      '\x00' ∉ name → ':' ∈ name →
      (∀ ent ∈ dbtypes cfg, strcasecmp ent.1 (name.takeWhile (· != ':')) ≠ 0) →
      dkimf_db_open cfg e name flags lock = some ⟨1, none⟩) ∧
    (':' ∉ name → ∀ r, dkimf_db_open cfg e name flags lock = some r → r.ret ≠ 1) := by
  constructor
  · intro hdb hbuf hsize hnul hcolon _
    unfold dkimf_db_open
    rw [open_type_colon cfg name hdb hbuf hsize hnul hcolon]
  · intro hcolon r hr
    rw [(open_no_colon cfg e name flags lock hcolon).2.1] at hr
    have hty : (new_handle flags lock (spec_default_type cfg name)).db_type ≠
        to_u_int DKIMF_DB_TYPE_REFILE := by
      unfold new_handle spec_default_type
      simp only
      split
      · decide
      · split <;> decide
    rcases open_switch_ret cfg e _ name flags r hty hr with h | h | h | h <;> rw [h] <;> decide

/-! ## Lemmas on the locks -/

/-- On a Berkeley DB handle with a mutex, `dkimf_db_put` returns -1 with the
mutex held whenever the advisory lock cannot be taken. -/
theorem put_lock_failure (cfg : Config) (e : Env) (db : dkim_db) (l : Locks)
    (buf : CStr) (buflen : Nat) (outbuf : CStr) (outbuflen : Nat) (r : op_result)
    (hlock : db.db_lock = true) (hfd : e.fd_status = 0 ∧ e.fd ≠ -1) (hls : e.lock_status ≠ 0)
    (hty : is_memory_type db = false)
    (h : dkimf_db_put cfg e db l buf buflen outbuf outbuflen = some r) :
    r.ret = -1 ∧ r.locks.mutex = true := by
  unfold dkimf_db_put at h
  rw [hty] at h
  simp only [Bool.false_eq_true, if_false] at h
  split at h
  · cases h
  · split at h
    · rw [if_pos ⟨hfd.1, hfd.2, hls⟩] at h
      simp only [Option.some.injEq] at h
      rw [← h]
      simp [hlock, flock_lock, hls, pthread_mutex_lock]
    · cases h

/-- On a Berkeley DB handle with a mutex, `dkimf_db_delete` returns -1 with
the mutex held whenever the advisory lock cannot be taken. -/
theorem delete_lock_failure (cfg : Config) (e : Env) (db : dkim_db) (l : Locks)
    (buf : CStr) (buflen : Nat) (r : op_result)
    (hlock : db.db_lock = true) (hfd : e.fd_status = 0 ∧ e.fd ≠ -1) (hls : e.lock_status ≠ 0)
    (hty : is_memory_type db = false)
    (h : dkimf_db_delete cfg e db l buf buflen = some r) :
    r.ret = -1 ∧ r.locks.mutex = true := by
  unfold dkimf_db_delete at h
  rw [hty] at h
  simp only [Bool.false_eq_true, if_false] at h
  split at h
  · cases h
  · split at h
    · cases h
    · rw [if_pos ⟨hfd.1, hfd.2, hls⟩] at h
      simp only [Option.some.injEq] at h
      rw [← h]
      simp [hlock, flock_lock, hls, pthread_mutex_lock]

/-- On a Berkeley DB handle with a mutex, `dkimf_db_get` returns -1 with the
mutex held whenever the advisory lock cannot be taken. -/
theorem get_lock_failure (cfg : Config) (e : Env) (db : dkim_db) (l : Locks)
    (buf : CStr) (buflen : Nat) (outbuf : Option Nat) (want_exists : Bool) (r : get_result)
    (hlock : db.db_lock = true) (hfd : e.fd_status = 0 ∧ e.fd ≠ -1) (hls : e.lock_status ≠ 0)
    (hty : db.db_type = to_u_int DKIMF_DB_TYPE_BDB)
    (h : dkimf_db_get cfg e db l buf buflen outbuf want_exists = some r) :
    r.ret = -1 ∧ r.locks.mutex = true := by
  unfold dkimf_db_get at h
  simp only at h
  rw [if_neg (by rw [hty]; decide), if_neg (by rw [hty]; decide)] at h
  split at h
  · split at h
    · cases h
    · rw [if_pos ⟨hfd.1, hfd.2, hls⟩] at h
      simp only [Option.some.injEq] at h
      rw [← h]
      simp [hlock, flock_lock, hls, pthread_mutex_lock]
  · cases h

/-! ## Lemmas on the engine -/

/-- With `BUFRSZ` not zero, `dkimf_db_mkarray` has no result on a Berkeley DB
handle whose cursor can be made: the value `sizeof keybuf - 1` is handed to
`dkimf_db_walk` as the pointer `keylen`, and read through there. -/
theorem mkarray_engine_undefined (cfg : Config) (e : Env) (fuel : Nat) (db : dkim_db)
    (hdb : cfg.USE_DB = true) (hbuf : cfg.BUFRSZ ≠ 0)
    (hty : db.db_type = to_u_int DKIMF_DB_TYPE_BDB) (hcur : e.cursor_error = none)
    (hnull : db.db_cursor = .NULL) :
    dkimf_db_mkarray cfg e fuel db = none := by
  have hwalk : ∀ (d : dkim_db) (first : Bool), d.db_type = to_u_int DKIMF_DB_TYPE_BDB →
      d.db_cursor = .NULL →
      dkimf_db_walk cfg e d first true .invalid false .NULL = none := by
    intro d first hd hc
    unfold dkimf_db_walk
    rw [if_neg (by rw [hd]; decide), if_neg (by rw [hd]; decide), if_pos ⟨hdb, hd⟩]
    simp [hc, db_cursor_t.is_null, DB.cursor, hcur, size_ptr.read_or_zero]
  unfold dkimf_db_mkarray
  rw [if_neg (by rw [hty]; decide), if_neg (by simp [hty]), if_neg (by simp [hty]),
    if_neg (by rw [hty]; decide), if_pos ⟨hdb, hty⟩]
  cases fuel with
  | zero => rfl
  | succ fuel =>
    simp only [mkarray_loop, if_neg hbuf]
    rw [hwalk { db with db_array := none } _ hty hnull]

/-- What `DB->get` hands back for the data `DBT` that `dkimf_db_get` hands to
it: no byte at all, since the `DBT` asks for the `dlen = 0` bytes from offset
0 of the record. -/
theorem DB_get_no_bytes (e : Env) (bdb : DB) (q : List Char) (size : Nat) :
    (DB.get e bdb q ⟨size, 0, 0, 0, true, true⟩).2.1 = none ∨
    (DB.get e bdb q ⟨size, 0, 0, 0, true, true⟩).2.1 = some [] := by
  unfold DB.get
  split
  · exact Or.inl rfl
  · split
    · exact Or.inl rfl
    · exact Or.inr (by simp)

/-- On a Berkeley DB handle `dkimf_db_get` never stores a byte of the value in
`outbuf`. -/
theorem engine_get_stores_nothing (cfg : Config) (e : Env) (db : dkim_db) (l : Locks)
    (buf : CStr) (buflen : Nat) (outbuf : Option Nat) (want_exists : Bool) (r : get_result)
    (hty : db.db_type = to_u_int DKIMF_DB_TYPE_BDB)
    (h : dkimf_db_get cfg e db l buf buflen outbuf want_exists = some r) :
    r.outbuf = none ∨ r.outbuf = some [] := by
  unfold dkimf_db_get at h
  simp only at h
  rw [if_neg (by rw [hty]; decide), if_neg (by rw [hty]; decide)] at h
  split at h
  · split at h
    · cases h
    · rename_i q hq
      have hb := DB_get_no_bytes e db.db_handle.as_bdb q (outbuf.getD 0)
      split at h
      · simp only [Option.some.injEq] at h
        rw [← h]
        exact Or.inl rfl
      · split at h
        · simp only [Option.some.injEq] at h
          rw [← h]
          simp only
          split
          · exact hb
          · exact Or.inl rfl
        · simp only [Option.some.injEq] at h
          rw [← h]
          simp only
          split
          · exact hb
          · exact Or.inl rfl
  · cases h

/-- The scan over a chain of patterns finds a match exactly when some pattern
of the chain matches. -/
theorem get_rescan_iff (e : Env) (buf : CStr) (chain : List dkimf_db_relist) :
    dkimf_db_get_rescan e buf chain = true ↔
      ∃ node ∈ chain, e.regexec node.db_relist_re buf = 0 := by
  induction chain with
  | nil => simp [dkimf_db_get_rescan]
  | cons node next ih =>
    unfold dkimf_db_get_rescan
    by_cases h : e.regexec node.db_relist_re buf = 0
    · simp [h]
    · simp [h, ih]

/-! ## Lemmas on tokens -/

theorem spec_split_cons_ne (d c : Char) (cs : CStr) (h : c ≠ d) :
    spec_split d (c :: cs) =
      (c :: (spec_split d cs).headD []) :: (spec_split d cs).tail := by
  rw [spec_split, if_neg h]
  cases hs : spec_split d cs with
  | nil =>
    exfalso
    cases cs with
    | nil => simp [spec_split] at hs
    | cons a t =>
      unfold spec_split at hs
      split at hs
      · cases hs
      · split at hs <;> cases hs
  | cons t ts => rfl

/-- The first piece is the text up to the first `d`; the other pieces are
those of the text after that `d`. -/
theorem spec_split_head_tail (d : Char) : ∀ cs : CStr,
    (spec_split d cs).headD [] = cs.takeWhile (· != d) ∧
    (spec_split d cs).tail =
      (if cs.dropWhile (· != d) = [] then []
       else spec_split d ((cs.dropWhile (· != d)).drop 1)) := by
  intro cs
  induction cs with
  | nil => simp [spec_split]
  | cons c cs ih =>
    by_cases h : c = d
    · subst h
      simp [spec_split]
    · rw [spec_split_cons_ne d c cs h]
      have hb : (c != d) = true := by simpa using h
      simp only [List.headD_cons, List.tail_cons, List.takeWhile_cons, hb, if_true,
        List.dropWhile_cons, ih.1, ih.2]
      trivial

theorem spec_tokens_nil (d : Char) : spec_tokens d [] = [] := by
  simp [spec_tokens, spec_split]

theorem spec_tokens_cons_eq (d : Char) (cs : CStr) :
    spec_tokens d (d :: cs) = spec_tokens d cs := by
  simp [spec_tokens, spec_split]

theorem spec_tokens_cons_ne (d c : Char) (cs : CStr) (h : c ≠ d) :
    spec_tokens d (c :: cs) =
      (c :: cs.takeWhile (· != d)) :: spec_tokens d ((cs.dropWhile (· != d)).drop 1) := by
  unfold spec_tokens
  rw [spec_split_cons_ne d c cs h, (spec_split_head_tail d cs).1, (spec_split_head_tail d cs).2]
  by_cases hd : cs.dropWhile (· != d) = []
  · simp [hd, spec_split]
  · simp [hd]

/-- The token loop of `strtok_r`, run long enough, gives the non-empty pieces
of the string cut at every delimiter. -/
theorem strtok_loop_eq_spec (d : Char) : ∀ (n : Nat) (s : CStr) (fuel : Nat),
    s.length ≤ n → s.length < fuel → strtok_loop d fuel s = spec_tokens d s := by
  intro n
  induction n with
  | zero =>
    intro s fuel hn hf
    have : s = [] := List.length_eq_zero.1 (by omega)
    subst this
    cases fuel with
    | zero => omega
    | succ fuel => simp [strtok_loop, strtok_r, spec_tokens_nil]
  | succ n ih =>
    intro s fuel hn hf
    cases s with
    | nil =>
      cases fuel with
      | zero => simp at hf
      | succ fuel => simp [strtok_loop, strtok_r, spec_tokens_nil]
    | cons c cs =>
      simp only [List.length_cons] at hn hf
      by_cases h : c = d
      · subst h
        rw [spec_tokens_cons_eq, ← ih cs fuel (by omega) (by omega)]
        cases fuel with
        | zero => omega
        | succ fuel =>
          have hr : strtok_r (c :: cs) c = strtok_r cs c := by
            simp [strtok_r]
          rw [strtok_loop, hr, strtok_loop]
      · rw [spec_tokens_cons_ne d c cs h]
        cases fuel with
        | zero => omega
        | succ fuel =>
          have hb : (c == d) = false := by simpa using h
          have hb2 : (c != d) = true := by simpa using h
          have hr : strtok_r (c :: cs) d =
              some (c :: cs.takeWhile (· != d), (cs.dropWhile (· != d)).drop 1) := by
            simp [strtok_r, List.dropWhile_cons, hb, List.takeWhile_cons, hb2]
          rw [strtok_loop, hr]
          simp only
          have hlen : ((cs.dropWhile (· != d)).drop 1).length ≤ cs.length := by
            rw [List.length_drop]
            have := (List.dropWhile_sublist (· != d) (l := cs)).length_le
            omega
          rw [ih _ fuel (by omega) (by omega)]


theorem strchr_some_drop (c : Char) : ∀ (s : CStr) (p : Nat), strchr s c = some p →
    s.drop (p + 1) = (s.dropWhile (· != c)).drop 1 := by
  intro s
  induction s with
  | nil => intro p h; simp [strchr] at h
  | cons a s ih =>
    intro p h
    unfold strchr at h
    by_cases hac : a = c
    · rw [if_pos hac] at h
      cases h
      simp [hac]
    · rw [if_neg hac] at h
      cases hs : strchr s c with
      | none => rw [hs] at h; cases h
      | some k =>
        rw [hs] at h
        simp only [Option.map_some', Option.some.injEq] at h
        subst h
        have hb : (a != c) = true := by simpa using hac
        rw [List.dropWhile_cons, if_pos hb, List.drop_succ_cons]
        exact ih k hs

/-- Without `DKIMF_DB_FLAG_VALLIST` the body of the token loop adds the record
that the token stands for. -/
theorem csl_token_record (flags : Nat) (p : CStr) (st : build_state)
    (hflag : flags &&& DKIMF_DB_FLAG_VALLIST = 0) :
    csl_token flags p st = st.add (spec_csl_record p) := by
  unfold csl_token spec_csl_record
  cases hs : strchr p '=' with
  | none =>
    have : '=' ∉ p := (strchr_none_iff _ _).1 hs
    simp [this]
  | some eq =>
    have hmem : '=' ∈ p := by
      by_contra hn
      rw [(strchr_none_iff _ _).2 hn] at hs
      cases hs
    simp only [hflag, ne_eq, not_true_eq_false, if_false, hmem, if_true]
    rw [(strchr_some _ _ _ hs).2, strchr_some_drop _ _ _ hs]

theorem csl_fold_records (flags : Nat) (hflag : flags &&& DKIMF_DB_FLAG_VALLIST = 0) :
    ∀ (toks : List CStr) (st : build_state),
      toks.foldl (fun st tok => csl_token flags tok st) st =
        ⟨st.list ++ toks.map spec_csl_record, st.n + (toks.length : Int)⟩ := by
  intro toks
  induction toks with
  | nil => intro st; simp
  | cons t ts ih =>
    intro st
    simp only [List.foldl_cons, csl_token_record flags t st hflag, ih, build_state.add,
      List.map_cons, List.length_cons, List.append_assoc, List.singleton_append,
      build_state.mk.injEq, true_and]
    push_cast
    ring

/-- With an allocator that hands out zeroed memory, and without
`DKIMF_DB_FLAG_VALLIST`, the csl case of `dkimf_db_open` hands back, for every
locator, the chain that has one record for each non-empty piece of the locator
cut at every ',', in order: the key is the text before the first '=' of the
piece and the value all the text after it, and a piece without '=' gives its
own text as key and is read as having no value.  So does `dkimf_db_open` for
every name that it takes for a comma list. -/
theorem csl_chain_zeroed (cfg : Config) (e : Env) (flags : Nat) (lock : Bool)
    (hz : cfg.zeroed_malloc = true) (hflag : flags &&& DKIMF_DB_FLAG_VALLIST = 0) :
    (∀ p : CStr,
      dkimf_db_open_switch cfg e (new_handle flags lock (to_u_int DKIMF_DB_TYPE_CSL)) p flags =
        some ⟨0, some { new_handle flags lock (to_u_int DKIMF_DB_TYPE_CSL) with
          db_handle := .list ((spec_tokens ',' p).map spec_csl_record),
          db_nrecs := ((spec_tokens ',' p).length : Int) }⟩) ∧
    (∀ name : CStr, ':' ∉ name →
      spec_default_type cfg name = to_u_int DKIMF_DB_TYPE_CSL →
      dkimf_db_open cfg e name flags lock =
        some ⟨0, some { new_handle flags lock (to_u_int DKIMF_DB_TYPE_CSL) with
          db_handle := .list ((spec_tokens ',' name).map spec_csl_record),
          db_nrecs := ((spec_tokens ',' name).length : Int) }⟩) := by
  have hswitch : ∀ p : CStr,
      dkimf_db_open_switch cfg e (new_handle flags lock (to_u_int DKIMF_DB_TYPE_CSL)) p flags =
        some ⟨0, some { new_handle flags lock (to_u_int DKIMF_DB_TYPE_CSL) with
          db_handle := .list ((spec_tokens ',' p).map spec_csl_record),
          db_nrecs := ((spec_tokens ',' p).length : Int) }⟩ := by
    intro p
    unfold dkimf_db_open_switch
    rw [if_pos (show (new_handle flags lock (to_u_int DKIMF_DB_TYPE_CSL)).db_type =
      to_u_int DKIMF_DB_TYPE_CSL from rfl)]
    have hfl : (new_handle flags lock (to_u_int DKIMF_DB_TYPE_CSL)).db_flags = flags := rfl
    simp only [hfl, strtok_loop_eq_spec ',' p.length p (p.length + 1) (le_refl _) (by omega),
      csl_fold_records flags hflag, build_read_zeroed cfg _ hz]
    simp
  refine ⟨hswitch, ?_⟩
  intro name hcolon hcsl
  rw [(open_no_colon cfg e name flags lock hcolon).2.1, hcsl]
  exact hswitch name

/-! ## Lemmas on the scan of a flat-file line -/

theorem set_append_cons (done : List Char) (c x : Char) (cs : List Char) :
    (done ++ c :: cs).set done.length x = done ++ x :: cs := by
  induction done with
  | nil => rfl
  | cons a t ih => simp [ih]

theorem scan_step_nonspace (st : scan_state) (p : Nat) (c : Char)
    (h : scan_nonspace c = true) :
    scan_step st p c =
      if st.key = none then { st with key := some p }
      else if st.value = none ∧ st.gapfound = true then { st with value := some p }
      else st := by
  unfold scan_step
  unfold scan_nonspace at h
  rw [if_pos h]

theorem scan_step_space (st : scan_state) (p : Nat) (c : Char)
    (h : scan_nonspace c = false) :
    scan_step st p c =
      if st.key ≠ none ∧ st.value = none then
        { st with line := st.line.set p '\x00', gapfound := true }
      else st := by
  unfold scan_step
  unfold scan_nonspace at h
  rw [if_neg (by rw [h]; simp)]

/-- Once the value is found the scan changes nothing. -/
theorem scan_loop_done : ∀ (cs : List Char) (p : Nat) (buf : List Char) (k v : Nat) (g : Bool),
    scan_loop ⟨buf, some k, some v, g⟩ p cs = ⟨buf, some k, some v, g⟩ := by
  intro cs
  induction cs with
  | nil => intro p buf k v g; rfl
  | cons c cs ih =>
    intro p buf k v g
    rw [scan_loop]
    cases h : scan_nonspace c
    · rw [scan_step_space _ _ _ h]
      simp [ih]
    · rw [scan_step_nonspace _ _ _ h]
      simp [ih]

/-- The scan inside the gap after the key: the white space is overwritten by
NUL, and the value starts at the first character that is not white space. -/
theorem scan_loop_gap : ∀ (cs done : List Char) (k : Nat),
    scan_loop ⟨done ++ cs, some k, none, true⟩ done.length cs =
      ⟨done ++ List.replicate (cs.takeWhile (fun c => !scan_nonspace c)).length '\x00' ++
          cs.dropWhile (fun c => !scan_nonspace c),
        some k,
        if cs.dropWhile (fun c => !scan_nonspace c) = [] then none
        else some (done.length + (cs.takeWhile (fun c => !scan_nonspace c)).length),
        true⟩ := by
  intro cs
  induction cs with
  | nil => intro done k; simp [scan_loop]
  | cons c cs ih =>
    intro done k
    rw [scan_loop]
    cases h : scan_nonspace c
    · rw [scan_step_space _ _ _ h]
      simp only [ne_eq, reduceCtorEq, not_false_eq_true, and_self, if_true, set_append_cons]
      have := ih (done ++ ['\x00']) k
      simp only [List.append_assoc, List.singleton_append, List.length_append,
        List.length_singleton] at this
      rw [this]
      simp [List.takeWhile_cons, List.dropWhile_cons, h, List.replicate_succ]
      split <;> first | rfl | (congr 1; omega)
    · rw [scan_step_nonspace _ _ _ h]
      simp [scan_loop_done, List.takeWhile_cons, List.dropWhile_cons, h]

/-- The scan inside the key. -/
theorem scan_loop_key : ∀ (cs done : List Char) (k : Nat),
    ∃ g, scan_loop ⟨done ++ cs, some k, none, false⟩ done.length cs =
      ⟨done ++ cs.takeWhile scan_nonspace ++
          List.replicate (((cs.dropWhile scan_nonspace).takeWhile
            (fun c => !scan_nonspace c)).length) '\x00' ++
          (cs.dropWhile scan_nonspace).dropWhile (fun c => !scan_nonspace c),
        some k,
        if (cs.dropWhile scan_nonspace).dropWhile (fun c => !scan_nonspace c) = [] then none
        else some (done.length + (cs.takeWhile scan_nonspace).length +
          ((cs.dropWhile scan_nonspace).takeWhile (fun c => !scan_nonspace c)).length),
        g⟩ := by
  intro cs
  induction cs with
  | nil => intro done k; exact ⟨false, by simp [scan_loop]⟩
  | cons c cs ih =>
    intro done k
    rw [scan_loop]
    cases h : scan_nonspace c
    · refine ⟨true, ?_⟩
      rw [scan_step_space _ _ _ h]
      simp only [ne_eq, reduceCtorEq, not_false_eq_true, and_self, if_true, set_append_cons]
      have := scan_loop_gap cs (done ++ ['\x00']) k
      simp only [List.append_assoc, List.singleton_append, List.length_append,
        List.length_singleton] at this
      rw [this]
      simp [List.takeWhile_cons, List.dropWhile_cons, h, List.replicate_succ]
      split <;> first | rfl | (congr 1; omega)
    · obtain ⟨g, hg⟩ := ih (done ++ [c]) k
      refine ⟨g, ?_⟩
      rw [scan_step_nonspace _ _ _ h]
      simp only [reduceCtorEq, if_false, Bool.false_eq_true, and_false]
      simp only [List.append_assoc, List.singleton_append, List.length_append,
        List.length_singleton] at hg
      rw [hg]
      simp [List.takeWhile_cons, List.dropWhile_cons, h]
      split <;> first | rfl | (congr 1; omega)


/-- The scan of a line that begins with a character that is not white space:
the key starts at offset 0, the white space after the key is overwritten by
NUL, and the value starts behind it. -/
theorem scan_loop_line (c : Char) (cs : List Char) (h : scan_nonspace c = true) :
    ∃ g, scan_loop ⟨c :: cs, none, none, false⟩ 0 (c :: cs) =
      ⟨(c :: cs).takeWhile scan_nonspace ++
          List.replicate ((((c :: cs).dropWhile scan_nonspace).takeWhile
            (fun c => !scan_nonspace c)).length) '\x00' ++
          ((c :: cs).dropWhile scan_nonspace).dropWhile (fun c => !scan_nonspace c),
        some 0,
        if ((c :: cs).dropWhile scan_nonspace).dropWhile (fun c => !scan_nonspace c) = []
        then none
        else some (((c :: cs).takeWhile scan_nonspace).length +
          (((c :: cs).dropWhile scan_nonspace).takeWhile (fun c => !scan_nonspace c)).length),
        g⟩ := by
  obtain ⟨g, hg⟩ := scan_loop_key cs [c] 0
  refine ⟨g, ?_⟩
  rw [scan_loop, scan_step_nonspace _ _ _ h]
  simp only [if_true]
  simp only [List.singleton_append, List.length_singleton] at hg
  rw [hg]
  simp only [List.takeWhile_cons, List.dropWhile_cons, h, if_true, List.cons_append,
    List.length_cons, Bool.not_true, Bool.false_eq_true, if_false]
  congr 1
  split <;> first | rfl | (congr 1; omega)

theorem dropWhile_head_false {p : Char → Bool} : ∀ (l : List Char) (a : Char) (t : List Char),
    l.dropWhile p = a :: t → p a = false := by
  intro l
  induction l with
  | nil => intro a t h; cases h
  | cons x xs ih =>
    intro a t h
    rw [List.dropWhile_cons] at h
    split at h
    · exact ih a t h
    · rename_i hx
      cases h
      simpa using hx

theorem takeWhile_eq_self_of_not_mem (l : List Char) (h : '\x00' ∉ l) :
    l.takeWhile (· != '\x00') = l := by
  rw [List.takeWhile_eq_self_iff]
  intro x hx
  have : x ≠ '\x00' := fun hc => h (hc ▸ hx)
  simpa using this

theorem cstr_at_key (K V : List Char) (n : Nat) (hK : '\x00' ∉ K) (h : 0 < n ∨ V = []) :
    cstr_at (K ++ List.replicate n '\x00' ++ V) 0 = K := by
  unfold cstr_at
  rw [List.drop_zero, List.append_assoc, List.takeWhile_append]
  rw [takeWhile_eq_self_of_not_mem K hK]
  simp only [if_true]
  rcases h with h | h
  · obtain ⟨m, rfl⟩ : ∃ m, n = m + 1 := ⟨n - 1, by omega⟩
    simp [List.replicate_succ]
  · subst h
    cases n with
    | zero => simp
    | succ m => simp [List.replicate_succ]

theorem cstr_at_value (K V : List Char) (n : Nat) (hV : '\x00' ∉ V) :
    cstr_at (K ++ List.replicate n '\x00' ++ V) (K.length + n) = V := by
  unfold cstr_at
  have : (K ++ List.replicate n '\x00' ++ V).drop (K.length + n) = V := by
    have hl : (K ++ List.replicate n '\x00').length = K.length + n := by simp
    rw [← hl, List.drop_left]
  rw [this, takeWhile_eq_self_of_not_mem V hV]

/-- A line that is left after the comment is cut off and the white space is
trimmed holds no NUL, and begins with a character that is not white space
when it is not empty. -/
theorem trimmed_line (raw : List Char) :
    '\x00' ∉ dkimf_trimspaces (strip_comment raw) ∧
    ∀ c cs, dkimf_trimspaces (strip_comment raw) = c :: cs → scan_nonspace c = true := by
  have hpre : dkimf_trimspaces (strip_comment raw) <+:
      (strip_comment raw).dropWhile (fun c => isascii c && isspace c) := by
    unfold dkimf_trimspaces
    exact List.rdropWhile_prefix _ _
  constructor
  · intro hmem
    have h1 := hpre.subset hmem
    have h2 := (List.dropWhile_suffix _).subset h1
    unfold strip_comment at h2
    have := List.mem_takeWhile_imp h2
    simp at this
  · intro c cs hcs
    rw [hcs] at hpre
    obtain ⟨t, ht⟩ := hpre
    have := dropWhile_head_false _ c (cs ++ t) (by rw [← ht]; rfl)
    unfold scan_nonspace
    revert this
    cases isascii c <;> cases isspace c <;> simp


theorem gap_nonempty (line : List Char)
    (h : (line.dropWhile scan_nonspace).dropWhile (fun c => !scan_nonspace c) ≠ []) :
    0 < ((line.dropWhile scan_nonspace).takeWhile (fun c => !scan_nonspace c)).length := by
  cases hr : line.dropWhile scan_nonspace with
  | nil => rw [hr] at h; simp at h
  | cons a t =>
    have := dropWhile_head_false line a t hr
    simp [List.takeWhile_cons, this]

/-- Without `DKIMF_DB_FLAG_VALLIST` the body of the line loop adds the record
`file_record` of the line. -/
theorem file_line_eq (flags : Nat) (line : CStr) (st : build_state)
    (hflag : flags &&& DKIMF_DB_FLAG_VALLIST = 0) (hnul : '\x00' ∉ line)
    (hhead : ∀ c cs, line = c :: cs → scan_nonspace c = true) (hne : line ≠ []) :
    file_line flags line st = some (st.add (file_record line)) := by
  obtain ⟨c, cs, hcs⟩ : ∃ c cs, line = c :: cs := by
    cases line with
    | nil => exact absurd rfl hne
    | cons c cs => exact ⟨c, cs, rfl⟩
  have hc := hhead c cs hcs
  obtain ⟨g, hg⟩ := scan_loop_line c cs hc
  rw [← hcs] at hg
  have hK : '\x00' ∉ line.takeWhile scan_nonspace :=
    fun hm => hnul ((List.takeWhile_sublist _).subset hm)
  have hV : '\x00' ∉ (line.dropWhile scan_nonspace).dropWhile (fun c => !scan_nonspace c) :=
    fun hm => hnul ((List.dropWhile_sublist _).subset ((List.dropWhile_sublist _).subset hm))
  unfold file_line file_record
  simp only [hg]
  by_cases hv : (line.dropWhile scan_nonspace).dropWhile (fun c => !scan_nonspace c) = []
  · simp only [hv, if_true]
    rw [cstr_at_key _ _ _ hK (Or.inr rfl)]
  · simp only [hv, if_false, hflag, ne_eq, not_true_eq_false]
    rw [cstr_at_key _ _ _ hK (Or.inl (gap_nonempty line hv)), cstr_at_value _ _ _ hV]

/-! ## Lemmas on the keys of the chain -/

theorem build_add_fold_list (g : CStr → dkimf_db_list) : ∀ (qs : List CStr) (st : build_state),
    (qs.foldl (fun st q => st.add (g q)) st).list = st.list ++ qs.map g := by
  intro qs
  induction qs with
  | nil => intro st; simp
  | cons q qs ih =>
    intro st
    rw [List.foldl_cons, ih]
    simp [build_state.add]

theorem strchr_pos_of_head (p : CStr) (eq : Nat) (h : strchr p '=' = some eq)
    (hhead : p.head? ≠ some '=') : p.take eq ≠ [] := by
  cases p with
  | nil => simp [strchr] at h
  | cons a t =>
    have ha : a ≠ '=' := fun hc => hhead (by simp [hc])
    unfold strchr at h
    rw [if_neg ha] at h
    cases hs : strchr t '=' with
    | none => rw [hs] at h; cases h
    | some k =>
      rw [hs] at h
      simp only [Option.map_some', Option.some.injEq] at h
      subst h
      simp

/-- The body of the token loop of the csl case adds only records with a key
that is not empty, for a token that is not empty and does not begin with
'='. -/
theorem csl_token_keys (flags : Nat) (p : CStr) (st : build_state) (hp : p ≠ [])
    (hhead : p.head? ≠ some '=')
    (hst : ∀ node ∈ st.list, node.db_list_key ≠ []) :
    ∀ node ∈ (csl_token flags p st).list, node.db_list_key ≠ [] := by
  unfold csl_token
  cases hs : strchr p '=' with
  | none =>
    intro node hn
    simp only [build_state.add, List.mem_append, List.mem_singleton] at hn
    rcases hn with hn | hn
    · exact hst node hn
    · rw [hn]; exact hp
  | some eq =>
    have hk := strchr_pos_of_head p eq hs hhead
    simp only
    split
    · intro node hn
      rw [build_add_fold_list] at hn
      simp only [List.mem_append, List.mem_map] at hn
      rcases hn with hn | ⟨q, _, hq⟩
      · exact hst node hn
      · rw [← hq]; exact hk
    · intro node hn
      simp only [build_state.add, List.mem_append, List.mem_singleton] at hn
      rcases hn with hn | hn
      · exact hst node hn
      · rw [hn]; exact hk

theorem csl_fold_keys (flags : Nat) : ∀ (toks : List CStr) (st : build_state),
    (∀ tok ∈ toks, tok ≠ [] ∧ tok.head? ≠ some '=') →
    (∀ node ∈ st.list, node.db_list_key ≠ []) →
    ∀ node ∈ (toks.foldl (fun st tok => csl_token flags tok st) st).list,
      node.db_list_key ≠ [] := by
  intro toks
  induction toks with
  | nil => intro st _ hst; exact hst
  | cons t ts ih =>
    intro st htoks hst
    simp only [List.foldl_cons]
    apply ih
    · intro tok htok
      exact htoks tok (List.mem_cons_of_mem _ htok)
    · exact csl_token_keys flags t st (htoks t (List.mem_cons_self _ _)).1
        (htoks t (List.mem_cons_self _ _)).2 hst

theorem spec_tokens_ne_nil (d : Char) (s : CStr) : ∀ tok ∈ spec_tokens d s, tok ≠ [] := by
  intro tok h
  unfold spec_tokens at h
  rw [List.mem_filter] at h
  intro hc
  rw [hc] at h
  simp at h

theorem file_record_key (line : CStr) (c : Char) (cs : List Char) (h : line = c :: cs)
    (hc : scan_nonspace c = true) : (file_record line).db_list_key ≠ [] := by
  subst h
  simp [file_record, List.takeWhile_cons, hc]

/-- Without `DKIMF_DB_FLAG_VALLIST` the line loop of the file case adds only
records with a key that is not empty. -/
theorem file_loop_keys (cfg : Config) (flags : Nat)
    (hflag : flags &&& DKIMF_DB_FLAG_VALLIST = 0) :
    ∀ (fuel : Nat) (f : CStr) (st st2 : build_state),
      (∀ node ∈ st.list, node.db_list_key ≠ []) →
      file_loop cfg flags fuel f st = some st2 →
      ∀ node ∈ st2.list, node.db_list_key ≠ [] := by
  intro fuel
  induction fuel with
  | zero => intro f st st2 _ h2; simp [file_loop] at h2
  | succ fuel ih =>
    intro f st st2 hst h2
    unfold file_loop at h2
    split at h2
    · simp only [Option.some.injEq] at h2
      rw [← h2]; exact hst
    · rename_i raw rest _
      simp only at h2
      split at h2
      · exact ih _ _ _ hst h2
      · rename_i hlen
        have hne : dkimf_trimspaces (strip_comment raw) ≠ [] := by
          intro hc
          exact hlen (by rw [hc]; rfl)
        rw [file_line_eq flags _ st hflag (trimmed_line raw).1 (trimmed_line raw).2 hne] at h2
        simp only at h2
        apply ih _ _ _ _ h2
        intro node hn
        simp only [build_state.add, List.mem_append, List.mem_singleton] at hn
        rcases hn with hn | hn
        · exact hst node hn
        · rw [hn]
          obtain ⟨c, cs, hcs⟩ : ∃ c cs, dkimf_trimspaces (strip_comment raw) = c :: cs := by
            cases hl : dkimf_trimspaces (strip_comment raw) with
            | nil => exact absurd hl hne
            | cons c cs => exact ⟨c, cs, rfl⟩
          exact file_record_key _ c cs hcs ((trimmed_line raw).2 c cs hcs)

/-- The keys of the chain that the `switch` of `dkimf_db_open` builds are not
empty: in the csl case when no piece of the locator begins with '=', in the
file case when `DKIMF_DB_FLAG_VALLIST` is clear. -/
theorem open_switch_keys (cfg : Config) (e : Env) (new : dkim_db) (p : CStr) (flags : Nat)
    (r : Int) (db : dkim_db)
    (h : dkimf_db_open_switch cfg e new p flags = some ⟨r, some db⟩) :
    (new.db_type = to_u_int DKIMF_DB_TYPE_CSL →
      (∀ tok ∈ spec_tokens ',' p, tok.head? ≠ some '=') →
      ∀ node ∈ db.chain, node.db_list_key ≠ []) ∧
    (new.db_type = to_u_int DKIMF_DB_TYPE_FILE →
      new.db_flags &&& DKIMF_DB_FLAG_VALLIST = 0 →
      ∀ node ∈ db.chain, node.db_list_key ≠ []) := by
  constructor
  · intro hty htoks
    unfold dkimf_db_open_switch at h
    rw [if_pos hty] at h
    simp only at h
    split at h
    · cases h
    rename_i list hl
    have hlist := build_read_some cfg _ list hl
    subst hlist
    simp only [Option.some.injEq, open_result.mk.injEq] at h
    obtain ⟨_, h2⟩ := h
    rw [← h2]
    simp only [dkim_db.chain, db_handle_t.as_list]
    apply csl_fold_keys
    · intro tok htok
      rw [strtok_loop_eq_spec ',' p.length p (p.length + 1) (le_refl _) (by omega)] at htok
      exact ⟨spec_tokens_ne_nil _ _ tok htok, htoks tok htok⟩
    · intro node hn
      simp at hn
  · intro hty hflag
    unfold dkimf_db_open_switch at h
    rw [if_neg (by rw [hty]; decide), if_pos hty] at h
    split at h
    · simp at h
    · split at h
      · simp at h
      · split at h
        · simp at h
        · rename_i st hst
          split at h
          · cases h
          rename_i list hl
          have hlist := build_read_some cfg _ list hl
          subst hlist
          simp only [Option.some.injEq, open_result.mk.injEq] at h
          obtain ⟨_, h2⟩ := h
          rw [← h2]
          simp only [dkim_db.chain, db_handle_t.as_list]
          apply file_loop_keys cfg _ hflag _ _ _ st _ hst
          intro node hn
          simp at hn

/-! ## Lemmas on dkimf_db_close -/

/-- The loop over the array never ends in a defined way when the array is not
NULL: its condition tests the array pointer, not the entry. -/
theorem close_array_loop_undefined (arr : List (Option CStr)) :
    ∀ (fuel c : Nat), close_array_loop (some arr) fuel c = none := by
  intro fuel
  induction fuel with
  | zero => intro c; rfl
  | succ fuel ih =>
    intro c
    unfold close_array_loop
    simp only
    cases arr.get? c with
    | none => rfl
    | some ent => simp [ih]

/-- With `DKIMF_DB_IFLAG_FREEARRAY` set and an array cached, `dkimf_db_close`
has no result, for any handle and any bound on the loop. -/
theorem close_freearray_undefined (cfg : Config) (fuel : Nat) (db : dkim_db)
    (arr : List (Option CStr)) (harr : db.db_array = some arr)
    (hflag : db.db_iflags &&& DKIMF_DB_IFLAG_FREEARRAY ≠ 0) :
    dkimf_db_close cfg fuel db = none := by
  unfold dkimf_db_close
  simp only [harr, hflag, ne_eq, not_false_eq_true, if_true, close_array_loop_undefined,
    Option.map_none']

/-- On a handle of type csl or file whose chain is empty `dkimf_db_close` has
no result: `dkimf_db_list_free` is called with NULL and its assertion
fails. -/
theorem close_empty_chain_aborts (cfg : Config) (fuel : Nat) (db : dkim_db)
    (hty : db.db_type = to_u_int DKIMF_DB_TYPE_FILE ∨ db.db_type = to_u_int DKIMF_DB_TYPE_CSL)
    (hchain : db.chain = []) :
    dkimf_db_close cfg fuel db = none := by
  unfold dkim_db.chain at hchain
  unfold dkimf_db_close
  simp only
  split
  · rfl
  · rw [if_pos hty, hchain]
    rfl

/-- On a handle of type csl or file whose chain is not empty and on which
`DKIMF_DB_IFLAG_FREEARRAY` is clear, `dkimf_db_close` returns: it frees the
key and the value of every node, every node, the array if there is one, and
the handle. -/
theorem close_list_returns (cfg : Config) (fuel : Nat) (db : dkim_db)
    (hty : db.db_type = to_u_int DKIMF_DB_TYPE_FILE ∨ db.db_type = to_u_int DKIMF_DB_TYPE_CSL)
    (hchain : db.chain ≠ []) (hflag : db.db_iflags &&& DKIMF_DB_IFLAG_FREEARRAY = 0) :
    dkimf_db_close cfg fuel db =
      some ⟨(list_free_loop db.chain).1, (list_free_loop db.chain).2, [],
        db.db_array.isSome, false, false, true⟩ := by
  unfold dkim_db.chain at hchain ⊢
  unfold dkimf_db_close
  cases hl : db.db_handle.as_list with
  | nil => exact absurd hl hchain
  | cons node next =>
    cases harr : db.db_array with
    | none => simp [hty, hflag, dkimf_db_list_free]
    | some arr => simp [hty, hflag, dkimf_db_list_free]

theorem list_free_loop_nodes (chain : List dkimf_db_list) :
    (list_free_loop chain).2 = chain.length := by
  induction chain with
  | nil => rfl
  | cons node next ih => simp [list_free_loop, ih]

/-! ## Lemmas on the scan of dkimf_db_get -/

theorem strcasecmp_of_map_eq (a : CStr) : ∀ (b : CStr), a.map tolower = b.map tolower →
    strcasecmp a b = 0 := by
  induction a with
  | nil =>
    intro b h
    cases b with
    | nil => rfl
    | cons y t => simp at h
  | cons x s ih =>
    intro b h
    cases b with
    | nil => simp at h
    | cons y t =>
      simp only [List.map_cons, List.cons.injEq] at h
      unfold strcasecmp
      rw [if_pos h.1]
      exact ih t h.2

/-- The comparison of `dkimf_db_get` on strings without NUL: equality when
`DKIMF_DB_FLAG_ICASE` is clear, equality of the lower-cased strings when it is
set. -/
theorem get_matched_iff (flags : Nat) (buf s : CStr) (hb : '\x00' ∉ buf) (hs : '\x00' ∉ s) :
    get_matched flags buf s = true ↔
      (if flags &&& DKIMF_DB_FLAG_ICASE = 0 then buf = s
       else buf.map tolower = s.map tolower) := by
  unfold get_matched
  by_cases h : flags &&& DKIMF_DB_FLAG_ICASE = 0
  · rw [if_pos h, if_pos h, decide_eq_true_iff]
    exact strcmp_eq_zero_iff buf s hb hs
  · rw [if_neg h, if_neg h, decide_eq_true_iff]
    exact ⟨fun h0 => strcasecmp_eq_zero buf s h0 hb hs, strcasecmp_of_map_eq buf s⟩

/-- The scan breaks out at a node that hits. -/
theorem get_scan_hit (flags : Nat) (buf : CStr) (node : dkimf_db_list)
    (next : List dkimf_db_list) (h : get_hit flags buf node) :
    dkimf_db_get_scan flags buf (node :: next) = node :: next := by
  unfold dkimf_db_get_scan
  by_cases h1 : (get_matched flags buf node.db_list_key &&
      decide (flags &&& DKIMF_DB_FLAG_MATCHBOTH = 0)) = true
  · rw [if_pos h1]
  · rw [if_neg h1]
    cases hv : node.db_list_value with
    | none => rfl
    | some value =>
      simp only
      rcases h with h | h | ⟨v, hv2, hm⟩
      · exact absurd (by simpa using h) h1
      · rw [hv] at h; cases h
      · rw [hv] at hv2
        cases hv2
        rw [if_pos hm]

/-- The scan goes on behind a node that does not hit. -/
theorem get_scan_miss (flags : Nat) (buf : CStr) (node : dkimf_db_list)
    (next : List dkimf_db_list) (h : ¬ get_hit flags buf node) :
    dkimf_db_get_scan flags buf (node :: next) = dkimf_db_get_scan flags buf next := by
  unfold get_hit at h
  simp only [not_or] at h
  obtain ⟨h1, h2, h3⟩ := h
  rw [dkimf_db_get_scan]
  have hk : ¬ ((get_matched flags buf node.db_list_key &&
      decide (flags &&& DKIMF_DB_FLAG_MATCHBOTH = 0)) = true) := by
    intro hc
    exact h1 (by simpa using hc)
  rw [if_neg hk]
  cases hv : node.db_list_value with
  | none => exact absurd hv h2
  | some value =>
    simp only
    have : ¬ get_matched flags buf value = true := fun hc => h3 ⟨value, hv, hc⟩
    rw [if_neg this]

/-- The scan stops at the first node of the chain that hits. -/
theorem get_scan_first_hit (flags : Nat) (buf : CStr) (node : dkimf_db_list)
    (post : List dkimf_db_list) : ∀ (pre : List dkimf_db_list),
    (∀ x ∈ pre, ¬ get_hit flags buf x) → get_hit flags buf node →
    dkimf_db_get_scan flags buf (pre ++ node :: post) = node :: post := by
  intro pre
  induction pre with
  | nil => intro _ h; exact get_scan_hit flags buf node post h
  | cons x pre ih =>
    intro hpre h
    rw [List.cons_append, get_scan_miss flags buf x _ (hpre x (List.mem_cons_self _ _))]
    exact ih (fun y hy => hpre y (List.mem_cons_of_mem _ hy)) h

/-- On a handle of type csl or file, when the scan of `dkimf_db_get` breaks
out at a node with a value and a buffer is given, what is stored through
`outbuflen` is the length of the value, whatever the size of the buffer, and
what is stored in `outbuf` is at most the first `size - 1` characters of the
value. -/
theorem get_list_stores_length (cfg : Config) (e : Env) (db : dkim_db) (l : Locks)
    (buf : CStr) (buflen size : Nat) (want_exists : Bool) (node : dkimf_db_list)
    (rest : List dkimf_db_list) (value : CStr)
    (hty : db.db_type = to_u_int DKIMF_DB_TYPE_FILE ∨ db.db_type = to_u_int DKIMF_DB_TYPE_CSL)
    (hscan : dkimf_db_get_scan db.db_flags buf db.chain = node :: rest)
    (hval : node.db_list_value = some value) :
    ∃ r, dkimf_db_get cfg e db l buf buflen (some size) want_exists = some r ∧
      r.outbuflen = some value.length ∧
      r.outbuf = (if size = 0 then none else some (value.take (size - 1))) := by
  unfold dkim_db.chain at hscan
  unfold dkimf_db_get
  simp only [if_pos hty, hscan, hval, strlcpy]
  exact ⟨_, rfl, rfl, rfl⟩

/-! ## Lemmas on the record count -/

/-- The body of the line loop has a result on every line that is left after
the comment is cut off and the white space is trimmed: the assertion on `key`
holds. -/
theorem file_line_returns (flags : Nat) (raw : List Char) (st : build_state)
    (hne : dkimf_trimspaces (strip_comment raw) ≠ []) :
    ∃ st2, file_line flags (dkimf_trimspaces (strip_comment raw)) st = some st2 := by
  obtain ⟨c, cs, hcs⟩ : ∃ c cs, dkimf_trimspaces (strip_comment raw) = c :: cs := by
    cases hl : dkimf_trimspaces (strip_comment raw) with
    | nil => exact absurd hl hne
    | cons c cs => exact ⟨c, cs, rfl⟩
  obtain ⟨g, hg⟩ := scan_loop_line c cs ((trimmed_line raw).2 c cs hcs)
  rw [hcs]
  unfold file_line
  simp only [hg]
  split
  · split
    · exact ⟨_, rfl⟩
    · exact ⟨_, rfl⟩
  · exact ⟨_, rfl⟩

/-- With `BUFRSZ` at least 2, `fgets` on a stream that is not at its end reads
at least one character. -/
theorem fgets_progress (n : Nat) (f : CStr) (hn : 2 ≤ n) (hf : f ≠ []) :
    ∃ line rest, fgets n f = some (line, rest) ∧ rest.length < f.length := by
  cases f with
  | nil => exact absurd rfl hf
  | cons a t =>
    unfold fgets
    rw [if_neg (by omega)]
    refine ⟨_, _, rfl, ?_⟩
    simp only [List.length_drop, List.length_take]
    have hpos : 0 < (if ((a :: t).takeWhile (· != '\n')).length < (a :: t).length then
        (a :: t).takeWhile (· != '\n') ++ ['\n'] else (a :: t).takeWhile (· != '\n')).length := by
      split
      · simp
      · rename_i h
        simp only [List.length_cons] at h ⊢
        omega
    simp only [List.length_cons] at hpos ⊢
    omega

/-- With `BUFRSZ` at least 2 the line loop of the file case ends within as
many rounds as the file has characters, and one more. -/
theorem file_loop_returns (cfg : Config) (flags : Nat) (hn : 2 ≤ cfg.BUFRSZ) :
    ∀ (fuel : Nat) (f : CStr) (st : build_state), f.length < fuel →
      ∃ st2, file_loop cfg flags fuel f st = some st2 := by
  intro fuel
  induction fuel with
  | zero => intro f st h; omega
  | succ fuel ih =>
    intro f st h
    unfold file_loop
    cases f with
    | nil =>
      have : fgets cfg.BUFRSZ [] = none := by
        unfold fgets
        split <;> rfl
      rw [this]
      exact ⟨st, rfl⟩
    | cons a t =>
      obtain ⟨line, rest, hfg, hlen⟩ := fgets_progress cfg.BUFRSZ (a :: t) hn (by simp)
      rw [hfg]
      simp only
      split
      · exact ih rest st (by omega)
      · rename_i hl
        have hne : dkimf_trimspaces (strip_comment line) ≠ [] := by
          intro hc
          exact hl (by rw [hc]; rfl)
        obtain ⟨st2, h2⟩ := file_line_returns flags line st hne
        rw [h2]
        exact ih rest st2 (by omega)

/-- With an allocator that hands out zeroed memory the comma list case of
`dkimf_db_open` always hands back a handle; so does the flat file case when
`BUFRSZ` is at least 2, `DKIMF_DB_FLAG_READONLY` is set and the file can be
opened. -/
theorem open_list_returns (cfg : Config) (e : Env) (name : CStr) (flags : Nat) (lock : Bool)
    (hcolon : ':' ∉ name) (hz : cfg.zeroed_malloc = true) :
    (spec_default_type cfg name = to_u_int DKIMF_DB_TYPE_CSL →
      ∃ db, dkimf_db_open cfg e name flags lock = some ⟨0, some db⟩) ∧
    (spec_default_type cfg name = to_u_int DKIMF_DB_TYPE_FILE → 2 ≤ cfg.BUFRSZ →
      flags &&& DKIMF_DB_FLAG_READONLY ≠ 0 → e.fopen name ≠ none →
      ∃ db, dkimf_db_open cfg e name flags lock = some ⟨0, some db⟩) := by
  rw [(open_no_colon cfg e name flags lock hcolon).2.1]
  constructor
  · intro hty
    rw [hty]
    unfold dkimf_db_open_switch
    rw [if_pos (show (new_handle flags lock (to_u_int DKIMF_DB_TYPE_CSL)).db_type =
      to_u_int DKIMF_DB_TYPE_CSL from rfl)]
    simp only [build_read_zeroed cfg _ hz]
    exact ⟨_, rfl⟩
  · intro hty hn hro hfile
    rw [hty]
    unfold dkimf_db_open_switch
    have hne : ¬ (new_handle flags lock (to_u_int DKIMF_DB_TYPE_FILE)).db_type =
        to_u_int DKIMF_DB_TYPE_CSL := by
      show ¬ (to_u_int DKIMF_DB_TYPE_FILE = to_u_int DKIMF_DB_TYPE_CSL)
      decide
    rw [if_neg hne,
      if_pos (show (new_handle flags lock (to_u_int DKIMF_DB_TYPE_FILE)).db_type =
        to_u_int DKIMF_DB_TYPE_FILE from rfl), if_neg hro]
    cases hf : e.fopen name with
    | none => exact absurd hf hfile
    | some f =>
      simp only
      obtain ⟨st2, h2⟩ := file_loop_returns cfg
        (new_handle flags lock (to_u_int DKIMF_DB_TYPE_FILE)).db_flags hn (f.length + 1) f
        ⟨[], 0⟩ (by omega)
      rw [h2]
      simp only [build_read_zeroed cfg _ hz]
      exact ⟨_, rfl⟩

/-- On a handle of type csl or file `dkimf_db_get` hands the handle back as it
was. -/
theorem get_list_keeps_handle (cfg : Config) (e : Env) (db : dkim_db) (l : Locks)
    (buf : CStr) (buflen : Nat) (outbuf : Option Nat) (want_exists : Bool)
    (hty : db.db_type = to_u_int DKIMF_DB_TYPE_FILE ∨ db.db_type = to_u_int DKIMF_DB_TYPE_CSL) :
    ∃ r, dkimf_db_get cfg e db l buf buflen outbuf want_exists = some r ∧ r.db = db := by
  unfold dkimf_db_get
  simp only [if_pos hty]
  split
  · exact ⟨_, rfl, rfl⟩
  · split
    · exact ⟨_, rfl, rfl⟩
    · exact ⟨_, rfl, rfl⟩

/-- On a handle of type csl or file `dkimf_db_walk` changes `db_cursor` at
most. -/
theorem walk_list_keeps_chain (cfg : Config) (e : Env) (db : dkim_db) (first : Bool)
    (key data : Bool) (keylen datalen : size_ptr) (r : walk_result)
    (hty : db.db_type = to_u_int DKIMF_DB_TYPE_FILE ∨ db.db_type = to_u_int DKIMF_DB_TYPE_CSL)
    (h : dkimf_db_walk cfg e db first key keylen data datalen = some r) :
    ∃ cur, r.db = { db with db_cursor := cur } := by
  unfold dkimf_db_walk at h
  rw [if_neg (list_type_ne_refile db hty).1, if_pos hty.symm] at h
  simp only at h
  split at h
  · simp only [Option.some.injEq] at h
    exact ⟨db.db_cursor, by rw [← h]⟩
  · split at h
    · simp only [Option.some.injEq] at h
      exact ⟨_, by rw [← h]⟩
    · cases h

/-- On a handle of type csl or file `dkimf_db_walk` returns when both buffers
are given with valid lengths. -/
theorem walk_list_returns (cfg : Config) (e : Env) (db : dkim_db) (first : Bool)
    (keylen datalen : Nat)
    (hty : db.db_type = to_u_int DKIMF_DB_TYPE_FILE ∨ db.db_type = to_u_int DKIMF_DB_TYPE_CSL) :
    ∃ r, dkimf_db_walk cfg e db first true (.valid keylen) true (.valid datalen) = some r := by
  unfold dkimf_db_walk
  rw [if_neg (list_type_ne_refile db hty).1, if_pos hty.symm]
  simp only
  split
  · exact ⟨_, rfl⟩
  · rename_i node next _
    cases hv : node.db_list_value with
    | none =>
      simp only [walk_copy, Bool.not_true, Bool.false_eq_true, if_false]
      exact ⟨_, rfl⟩
    | some v =>
      simp only [walk_copy, Bool.not_true, Bool.false_eq_true, if_false]
      exact ⟨_, rfl⟩

/-- On a handle of type csl or file `dkimf_db_mkarray` changes `db_array` at
most. -/
theorem mkarray_list_keeps_chain (cfg : Config) (e : Env) (fuel : Nat) (db : dkim_db)
    (r : mkarray_result)
    (hty : db.db_type = to_u_int DKIMF_DB_TYPE_FILE ∨ db.db_type = to_u_int DKIMF_DB_TYPE_CSL)
    (h : dkimf_db_mkarray cfg e fuel db = some r) :
    ∃ arr, r.db = { db with db_array := arr } := by
  unfold dkimf_db_mkarray at h
  rw [if_neg (list_type_ne_refile db hty).1] at h
  split at h
  · simp only [Option.some.injEq] at h
    exact ⟨db.db_array, by rw [← h]⟩
  · split at h
    · simp only [Option.some.injEq] at h
      exact ⟨db.db_array, by rw [← h]⟩
    · split at h
      · cases h
      · simp only [Option.some.injEq] at h
        exact ⟨_, by rw [← h]⟩

/-- On a handle of type csl or file whose `db_nrecs` is the length of the
chain `dkimf_db_mkarray` returns. -/
theorem mkarray_list_returns (cfg : Config) (e : Env) (fuel : Nat) (db : dkim_db)
    (hty : db.db_type = to_u_int DKIMF_DB_TYPE_FILE ∨ db.db_type = to_u_int DKIMF_DB_TYPE_CSL)
    (hn : db.db_nrecs = (db.chain.length : Int)) :
    ∃ r, dkimf_db_mkarray cfg e fuel db = some r := by
  unfold dkimf_db_mkarray
  rw [if_neg (list_type_ne_refile db hty).1]
  split
  · exact ⟨_, rfl⟩
  · split
    · exact ⟨_, rfl⟩
    · have hfill : mkarray_fill db.db_nrecs.toNat db.db_handle.as_list =
          some (db.chain.map (fun node => some node.db_list_key) ++ [none]) := by
        rw [hn, Int.toNat_ofNat]; exact mkarray_fill_chain _
      rw [hfill]
      exact ⟨_, rfl⟩

/-! ## Lemmas on values without pieces -/

/-- The token loop finds no token in a string that holds delimiters only. -/
theorem strtok_loop_all_delim (d : Char) (fuel : Nat) (v : CStr) (hv : ∀ c ∈ v, c = d) :
    strtok_loop d fuel v = [] := by
  cases fuel with
  | zero => rfl
  | succ fuel =>
    have hdrop : v.dropWhile (· == d) = [] := by
      rw [List.dropWhile_eq_nil_iff]
      intro c hc
      simp [hv c hc]
    simp [strtok_loop, strtok_r, hdrop]

theorem strchr_append_cons (c : Char) (v : CStr) : ∀ (k : CStr), c ∉ k →
    strchr (k ++ c :: v) c = some k.length := by
  intro k
  induction k with
  | nil => intro _; simp [strchr]
  | cons a t ih =>
    intro h
    have ha : a ≠ c := fun hc => h (by simp [hc])
    have ht : c ∉ t := fun hc => h (List.mem_cons_of_mem _ hc)
    rw [List.cons_append, strchr, if_neg ha, ih ht]
    rfl

/-- The body of the token loop of the csl case on the token `k=v`, when `v`
holds no piece between its '|': with `DKIMF_DB_FLAG_VALLIST` nothing is added,
without it the record (k, v) is. -/
theorem csl_token_no_piece (flags : Nat) (k v : CStr) (st : build_state) (hk : '=' ∉ k)
    (hv : ∀ c ∈ v, c = '|') :
    csl_token flags (k ++ '=' :: v) st =
      (if flags &&& DKIMF_DB_FLAG_VALLIST ≠ 0 then st else st.add ⟨k, some v⟩) := by
  unfold csl_token
  rw [strchr_append_cons '=' v k hk]
  have htake : (k ++ '=' :: v).take k.length = k := by simp
  have hdrop : (k ++ '=' :: v).drop (k.length + 1) = v := by
    rw [← List.drop_drop]
    simp
  simp only [htake, hdrop, strtok_loop_all_delim '|' _ v hv, List.foldl_nil]

theorem line_parts_length (line : List Char) :
    line.length = (line.takeWhile scan_nonspace).length +
      ((line.dropWhile scan_nonspace).takeWhile (fun c => !scan_nonspace c)).length +
      ((line.dropWhile scan_nonspace).dropWhile (fun c => !scan_nonspace c)).length := by
  have h1 := congrArg List.length (List.takeWhile_append_dropWhile scan_nonspace line)
  have h2 := congrArg List.length (List.takeWhile_append_dropWhile (fun c => !scan_nonspace c)
    (line.dropWhile scan_nonspace))
  simp only [List.length_append] at h1 h2
  omega

/-- With `DKIMF_DB_FLAG_VALLIST` the body of the line loop, on a line with a
value, adds one record for each piece of the value, and the key of each is the
empty string that `p` points to. -/
theorem file_line_vallist (flags : Nat) (line : CStr) (st : build_state)
    (hflag : flags &&& DKIMF_DB_FLAG_VALLIST ≠ 0) (hnul : '\x00' ∉ line)
    (hhead : ∀ c cs, line = c :: cs → scan_nonspace c = true)
    (hval : (line.dropWhile scan_nonspace).dropWhile (fun c => !scan_nonspace c) ≠ []) :
    file_line flags line st =
      some ((strtok_loop '|'
          (((line.dropWhile scan_nonspace).dropWhile (fun c => !scan_nonspace c)).length + 1)
          ((line.dropWhile scan_nonspace).dropWhile (fun c => !scan_nonspace c))).foldl
        (fun st q => st.add ⟨[], some q⟩) st) := by
  have hne : line ≠ [] := by
    intro hc
    rw [hc] at hval
    simp at hval
  obtain ⟨c, cs, hcs⟩ : ∃ c cs, line = c :: cs := by
    cases line with
    | nil => exact absurd rfl hne
    | cons c cs => exact ⟨c, cs, rfl⟩
  obtain ⟨g, hg⟩ := scan_loop_line c cs (hhead c cs hcs)
  rw [← hcs] at hg
  have hV : '\x00' ∉ (line.dropWhile scan_nonspace).dropWhile (fun c => !scan_nonspace c) :=
    fun hm => hnul ((List.dropWhile_sublist _).subset ((List.dropWhile_sublist _).subset hm))
  have hend : cstr_at (line.takeWhile scan_nonspace ++
      List.replicate ((line.dropWhile scan_nonspace).takeWhile
        (fun c => !scan_nonspace c)).length '\x00' ++
      (line.dropWhile scan_nonspace).dropWhile (fun c => !scan_nonspace c)) line.length = [] := by
    unfold cstr_at
    rw [List.drop_of_length_le]
    · rfl
    · simp only [List.length_append, List.length_replicate]
      have := line_parts_length line
      omega
  unfold file_line
  simp only [hg, hval, if_false, hflag, ne_eq, not_false_eq_true, if_true, hend,
    cstr_at_value _ _ _ hV]

/-! ## The claims -/

/-- Claim C1, at an input where the code departs from it: the comma list
"a,b" is opened without any flag and asked for "c".  No key of the chain
equals "c", yet `dkimf_db_get` returns 0 with `*exists` set to TRUE: the first
record has no value, and the scan breaks out at a record without value
whether or not `DKIMF_DB_FLAG_MATCHBOTH` is set. -/
theorem get_finds_probe_that_is_no_key :
    dkimf_db_open sample_config sample_env "a,b".toList 0 false =
      some ⟨0, some (sample_list_db 0 [⟨"a".toList, none⟩, ⟨"b".toList, none⟩])⟩ ∧
    dkimf_db_get sample_config sample_env
        (sample_list_db 0 [⟨"a".toList, none⟩, ⟨"b".toList, none⟩]) ⟨false, false⟩
        "c".toList 0 none true =
      some ⟨0, sample_list_db 0 [⟨"a".toList, none⟩, ⟨"b".toList, none⟩], ⟨false, false⟩,
        some true, none, none⟩ ∧
    get_matched 0 "c".toList "a".toList = false ∧ get_matched 0 "c".toList "b".toList = false := by
  decide

/-- Claim C2, at inputs where the code departs from it: the names "csl:a,b",
"file:/tmp/list.txt", "refile:/tmp/p" and "db:/tmp/x" carry a registered type
before the ':', and `dkimf_db_open` returns 1 (unknown database type) for each
of them and hands back no handle. -/
theorem open_registered_type_is_unknown :
    dkimf_db_open sample_config sample_env "csl:a,b".toList 0 false = some ⟨1, none⟩ ∧
    dkimf_db_open sample_config sample_env "file:/tmp/list.txt".toList DKIMF_DB_FLAG_READONLY false
      = some ⟨1, none⟩ ∧
    dkimf_db_open sample_config sample_env "refile:/tmp/p".toList DKIMF_DB_FLAG_READONLY false
      = some ⟨1, none⟩ ∧
    dkimf_db_open sample_config sample_env "db:/tmp/x".toList 0 false = some ⟨1, none⟩ := by
  decide

/-- Claim C3, at inputs where the code departs from it: on a Berkeley DB
handle with a mutex, when the advisory lock cannot be taken, `dkimf_db_put`,
`dkimf_db_delete` and `dkimf_db_get` return -1 with the mutex still held; and
when the advisory lock cannot be released, `dkimf_db_put` returns -1 with the
mutex and the advisory lock both held. -/
theorem lock_failure_leaves_mutex_held :
    dkimf_db_put sample_config sample_lock_fails (sample_bdb_db true []) ⟨false, false⟩
        "k".toList 0 "v".toList 1 =
      some ⟨-1, { sample_bdb_db true [] with db_status := -1 }, ⟨true, false⟩⟩ ∧
    dkimf_db_delete sample_config sample_lock_fails (sample_bdb_db true []) ⟨false, false⟩
        "k".toList 0 =
      some ⟨-1, { sample_bdb_db true [] with db_status := -1 }, ⟨true, false⟩⟩ ∧
    dkimf_db_get sample_config sample_lock_fails (sample_bdb_db true []) ⟨false, false⟩
        "k".toList 0 none true =
      some ⟨-1, { sample_bdb_db true [] with db_status := -1 }, ⟨true, false⟩, none, none, none⟩ ∧
    dkimf_db_put sample_config sample_unlock_fails (sample_bdb_db true []) ⟨false, false⟩
        "k".toList 0 "v".toList 1 =
      some ⟨-1, { sample_bdb_db true [("k".toList, "v".toList)] with db_status := -1 },
        ⟨true, true⟩⟩ := by
  decide

/-- Claim C4: on a handle of type csl or file whose chain has `n` records,
`n + 1` calls of `dkimf_db_walk`, the first with `first` TRUE and the others
with `first` FALSE, with buffers that hold every key and every value, return 0
for the first `n` calls, which hand back the key and the value of the records
in chain order, and 1 for the last call.  On the same handle, with
`db_nrecs = n` and no array made yet, `dkimf_db_mkarray` returns `n`, and for
`n > 0` the array it hands back holds the keys visited, in the same order,
and then NULL. -/
theorem walk_visits_chain_in_order (cfg : Config) (e : Env) (fuel : Nat) (db : dkim_db)
    (keylen datalen : Nat)
    (hty : db.db_type = to_u_int DKIMF_DB_TYPE_FILE ∨ db.db_type = to_u_int DKIMF_DB_TYPE_CSL)
    (hn : db.db_nrecs = (db.chain.length : Int)) (harr : db.db_array = none)
    (hk : ∀ node ∈ db.chain, node.db_list_key.length < keylen)
    (hd : ∀ node ∈ db.chain, ∀ v, node.db_list_value = some v → v.length < datalen) :
    ∃ ws m,
      walk_calls cfg e keylen datalen (db.chain.length + 1) true db = some ws ∧
      ws.map (fun w => (w.ret, w.key, w.data)) =
        db.chain.map (fun node => ((0 : Int), some node.db_list_key, node.db_list_value)) ++
          [((1 : Int), none, none)] ∧
      dkimf_db_mkarray cfg e fuel db = some m ∧ m.ret = (db.chain.length : Int) ∧
      (db.chain ≠ [] →
        m.a = some ((ws.take db.chain.length).map (fun w => w.key) ++ [none])) := by
  obtain ⟨ws, hws, hmap⟩ := walk_calls_list cfg e keylen datalen db.chain db true hty rfl hk hd
  obtain ⟨m, hm, hret, harray⟩ := mkarray_list_first cfg e fuel db hty hn harr
  refine ⟨ws, m, hws, hmap, hm, hret, ?_⟩
  intro hne
  rw [harray hne]
  have hkeys : ws.map (fun w => w.key) =
      db.chain.map (fun node => some node.db_list_key) ++ [none] := by
    have := congrArg (List.map (fun t : Int × Option (List Char) × Option (List Char) => t.2.1)) hmap
    simpa [List.map_map, Function.comp] using this
  have : (ws.take db.chain.length).map (fun w => w.key) =
      db.chain.map (fun node => some node.db_list_key) := by
    rw [List.map_take, hkeys, List.take_left' (by simp)]
  rw [this]

/-- The handle with the records (a, 1) and (b, no value), walked with buffers
of eight bytes. -/
theorem walk_visits_chain_in_order_witness :
    ∃ ws m,
      walk_calls sample_config sample_env 8 8
        ((sample_list_db 0 [⟨"a".toList, some "1".toList⟩, ⟨"b".toList, none⟩]).chain.length + 1)
        true (sample_list_db 0 [⟨"a".toList, some "1".toList⟩, ⟨"b".toList, none⟩]) = some ws ∧
      ws.map (fun w => (w.ret, w.key, w.data)) =
        (sample_list_db 0 [⟨"a".toList, some "1".toList⟩, ⟨"b".toList, none⟩]).chain.map
          (fun node => ((0 : Int), some node.db_list_key, node.db_list_value)) ++
          [((1 : Int), none, none)] ∧
      dkimf_db_mkarray sample_config sample_env 0
        (sample_list_db 0 [⟨"a".toList, some "1".toList⟩, ⟨"b".toList, none⟩]) = some m ∧
      m.ret = ((sample_list_db 0 [⟨"a".toList, some "1".toList⟩,
        ⟨"b".toList, none⟩]).chain.length : Int) ∧
      ((sample_list_db 0 [⟨"a".toList, some "1".toList⟩, ⟨"b".toList, none⟩]).chain ≠ [] →
        m.a = some ((ws.take (sample_list_db 0 [⟨"a".toList, some "1".toList⟩,
          ⟨"b".toList, none⟩]).chain.length).map (fun w => w.key) ++ [none])) :=
  walk_visits_chain_in_order sample_config sample_env 0
    (sample_list_db 0 [⟨"a".toList, some "1".toList⟩, ⟨"b".toList, none⟩]) 8 8
    (by decide) (by decide) (by decide) (by decide) (by decide)

/-- Claim C5, at an input where the code departs from it: the flat file
that holds the line "k a|b|c" is opened with `DKIMF_DB_FLAG_VALLIST`.  The
chain has three records with the values "a", "b", "c" in this order, and the
key of each of them is the empty string, not "k": the key is copied from `p`,
which stands at the end of the line.  The comma list "k=a|b|c" gives the
three records with the key "k". -/
theorem file_vallist_keys_are_empty :
    dkimf_db_open sample_config (sample_file_env "k a|b|c\n".toList) "/f".toList
        (DKIMF_DB_FLAG_READONLY ||| DKIMF_DB_FLAG_VALLIST) false =
      some ⟨0, some ⟨9, 0, to_u_int DKIMF_DB_TYPE_FILE, 0, 3, false,
        .list [⟨[], some "a".toList⟩, ⟨[], some "b".toList⟩, ⟨[], some "c".toList⟩],
        none, .NULL, none⟩⟩ ∧
    dkimf_db_open sample_config sample_env "k=a|b|c".toList DKIMF_DB_FLAG_VALLIST false =
      some ⟨0, some (sample_list_db 8
        [⟨"k".toList, some "a".toList⟩, ⟨"k".toList, some "b".toList⟩,
         ⟨"k".toList, some "c".toList⟩])⟩ := by
  decide

/-- Claim C7: on a handle of type csl or file opened with
`DKIMF_DB_FLAG_MATCHBOTH` whose chain holds a record without value,
`dkimf_db_get` returns 0 and sets `*exists` to TRUE for every probe. -/
theorem get_null_value_matches_all (cfg : Config) (e : Env) (db : dkim_db) (l : Locks)
    (buf : CStr) (buflen : Nat) (outbuf : Option Nat)
    (hty : db.db_type = to_u_int DKIMF_DB_TYPE_FILE ∨ db.db_type = to_u_int DKIMF_DB_TYPE_CSL)
    (_hflag : db.db_flags &&& DKIMF_DB_FLAG_MATCHBOTH ≠ 0)
    (hnull : ∃ node ∈ db.chain, node.db_list_value = none) :
    ∃ r, dkimf_db_get cfg e db l buf buflen outbuf true = some r ∧ r.ret = 0 ∧
      r.found = some true := by
  obtain ⟨r, hr, hret, hfound⟩ := get_list_result cfg e db l buf buflen outbuf hty
  refine ⟨r, hr, hret, ?_⟩
  rw [hfound]
  obtain ⟨node, hmem, hv⟩ := hnull
  have : dkimf_db_get_scan db.db_flags buf db.chain ≠ [] :=
    (get_scan_ne_nil_iff _ _ _).2 ⟨node, hmem, Or.inr (Or.inl hv)⟩
  simp [this]

/-- The handle with the records (a, 1) and (b, no value), opened with
`DKIMF_DB_FLAG_MATCHBOTH` and asked for "zzz". -/
theorem get_null_value_matches_all_witness :
    ∃ r, dkimf_db_get sample_config sample_env
        (sample_list_db DKIMF_DB_FLAG_MATCHBOTH [⟨"a".toList, some "1".toList⟩, ⟨"b".toList, none⟩])
        ⟨false, false⟩ "zzz".toList 0 none true = some r ∧ r.ret = 0 ∧ r.found = some true :=
  get_null_value_matches_all sample_config sample_env
    (sample_list_db DKIMF_DB_FLAG_MATCHBOTH [⟨"a".toList, some "1".toList⟩, ⟨"b".toList, none⟩])
    ⟨false, false⟩ "zzz".toList 0 none (by decide) (by decide) (by decide)

/-- Claim C8: for a name without ':', `dkimf_db_open` takes the type to be
the engine when Berkeley DB is compiled in and the name ends in ".db", else
the flat file when the name begins with '/', else the comma list; the locator
is the whole name; and a handle that is handed back has that type. -/
theorem open_name_without_colon (cfg : Config) (e : Env) (name : CStr) (flags : Nat)
    (lock : Bool) (h : ':' ∉ name) :
    dkimf_db_open_type cfg name = some (.known (spec_default_type cfg name) name) ∧
    dkimf_db_open cfg e name flags lock =
      dkimf_db_open_switch cfg e (new_handle flags lock (spec_default_type cfg name)) name flags ∧
    ∀ r db, dkimf_db_open cfg e name flags lock = some ⟨r, some db⟩ →
      db.db_type = spec_default_type cfg name :=
  open_no_colon cfg e name flags lock h

/-- The name "/var/db/keys.db" in a build with Berkeley DB. -/
theorem open_name_without_colon_witness :
    dkimf_db_open_type sample_config "/var/db/keys.db".toList =
      some (.known (spec_default_type sample_config "/var/db/keys.db".toList)
        "/var/db/keys.db".toList) ∧
    dkimf_db_open sample_config sample_env "/var/db/keys.db".toList 1 false =
      dkimf_db_open_switch sample_config sample_env
        (new_handle 1 false (spec_default_type sample_config "/var/db/keys.db".toList))
        "/var/db/keys.db".toList 1 ∧
    ∀ r db, dkimf_db_open sample_config sample_env "/var/db/keys.db".toList 1 false =
        some ⟨r, some db⟩ →
      db.db_type = spec_default_type sample_config "/var/db/keys.db".toList :=
  open_name_without_colon sample_config sample_env "/var/db/keys.db".toList 1 false (by decide)

/-- Claim C9, at an input where the code departs from it: in a build without
Berkeley DB the name "ldap:host", before whose ':' no registered type stands,
gives `dkimf_db_open` no defined result, whatever the flags: the loop
`for (c = 0; c < DKIMF_DB_TYPE_COUNT; c++)` runs up to `c = 3` and reads
`dbtypes[3]`, past the end of the table, which has three entries in this
build.  With Berkeley DB compiled in the same name returns 1. -/
theorem open_unknown_type_reads_past_table (e : Env) (flags : Nat) (lock : Bool) :
    dkimf_db_open sample_config_nodb e "ldap:host".toList flags lock = none ∧
    dkimf_db_open_type sample_config_nodb "ldap:host".toList = none ∧
    (dbtypes sample_config_nodb).length = 3 ∧ DKIMF_DB_TYPE_COUNT = 4 ∧
    (dbtypes sample_config_nodb).get? 3 = none ∧
    dkimf_db_open sample_config e "ldap:host".toList flags lock = some ⟨1, none⟩ := by
  have h1 : dkimf_db_open_type sample_config_nodb "ldap:host".toList = none := by decide
  have h2 : dkimf_db_open_type sample_config "ldap:host".toList = some .unknown := by decide
  refine ⟨?_, h1, by decide, by decide, by decide, ?_⟩
  · unfold dkimf_db_open
    rw [h1]
  · unfold dkimf_db_open
    rw [h2]

/-- Claim C10: when `DKIMF_DB_FLAG_READONLY` is clear, the construction of a
handle of type file or refile makes `dkimf_db_open` return 2 and hand back no
handle, whatever the locator is and whatever the files hold; so does
`dkimf_db_open` for every name that it takes for a flat file. -/
theorem open_writable_is_illegal (cfg : Config) (e : Env) (flags : Nat) (lock : Bool)
    (hro : flags &&& DKIMF_DB_FLAG_READONLY = 0) :
    (∀ (new : dkim_db) (p : CStr),
      new.db_type = to_u_int DKIMF_DB_TYPE_FILE ∨ new.db_type = to_u_int DKIMF_DB_TYPE_REFILE →
      dkimf_db_open_switch cfg e new p flags = some ⟨2, none⟩) ∧
    (∀ name : CStr, ':' ∉ name →
      spec_default_type cfg name = to_u_int DKIMF_DB_TYPE_FILE →
      dkimf_db_open cfg e name flags lock = some ⟨2, none⟩) := by
  have hswitch : ∀ (new : dkim_db) (p : CStr),
      new.db_type = to_u_int DKIMF_DB_TYPE_FILE ∨ new.db_type = to_u_int DKIMF_DB_TYPE_REFILE →
      dkimf_db_open_switch cfg e new p flags = some ⟨2, none⟩ := by
    intro new p hty
    unfold dkimf_db_open_switch
    rcases hty with h | h
    · rw [if_neg (by rw [h]; decide), if_pos h, if_pos hro]
    · rw [if_neg (by rw [h]; decide), if_neg (by rw [h]; decide), if_pos h, if_pos hro]
  refine ⟨hswitch, ?_⟩
  intro name hcolon hfile
  rw [(open_no_colon cfg e name flags lock hcolon).2.1]
  exact hswitch _ name (Or.inl hfile)

/-- A pattern file and the flat file "/etc/mail/list", asked for without
`DKIMF_DB_FLAG_READONLY`. -/
theorem open_writable_is_illegal_witness :
    dkimf_db_open_switch sample_config (sample_file_env "a b\n".toList)
      (new_handle 0 false (to_u_int DKIMF_DB_TYPE_REFILE)) "/etc/mail/patterns".toList 0 =
      some ⟨2, none⟩ ∧
    dkimf_db_open sample_config (sample_file_env "a b\n".toList) "/etc/mail/list".toList 0 false =
      some ⟨2, none⟩ :=
  ⟨(open_writable_is_illegal sample_config (sample_file_env "a b\n".toList) 0 false
      (by decide)).1 (new_handle 0 false (to_u_int DKIMF_DB_TYPE_REFILE))
      "/etc/mail/patterns".toList (by decide),
   (open_writable_is_illegal sample_config (sample_file_env "a b\n".toList) 0 false
      (by decide)).2 "/etc/mail/list".toList (by decide) (by decide)⟩

/-- Claim C11, at its own input: the name "file:/tmp/list.txt", the file
holding "alice secret1", a comment line and "bob secret2".  With no flag
`dkimf_db_open` returns 1 (unknown database type) and hands back no handle, so
there is nothing to ask for "alice" or "carol"; it does the same with
`DKIMF_DB_FLAG_READONLY` set.  The type before the ':' is copied with the
length `name - p` instead of `p - name`, so the whole name is compared with
the table.  In a build without Berkeley DB the call has no defined result. -/
theorem open_scenario_type_is_unknown :
    dkimf_db_open sample_config (sample_file_env sample_list_txt)
      "file:/tmp/list.txt".toList 0 false = some ⟨1, none⟩ ∧
    dkimf_db_open sample_config (sample_file_env sample_list_txt)
      "file:/tmp/list.txt".toList DKIMF_DB_FLAG_READONLY false = some ⟨1, none⟩ ∧
    dkimf_db_open_type sample_config "file:/tmp/list.txt".toList = some .unknown ∧
    dkimf_db_open sample_config_nodb (sample_file_env sample_list_txt)
      "file:/tmp/list.txt".toList 0 false = none := by
  decide

/-- The flat-file line "k v1 v2": the value that `dkimf_db_open` stores is
"v1 v2", not the run "v1" that the spec names. -/
theorem file_value_runs_to_end_of_line :
    file_line DKIMF_DB_FLAG_READONLY (dkimf_trimspaces (strip_comment "k v1 v2\n".toList))
      ⟨[], 0⟩ = some ⟨[⟨"k".toList, some "v1 v2".toList⟩], 1⟩ ∧
    spec_file_record (dkimf_trimspaces (strip_comment "k v1 v2\n".toList)) =
      ⟨"k".toList, some "v1".toList⟩ ∧
    dkimf_db_open sample_config (sample_file_env "k v1 v2\n".toList) "/f".toList
      DKIMF_DB_FLAG_READONLY false =
      some ⟨0, some (sample_file_db 1 [⟨"k".toList, some "v1 v2".toList⟩])⟩ := by
  decide

/-- Claim C12, amended: for every flat-file line that is not empty after the
comment is cut off and the white space is trimmed, and without
`DKIMF_DB_FLAG_VALLIST`, one node is added to the chain; its key is the first
run of characters that are not white space, and when something follows the
white space behind the key, its value is the rest of the line from there, the
white space inside it included (for "k v1 v2" the value is "v1 v2"). -/
theorem file_line_record (flags : Nat) (raw : List Char) (st : build_state)
    (hflag : flags &&& DKIMF_DB_FLAG_VALLIST = 0)
    (hne : dkimf_trimspaces (strip_comment raw) ≠ []) :
    ∃ node, file_line flags (dkimf_trimspaces (strip_comment raw)) st = some (st.add node) ∧
      node.db_list_key = (dkimf_trimspaces (strip_comment raw)).takeWhile scan_nonspace ∧
      ((((dkimf_trimspaces (strip_comment raw)).dropWhile scan_nonspace).dropWhile
          (fun c => !scan_nonspace c)) ≠ [] →
        node.db_list_value =
          some (((dkimf_trimspaces (strip_comment raw)).dropWhile scan_nonspace).dropWhile
            (fun c => !scan_nonspace c))) := by
  refine ⟨file_record (dkimf_trimspaces (strip_comment raw)),
    file_line_eq flags _ st hflag (trimmed_line raw).1 (trimmed_line raw).2 hne, rfl, ?_⟩
  intro hrest
  unfold file_record
  simp only
  rw [if_neg hrest]

/-- The line "alice secret1 s2 # note". -/
theorem file_line_record_witness :
    ∃ node, file_line 1 (dkimf_trimspaces (strip_comment "alice secret1 s2 # note\n".toList))
        ⟨[], 0⟩ = some ((⟨[], 0⟩ : build_state).add node) ∧
      node.db_list_key = "alice".toList ∧ node.db_list_value = some "secret1 s2".toList := by
  obtain ⟨node, hline, hkey, hvalue⟩ :=
    file_line_record 1 "alice secret1 s2 # note\n".toList ⟨[], 0⟩ (by decide) (by decide)
  exact ⟨node, hline, by rw [hkey]; decide, by rw [hvalue (by decide)]; decide⟩

/-- Claim C13, at an input where the code departs from it: the comma list
"x,a=b" opened without any flag.  The token "x" holds no '=', and the node
made for it has its key stored and its `db_list_value` not written; the last
node of the chain has its `db_list_next` not written either: two pointer
fields of the chain were never written.  With an allocator that does not clear
memory the chain handed back has no defined content, so the record for "x" is
not one "with no value"; only with an allocator that hands out zeroed memory
is the chain read as the records (x, no value), (a, b). -/
theorem csl_value_is_never_written (e : Env) :
    csl_token 0 "x".toList ⟨[], 0⟩ = ⟨[⟨"x".toList, not_written⟩], 1⟩ ∧
    csl_token 0 "a=b".toList ⟨[⟨"x".toList, not_written⟩], 1⟩ =
      ⟨[⟨"x".toList, not_written⟩, ⟨"a".toList, some "b".toList⟩], 2⟩ ∧
    build_state.unwritten_fields
      ⟨[⟨"x".toList, not_written⟩, ⟨"a".toList, some "b".toList⟩], 2⟩ = 2 ∧
    dkimf_db_open sample_config_raw e "x,a=b".toList 0 false = none ∧
    dkimf_db_open sample_config e "x,a=b".toList 0 false =
      some ⟨0, some (sample_list_db 0 [⟨"x".toList, none⟩, ⟨"a".toList, some "b".toList⟩])⟩ := by
  exact ⟨rfl, rfl, rfl, rfl, rfl⟩

/-- Claim C14, at an input where the code departs from it: the comma list
"a=1|2,b=3" is opened with `DKIMF_DB_FLAG_VALLIST` in a build with Berkeley
DB.  The first call of `dkimf_db_mkarray` returns 3 and hands back the keys
"a", "a", "b" and NULL.  The second call, on the handle as the first call left
it, returns the array pointer converted to `int` and stores nothing through
`a`. -/
theorem mkarray_second_call_returns_pointer (e : Env) (fuel : Nat) :
    dkimf_db_open sample_config e "a=1|2,b=3".toList DKIMF_DB_FLAG_VALLIST false =
      some ⟨0, some (sample_list_db 8 sample_vallist_chain)⟩ ∧
    dkimf_db_mkarray sample_config e fuel (sample_list_db 8 sample_vallist_chain) =
      some ⟨3, { sample_list_db 8 sample_vallist_chain with
          db_array := some [some "a".toList, some "a".toList, some "b".toList, none] },
        some [some "a".toList, some "a".toList, some "b".toList, none]⟩ ∧
    dkimf_db_mkarray sample_config e fuel
        { sample_list_db 8 sample_vallist_chain with
          db_array := some [some "a".toList, some "a".toList, some "b".toList, none] } =
      some ⟨e.array_as_int,
        { sample_list_db 8 sample_vallist_chain with
          db_array := some [some "a".toList, some "a".toList, some "b".toList, none] },
        none⟩ := by
  exact ⟨rfl, rfl, rfl⟩

/-- Claim C15, at an input where the code departs from it: on a Berkeley DB
handle whose store holds the keys "a" and "b" and on which every engine call
succeeds, `dkimf_db_mkarray` has no result, whatever bound the loop is given:
its first call of `dkimf_db_walk` reads through the value `sizeof keybuf - 1`
handed over as the pointer `keylen`. -/
theorem mkarray_engine_reads_bad_pointer (fuel : Nat) :
    dkimf_db_mkarray sample_config sample_env fuel
      (sample_bdb_db false [("a".toList, "1".toList), ("b".toList, "2".toList)]) = none := by
  cases fuel <;> rfl

/-- Claim C16, at an input where the code departs from it: on an empty store
`dkimf_db_put` stores the value "v" under the key "k", and `dkimf_db_get` with
a buffer of 64 bytes then returns 0 with `*exists` TRUE, but with no byte in
the buffer and `*outbuflen` set to 0.  After `dkimf_db_delete` of "k",
`dkimf_db_get` returns 0 with `*exists` FALSE. -/
theorem engine_get_after_put_has_no_value :
    dkimf_db_put sample_config sample_env (sample_bdb_db false []) ⟨false, false⟩
        "k".toList 0 "v".toList 1 =
      some ⟨0, sample_bdb_db false [("k".toList, "v".toList)], ⟨false, false⟩⟩ ∧
    dkimf_db_get sample_config sample_env (sample_bdb_db false [("k".toList, "v".toList)])
        ⟨false, false⟩ "k".toList 0 (some 64) true =
      some ⟨0, sample_bdb_db false [("k".toList, "v".toList)], ⟨false, false⟩,
        some true, some [], some 0⟩ ∧
    dkimf_db_delete sample_config sample_env (sample_bdb_db false [("k".toList, "v".toList)])
        ⟨false, false⟩ "k".toList 0 =
      some ⟨0, sample_bdb_db false [], ⟨false, false⟩⟩ ∧
    dkimf_db_get sample_config sample_env (sample_bdb_db false [])
        ⟨false, false⟩ "k".toList 0 (some 64) true =
      some ⟨0, sample_bdb_db false [], ⟨false, false⟩, some false, none, none⟩ := by
  decide

/-- Claim C17: on a Berkeley DB handle, when the engine works, the advisory
lock is taken and released without failure and the store holds no record
under the key, `dkimf_db_get` returns 0, sets `*exists` to FALSE and leaves
the handle, `db_status` included, as it was. -/
theorem engine_get_absent_key (cfg : Config) (e : Env) (db : dkim_db) (l : Locks)
    (buf : CStr) (buflen : Nat) (outbuf : Option Nat) (q : List Char)
    (hdb : cfg.USE_DB = true) (hty : db.db_type = to_u_int DKIMF_DB_TYPE_BDB)
    (hop : e.op_error = none) (hlock : e.lock_status = 0) (hunlock : e.unlock_status = 0)
    (hq : key_dbt buf buflen = some q)
    (habsent : ∀ r ∈ db.db_handle.as_bdb.records, r.1 ≠ q) :
    ∃ r, dkimf_db_get cfg e db l buf buflen outbuf true = some r ∧ r.ret = 0 ∧
      r.found = some false ∧ r.db = db ∧ r.db.db_status = db.db_status := by
  have hfind : db.db_handle.as_bdb.records.find? (fun r => r.1 == q) = none := by
    rw [List.find?_eq_none]
    intro r hr
    simpa using habsent r hr
  have hget : ∀ d, DB.get e db.db_handle.as_bdb q d = (DB_NOTFOUND, none, d.size) := by
    intro d
    simp [DB.get, hop, hfind]
  unfold dkimf_db_get
  simp only
  rw [if_neg (by rw [hty]; decide), if_neg (by rw [hty]; decide), if_pos ⟨hdb, hty⟩, hq]
  simp only [hlock, hunlock, ne_eq, not_true_eq_false, and_false, if_false, hget]
  refine ⟨_, rfl, ?_, ?_, rfl, rfl⟩
  · simp [DB_NOTFOUND]
  · simp [DB_NOTFOUND]

/-- A Berkeley DB handle with a mutex that holds the key "a" is asked for
"b". -/
theorem engine_get_absent_key_witness :
    ∃ r, dkimf_db_get sample_config sample_env
        (sample_bdb_db true [("a".toList, "1".toList)]) ⟨false, false⟩ "b".toList 0 (some 16) true
        = some r ∧ r.ret = 0 ∧ r.found = some false ∧
      r.db = sample_bdb_db true [("a".toList, "1".toList)] ∧
      r.db.db_status = (sample_bdb_db true [("a".toList, "1".toList)]).db_status :=
  engine_get_absent_key sample_config sample_env (sample_bdb_db true [("a".toList, "1".toList)])
    ⟨false, false⟩ "b".toList 0 (some 16) "b".toList (by decide) (by decide) (by decide)
    (by decide) (by decide) (by decide) (by decide)

/-- Claim C18: `dkimf_db_put` and `dkimf_db_delete` on a handle of type csl,
file or refile return `EINVAL`, `dkimf_db_walk` and `dkimf_db_mkarray` on a
handle of type refile return -1; each of these calls leaves the handle and the
locks as they were and hands back no record and no array. -/
theorem unsupported_operations (cfg : Config) (e : Env) (db : dkim_db) :
    (db.db_type = to_u_int DKIMF_DB_TYPE_CSL ∨ db.db_type = to_u_int DKIMF_DB_TYPE_FILE ∨
        db.db_type = to_u_int DKIMF_DB_TYPE_REFILE →
      (∀ l buf buflen outbuf outbuflen,
        dkimf_db_put cfg e db l buf buflen outbuf outbuflen = some ⟨EINVAL, db, l⟩) ∧
      (∀ l buf buflen, dkimf_db_delete cfg e db l buf buflen = some ⟨EINVAL, db, l⟩)) ∧
    (db.db_type = to_u_int DKIMF_DB_TYPE_REFILE →
      (∀ first key keylen data datalen,
        dkimf_db_walk cfg e db first key keylen data datalen =
          some ⟨-1, db, none, none, none, none⟩) ∧
      (∀ fuel, dkimf_db_mkarray cfg e fuel db = some ⟨-1, db, none⟩)) := by
  constructor
  · intro hty
    have hmem : is_memory_type db = true := by
      unfold is_memory_type
      rcases hty with h | h | h <;> simp [h]
    constructor
    · intro l buf buflen outbuf outbuflen
      unfold dkimf_db_put
      rw [if_pos hmem]
    · intro l buf buflen
      unfold dkimf_db_delete
      rw [if_pos hmem]
  · intro hty
    constructor
    · intro first key keylen data datalen
      unfold dkimf_db_walk
      rw [if_pos hty]
    · intro fuel
      unfold dkimf_db_mkarray
      rw [if_pos hty]

/-- A comma list and a pattern file. -/
theorem unsupported_operations_witness :
    ((∀ l buf buflen outbuf outbuflen,
        dkimf_db_put sample_config sample_env (sample_list_db 0 [⟨"a".toList, none⟩]) l buf buflen
          outbuf outbuflen = some ⟨EINVAL, sample_list_db 0 [⟨"a".toList, none⟩], l⟩) ∧
      (∀ l buf buflen,
        dkimf_db_delete sample_config sample_env (sample_list_db 0 [⟨"a".toList, none⟩]) l buf
          buflen = some ⟨EINVAL, sample_list_db 0 [⟨"a".toList, none⟩], l⟩)) ∧
    ((∀ first key keylen data datalen,
        dkimf_db_walk sample_config sample_env (sample_refile_db [⟨⟨"^a".toList, 1⟩⟩]) first key
          keylen data datalen =
          some ⟨-1, sample_refile_db [⟨⟨"^a".toList, 1⟩⟩], none, none, none, none⟩) ∧
      (∀ fuel, dkimf_db_mkarray sample_config sample_env fuel
          (sample_refile_db [⟨⟨"^a".toList, 1⟩⟩]) =
        some ⟨-1, sample_refile_db [⟨⟨"^a".toList, 1⟩⟩], none⟩)) :=
  ⟨(unsupported_operations sample_config sample_env (sample_list_db 0 [⟨"a".toList, none⟩])).1
      (by decide),
   (unsupported_operations sample_config sample_env (sample_refile_db [⟨⟨"^a".toList, 1⟩⟩])).2
      (by decide)⟩

/-- Claim C19: on a handle of type refile `dkimf_db_get` returns 0 and sets
`*exists`, to TRUE exactly when `regexec` returns 0 for some pattern of the
chain; it stores nothing in `outbuf` nor through `outbuflen`, and leaves the
handle as it was. -/
theorem refile_get_membership (cfg : Config) (e : Env) (db : dkim_db) (l : Locks)
    (buf : CStr) (buflen : Nat) (outbuf : Option Nat)
    (hty : db.db_type = to_u_int DKIMF_DB_TYPE_REFILE) :
    ∃ r, dkimf_db_get cfg e db l buf buflen outbuf true = some r ∧ r.ret = 0 ∧
      (r.found = some true ∨ r.found = some false) ∧
      (r.found = some true ↔
        ∃ node ∈ db.db_handle.as_relist, e.regexec node.db_relist_re buf = 0) ∧
      r.outbuf = none ∧ r.outbuflen = none ∧ r.db = db := by
  unfold dkimf_db_get
  simp only
  rw [if_neg (by rw [hty]; decide), if_pos hty]
  by_cases hm : dkimf_db_get_rescan e buf db.db_handle.as_relist = true
  · rw [if_pos hm]
    exact ⟨_, rfl, rfl, Or.inl rfl, ⟨fun _ => (get_rescan_iff _ _ _).1 hm, fun _ => rfl⟩,
      rfl, rfl, rfl⟩
  · rw [if_neg hm]
    refine ⟨_, rfl, rfl, Or.inr rfl, ⟨fun h => ?_, fun h => ?_⟩, rfl, rfl, rfl⟩
    · simp at h
    · exact absurd ((get_rescan_iff _ _ _).2 h) hm

/-- The patterns "^x" and "^ab" are asked for "abc", with a buffer of eight
bytes. -/
theorem refile_get_membership_witness :
    ∃ r, dkimf_db_get sample_config sample_regex_env
        (sample_refile_db [⟨⟨"x".toList, 1⟩⟩, ⟨⟨"ab".toList, 1⟩⟩]) ⟨false, false⟩ "abc".toList 0
        (some 8) true = some r ∧ r.ret = 0 ∧
      (r.found = some true ∨ r.found = some false) ∧
      (r.found = some true ↔
        ∃ node ∈ (sample_refile_db [⟨⟨"x".toList, 1⟩⟩, ⟨⟨"ab".toList, 1⟩⟩]).db_handle.as_relist,
          sample_regex_env.regexec node.db_relist_re "abc".toList = 0) ∧
      r.outbuf = none ∧ r.outbuflen = none ∧
      r.db = sample_refile_db [⟨⟨"x".toList, 1⟩⟩, ⟨⟨"ab".toList, 1⟩⟩] :=
  refile_get_membership sample_config sample_regex_env
    (sample_refile_db [⟨⟨"x".toList, 1⟩⟩, ⟨⟨"ab".toList, 1⟩⟩]) ⟨false, false⟩ "abc".toList 0
    (some 8) (by decide)

/-- Claim C20, at inputs where the code departs from it: the flat-file line
"k a|b" read with `DKIMF_DB_FLAG_VALLIST` adds two nodes whose key is the
empty string, since the key is copied from `p`, which stands at the end of the
line, and not from `key`; so each record of the handle that the flat file
opens to has an empty key.  The comma-list token "=v" adds a node whose key is
the empty string as well: the token is cut at its first '=' and what stands
before it is copied without a check. -/
theorem list_record_keys_can_be_empty :
    file_line 9 (dkimf_trimspaces (strip_comment "k a|b\n".toList)) ⟨[], 0⟩ =
      some ⟨[⟨[], some "a".toList⟩, ⟨[], some "b".toList⟩], 2⟩ ∧
    dkimf_db_open sample_config (sample_file_env "k a|b\n".toList) "/f".toList
        (DKIMF_DB_FLAG_READONLY ||| DKIMF_DB_FLAG_VALLIST) false =
      some ⟨0, some (sample_file_db 9 [⟨[], some "a".toList⟩, ⟨[], some "b".toList⟩])⟩ ∧
    (∀ node ∈ (sample_file_db 9 [⟨[], some "a".toList⟩, ⟨[], some "b".toList⟩]).chain,
      node.db_list_key = []) ∧
    csl_token 0 "=v".toList ⟨[], 0⟩ = ⟨[⟨[], some "v".toList⟩], 1⟩ ∧
    dkimf_db_open sample_config sample_env "=v".toList 0 false =
      some ⟨0, some (sample_list_db 0 [⟨[], some "v".toList⟩])⟩ := by
  decide

/-- Claim C21: on every handle of type csl or file that `dkimf_db_open` hands
back `db_nrecs` is the length of the chain, whatever the flags; and on every
handle of type csl or file, `dkimf_db_get` hands the handle back unchanged,
`dkimf_db_put` and `dkimf_db_delete` return `EINVAL` and leave it unchanged,
and `dkimf_db_walk` and `dkimf_db_mkarray` leave `db_handle`, `db_nrecs`,
`db_type` and `db_flags` as they were.  `dkimf_db_get` always returns,
`dkimf_db_walk` returns when it is given two buffers with their lengths, and
`dkimf_db_mkarray` returns when `db_nrecs` is the length of the chain. -/
theorem record_count_is_chain_length (cfg : Config) (e : Env) :
    (∀ name flags lock r db, dkimf_db_open cfg e name flags lock = some ⟨r, some db⟩ →
      (db.db_type = to_u_int DKIMF_DB_TYPE_FILE ∨ db.db_type = to_u_int DKIMF_DB_TYPE_CSL) →
      db.db_nrecs = (db.chain.length : Int)) ∧
    (∀ db : dkim_db,
      (db.db_type = to_u_int DKIMF_DB_TYPE_FILE ∨ db.db_type = to_u_int DKIMF_DB_TYPE_CSL) →
      (∀ l buf buflen outbuf want_exists,
        ∃ r, dkimf_db_get cfg e db l buf buflen outbuf want_exists = some r ∧ r.db = db) ∧
      (∀ l buf buflen outbuf outbuflen,
        dkimf_db_put cfg e db l buf buflen outbuf outbuflen = some ⟨EINVAL, db, l⟩) ∧
      (∀ l buf buflen, dkimf_db_delete cfg e db l buf buflen = some ⟨EINVAL, db, l⟩) ∧
      (∀ first key keylen data datalen r,
        dkimf_db_walk cfg e db first key keylen data datalen = some r →
        r.db.db_handle = db.db_handle ∧ r.db.db_nrecs = db.db_nrecs ∧
        r.db.db_type = db.db_type ∧ r.db.db_flags = db.db_flags) ∧
      (∀ first keylen datalen,
        ∃ r, dkimf_db_walk cfg e db first true (.valid keylen) true (.valid datalen) = some r) ∧
      (∀ fuel r, dkimf_db_mkarray cfg e fuel db = some r →
        r.db.db_handle = db.db_handle ∧ r.db.db_nrecs = db.db_nrecs ∧
        r.db.db_type = db.db_type ∧ r.db.db_flags = db.db_flags) ∧
      (db.db_nrecs = (db.chain.length : Int) →
        ∀ fuel, ∃ r, dkimf_db_mkarray cfg e fuel db = some r)) := by
  refine ⟨fun name flags lock r db h hty =>
    (open_handle_fresh cfg e name flags lock r db h).2.2.2 hty, ?_⟩
  intro db hty
  have hmem : is_memory_type db = true := by
    unfold is_memory_type
    rcases hty with h | h <;> simp [h]
  refine ⟨fun l buf buflen outbuf we => get_list_keeps_handle cfg e db l buf buflen outbuf we hty,
    ?_, ?_, ?_, fun first keylen datalen => walk_list_returns cfg e db first keylen datalen hty,
    ?_, fun hn fuel => mkarray_list_returns cfg e fuel db hty hn⟩
  · intro l buf buflen outbuf outbuflen
    unfold dkimf_db_put
    rw [if_pos hmem]
  · intro l buf buflen
    unfold dkimf_db_delete
    rw [if_pos hmem]
  · intro first key keylen data datalen r h
    obtain ⟨cur, hc⟩ := walk_list_keeps_chain cfg e db first key data keylen datalen r hty h
    rw [hc]
    exact ⟨rfl, rfl, rfl, rfl⟩
  · intro fuel r h
    obtain ⟨arr, hc⟩ := mkarray_list_keeps_chain cfg e fuel db r hty h
    rw [hc]
    exact ⟨rfl, rfl, rfl, rfl⟩

/-- The comma list "a=1|2,b=3" opened with `DKIMF_DB_FLAG_VALLIST`, and the
first call of `dkimf_db_walk` on the handle it gives. -/
theorem record_count_is_chain_length_witness :
    (sample_list_db 8 sample_vallist_chain).db_nrecs =
      ((sample_list_db 8 sample_vallist_chain).chain.length : Int) ∧
    ∃ r, dkimf_db_walk sample_config sample_env (sample_list_db 8 sample_vallist_chain)
        true true (.valid 8) true (.valid 8) = some r ∧
      r.db.db_handle = (sample_list_db 8 sample_vallist_chain).db_handle ∧
      r.db.db_nrecs = (sample_list_db 8 sample_vallist_chain).db_nrecs ∧
      r.db.db_type = (sample_list_db 8 sample_vallist_chain).db_type ∧
      r.db.db_flags = (sample_list_db 8 sample_vallist_chain).db_flags :=
  ⟨(record_count_is_chain_length sample_config sample_env).1 "a=1|2,b=3".toList 8 false 0
      (sample_list_db 8 sample_vallist_chain) (by decide) (Or.inr (by decide)),
   ⟨⟨0, { sample_list_db 8 sample_vallist_chain with
          db_cursor := .list sample_vallist_chain.tail },
      some "a".toList, some 1, some "1".toList, some 1⟩, by decide,
    ((record_count_is_chain_length sample_config sample_env).2
      (sample_list_db 8 sample_vallist_chain) (Or.inr (by decide))).2.2.2.1
      true true (.valid 8) true (.valid 8) _ (by decide)⟩⟩

/-- Claim C22, at an input where the code departs from it: the comma list
"k=abcdef" is asked for "k" with an output buffer of 4 bytes.  The characters
"abc" and the terminator are stored in the buffer, 4 bytes in all, and 6, the
length of the whole value, is stored through `outbuflen`. -/
theorem get_stores_length_of_value :
    dkimf_db_open sample_config sample_env "k=abcdef".toList 0 false =
      some ⟨0, some (sample_list_db 0 [⟨"k".toList, some "abcdef".toList⟩])⟩ ∧
    dkimf_db_get sample_config sample_env (sample_list_db 0 [⟨"k".toList, some "abcdef".toList⟩])
        ⟨false, false⟩ "k".toList 0 (some 4) true =
      some ⟨0, sample_list_db 0 [⟨"k".toList, some "abcdef".toList⟩], ⟨false, false⟩,
        some true, some "abc".toList, some 6⟩ := by
  decide

/-- Claim C23, at an input where the code departs from it: the empty comma
list opens to a handle without records, and on it `dkimf_db_mkarray` returns
0, not -1: with Berkeley DB compiled in it stores nothing through `a`, without
it the array handed back holds the terminator alone. -/
theorem mkarray_empty_returns_zero (e : Env) (fuel : Nat) :
    dkimf_db_open sample_config e [] 0 false = some ⟨0, some (sample_list_db 0 [])⟩ ∧
    dkimf_db_open sample_config_nodb e [] 0 false = some ⟨0, some (sample_list_db 0 [])⟩ ∧
    dkimf_db_mkarray sample_config e fuel (sample_list_db 0 []) =
      some ⟨0, sample_list_db 0 [], none⟩ ∧
    dkimf_db_mkarray sample_config_nodb e fuel (sample_list_db 0 []) =
      some ⟨0, { sample_list_db 0 [] with db_array := some [none] }, some [none]⟩ := by
  exact ⟨rfl, rfl, rfl, rfl⟩

/-- Claim C24, at inputs where the code departs from it: on a Berkeley DB
handle whose array owns the keys "a" and "b" and on which
`DKIMF_DB_IFLAG_FREEARRAY` is set, `dkimf_db_close` has no result, whatever
bound the loop over the array is given: the loop tests `db->db_array`, which
it never changes, so it goes on past the terminator and reads past the end of
the array.  The same holds on the handle that `dkimf_db_mkarray` hands back
for an empty store in a build with `BUFRSZ` 0. -/
theorem close_array_loop_has_no_end (fuel : Nat) :
    dkimf_db_close sample_config fuel
      (sample_bdb_array_db [("a".toList, "1".toList), ("b".toList, "2".toList)]) = none ∧
    (sample_bdb_array_db [("a".toList, "1".toList), ("b".toList, "2".toList)]).db_array =
      some [some "a".toList, some "b".toList, none] ∧
    dkimf_db_mkarray sample_config_zero sample_env (fuel + 1) (sample_bdb_db false []) =
      some ⟨1, { sample_bdb_db false [] with db_iflags := 1, db_array := some [some [], none] },
        some [some [], none]⟩ ∧
    dkimf_db_close sample_config_zero fuel
      { sample_bdb_db false [] with db_iflags := 1, db_array := some [some [], none] } = none :=
  ⟨close_freearray_undefined _ _ _ _ rfl (by decide), rfl, rfl,
   close_freearray_undefined _ _ _ _ rfl (by decide)⟩

/-- Claim C25, at inputs where the code departs from it: the empty comma list,
and a flat file that holds a comment line and a blank line, open with result 0
to a handle whose chain is NULL; on each of the two handles `dkimf_db_close`
has no result, since it calls `dkimf_db_list_free` with NULL and
`assert(list != NULL)` fails. -/
theorem close_of_empty_source_aborts (fuel : Nat) :
    dkimf_db_open sample_config sample_env [] 0 false = some ⟨0, some (sample_list_db 0 [])⟩ ∧
    dkimf_db_close sample_config fuel (sample_list_db 0 []) = none ∧
    dkimf_db_open sample_config (sample_file_env "# none\n\n".toList) "/f".toList
        DKIMF_DB_FLAG_READONLY false = some ⟨0, some (sample_file_db 1 [])⟩ ∧
    dkimf_db_close sample_config fuel (sample_file_db 1 []) = none ∧
    dkimf_db_list_free [] = none :=
  ⟨rfl, rfl, by decide, rfl, rfl⟩

/-- Claim C26: on a handle of type csl or file `dkimf_db_get` returns 0 and
leaves the handle as it was; `*exists` is TRUE exactly when some record of the
chain hits; when no record hits nothing is stored in `outbuf`; and when the
chain is `pre`, `node`, `post` with no hit in `pre` and a hit at `node`, what
is copied out is the value of `node` (by `strlcpy`, when `node` has a value
and a buffer is given, and nothing else).  A record hits, with
`DKIMF_DB_FLAG_MATCHBOTH` clear, when the probe matches its key, or it has no
value, or the probe matches its value; with the flag set, when it has no value
or the probe matches its value.  On strings without NUL the probe matches a
string when the two are equal, with `DKIMF_DB_FLAG_ICASE` clear, and when
their lower-cased forms are equal, with the flag set. -/
theorem get_is_first_hit_scan (cfg : Config) (e : Env) (db : dkim_db) (l : Locks)
    (buf : CStr) (buflen : Nat) (outbuf : Option Nat)
    (hty : db.db_type = to_u_int DKIMF_DB_TYPE_FILE ∨ db.db_type = to_u_int DKIMF_DB_TYPE_CSL) :
    (∃ r, dkimf_db_get cfg e db l buf buflen outbuf true = some r ∧ r.ret = 0 ∧ r.db = db ∧
      (r.found = some true ∨ r.found = some false) ∧
      (r.found = some true ↔ ∃ node ∈ db.chain, get_hit db.db_flags buf node) ∧
      ((∀ node ∈ db.chain, ¬ get_hit db.db_flags buf node) →
        r.outbuf = none ∧ r.outbuflen = none) ∧
      (∀ pre node post, db.chain = pre ++ node :: post →
        (∀ x ∈ pre, ¬ get_hit db.db_flags buf x) → get_hit db.db_flags buf node →
        r.found = some true ∧
        (∀ value size, node.db_list_value = some value → outbuf = some size →
          r.outbuf = (strlcpy value size).1 ∧ r.outbuflen = some (strlcpy value size).2) ∧
        (node.db_list_value = none ∨ outbuf = none → r.outbuf = none ∧ r.outbuflen = none))) ∧
    (∀ node : dkimf_db_list,
      (db.db_flags &&& DKIMF_DB_FLAG_MATCHBOTH = 0 →
        (get_hit db.db_flags buf node ↔
          get_matched db.db_flags buf node.db_list_key = true ∨ node.db_list_value = none ∨
          ∃ value, node.db_list_value = some value ∧
            get_matched db.db_flags buf value = true)) ∧
      (db.db_flags &&& DKIMF_DB_FLAG_MATCHBOTH ≠ 0 →
        (get_hit db.db_flags buf node ↔
          node.db_list_value = none ∨
          ∃ value, node.db_list_value = some value ∧
            get_matched db.db_flags buf value = true))) ∧
    (∀ s : CStr, '\x00' ∉ buf → '\x00' ∉ s →
      (get_matched db.db_flags buf s = true ↔
        (if db.db_flags &&& DKIMF_DB_FLAG_ICASE = 0 then buf = s
         else buf.map tolower = s.map tolower))) := by
  refine ⟨?_, ?_, fun s hb hs => get_matched_iff db.db_flags buf s hb hs⟩
  · have hiff := get_scan_ne_nil_iff db.db_flags buf db.chain
    unfold dkimf_db_get
    simp only [if_pos hty, if_true]
    cases hs : dkimf_db_get_scan db.db_flags buf db.db_handle.as_list with
    | nil =>
      have hno : ¬ ∃ node ∈ db.chain, get_hit db.db_flags buf node := by
        rw [← hiff]
        unfold dkim_db.chain
        rw [hs]
        simp
      refine ⟨_, rfl, rfl, rfl, Or.inr rfl, ⟨fun h => by simp at h, fun h => absurd h hno⟩,
        fun _ => ⟨rfl, rfl⟩, ?_⟩
      intro pre node post hc _ hhit
      exact absurd ⟨node, by rw [hc]; simp, hhit⟩ hno
    | cons hit rest =>
      have hyes : ∃ node ∈ db.chain, get_hit db.db_flags buf node := by
        rw [← hiff]
        unfold dkim_db.chain
        rw [hs]
        simp
      have key : ∀ r : get_result, r.db = db → r.found = some true →
          (∀ value size, hit.db_list_value = some value → outbuf = some size →
            r.outbuf = (strlcpy value size).1 ∧ r.outbuflen = some (strlcpy value size).2) →
          (hit.db_list_value = none ∨ outbuf = none → r.outbuf = none ∧ r.outbuflen = none) →
          r.db = db ∧ (r.found = some true ∨ r.found = some false) ∧
          (r.found = some true ↔ ∃ node ∈ db.chain, get_hit db.db_flags buf node) ∧
          ((∀ node ∈ db.chain, ¬ get_hit db.db_flags buf node) →
            r.outbuf = none ∧ r.outbuflen = none) ∧
          (∀ pre node post, db.chain = pre ++ node :: post →
            (∀ x ∈ pre, ¬ get_hit db.db_flags buf x) → get_hit db.db_flags buf node →
            r.found = some true ∧
            (∀ value size, node.db_list_value = some value → outbuf = some size →
              r.outbuf = (strlcpy value size).1 ∧
              r.outbuflen = some (strlcpy value size).2) ∧
            (node.db_list_value = none ∨ outbuf = none →
              r.outbuf = none ∧ r.outbuflen = none)) := by
        intro r hdb hfound hcopy hnone
        refine ⟨hdb, Or.inl hfound, ⟨fun _ => hyes, fun _ => hfound⟩, ?_, ?_⟩
        · intro hall
          obtain ⟨node, hmem, hhit⟩ := hyes
          exact absurd hhit (hall node hmem)
        · intro pre node post hc hpre hhit
          have hscan := get_scan_first_hit db.db_flags buf node post pre hpre hhit
          unfold dkim_db.chain at hc
          rw [← hc, hs] at hscan
          simp only [List.cons.injEq] at hscan
          rw [← hscan.1]
          exact ⟨hfound, hcopy, hnone⟩
      dsimp only
      cases hv : hit.db_list_value with
      | none =>
        refine ⟨_, rfl, rfl, key _ rfl rfl ?_ (fun _ => ⟨rfl, rfl⟩)⟩
        intro value size h1 _
        rw [hv] at h1
        cases h1
      | some value =>
        cases outbuf with
        | none =>
          refine ⟨_, rfl, rfl, key _ rfl rfl ?_ (fun _ => ⟨rfl, rfl⟩)⟩
          intro v size _ h2
          cases h2
        | some size =>
          refine ⟨_, rfl, rfl, key _ rfl rfl ?_ ?_⟩
          · intro v sz h1 h2
            rw [hv] at h1
            cases h1
            cases h2
            exact ⟨rfl, rfl⟩
          · rintro (h | h)
            · rw [hv] at h; cases h
            · cases h
  · intro node
    unfold get_hit
    constructor
    · intro h0
      simp [h0]
    · intro h1
      simp [h1]

/-- The chain (a, 1), (b, no value), (c, 3) is asked for "b" with a buffer of
eight bytes. -/
theorem get_is_first_hit_scan_witness :
    ∃ r, dkimf_db_get sample_config sample_env
        (sample_list_db 0 [⟨"a".toList, some "1".toList⟩, ⟨"b".toList, none⟩,
          ⟨"c".toList, some "3".toList⟩]) ⟨false, false⟩ "b".toList 0 (some 8) true = some r ∧
      r.ret = 0 ∧ r.found = some true ∧ r.outbuf = none ∧ r.outbuflen = none := by
  obtain ⟨⟨r, hr, hret, _, _, _, _, hfirst⟩, _, _⟩ :=
    get_is_first_hit_scan sample_config sample_env
      (sample_list_db 0 [⟨"a".toList, some "1".toList⟩, ⟨"b".toList, none⟩,
        ⟨"c".toList, some "3".toList⟩]) ⟨false, false⟩ "b".toList 0 (some 8) (Or.inr (by decide))
  obtain ⟨hfound, _, hnone⟩ := hfirst [⟨"a".toList, some "1".toList⟩] ⟨"b".toList, none⟩
    [⟨"c".toList, some "3".toList⟩] rfl
    (by
      intro x hx
      simp only [List.mem_singleton] at hx
      subst hx
      intro h
      rcases h with h | h | ⟨v, hv, hm⟩
      · exact absurd h.1 (by decide)
      · cases h
      · cases hv
        revert hm
        decide)
    (Or.inr (Or.inl rfl))
  exact ⟨r, hr, hret, hfound, (hnone (Or.inl rfl)).1, (hnone (Or.inl rfl)).2⟩

/-- Claim C27: for every flag word, the body of the token loop of the csl case
on a token `k=v`, and the body of the line loop of the file case on a line
with the value `v`, when `v` holds nothing but '|' (so no piece stands between
its separators): with `DKIMF_DB_FLAG_VALLIST` set the chain and the counter
are left as they were, with the flag clear exactly one record is added.  So
the comma lists "k=" and "k=|" and the flat file that holds "k |" open under
the flag to a handle without records, on which "k" is not found, and without
the flag to a handle with one record. -/
theorem vallist_without_piece_adds_nothing (flags : Nat) :
    (∀ (k v : CStr) (st : build_state), '=' ∉ k → (∀ c ∈ v, c = '|') →
      csl_token flags (k ++ '=' :: v) st =
        (if flags &&& DKIMF_DB_FLAG_VALLIST ≠ 0 then st else st.add ⟨k, some v⟩)) ∧
    (∀ (raw : List Char) (v : CStr) (st : build_state),
      (file_record (dkimf_trimspaces (strip_comment raw))).db_list_value = some v →
      (∀ c ∈ v, c = '|') →
      file_line flags (dkimf_trimspaces (strip_comment raw)) st =
        some (if flags &&& DKIMF_DB_FLAG_VALLIST ≠ 0 then st
          else st.add (file_record (dkimf_trimspaces (strip_comment raw))))) ∧
    (dkimf_db_open sample_config sample_env "k=".toList DKIMF_DB_FLAG_VALLIST false =
        some ⟨0, some (sample_list_db 8 [])⟩ ∧
      dkimf_db_open sample_config sample_env "k=|".toList DKIMF_DB_FLAG_VALLIST false =
        some ⟨0, some (sample_list_db 8 [])⟩ ∧
      dkimf_db_open sample_config (sample_file_env "k |\n".toList) "/f".toList
          (DKIMF_DB_FLAG_READONLY ||| DKIMF_DB_FLAG_VALLIST) false =
        some ⟨0, some (sample_file_db 9 [])⟩ ∧
      dkimf_db_get sample_config sample_env (sample_list_db 8 []) ⟨false, false⟩ "k".toList 0
          (some 8) true =
        some ⟨0, sample_list_db 8 [], ⟨false, false⟩, some false, none, none⟩ ∧
      dkimf_db_get sample_config sample_env (sample_file_db 9 []) ⟨false, false⟩ "k".toList 0
          (some 8) true =
        some ⟨0, sample_file_db 9 [], ⟨false, false⟩, some false, none, none⟩ ∧
      dkimf_db_open sample_config sample_env "k=".toList 0 false =
        some ⟨0, some (sample_list_db 0 [⟨"k".toList, some []⟩])⟩ ∧
      dkimf_db_open sample_config sample_env "k=|".toList 0 false =
        some ⟨0, some (sample_list_db 0 [⟨"k".toList, some "|".toList⟩])⟩ ∧
      dkimf_db_open sample_config (sample_file_env "k |\n".toList) "/f".toList
          DKIMF_DB_FLAG_READONLY false =
        some ⟨0, some (sample_file_db 1 [⟨"k".toList, some "|".toList⟩])⟩) := by
  refine ⟨fun k v st hk hv => csl_token_no_piece flags k v st hk hv, ?_, by decide⟩
  intro raw v st hval hv
  have hne : dkimf_trimspaces (strip_comment raw) ≠ [] := by
    intro hc
    rw [hc] at hval
    simp [file_record] at hval
  by_cases hflag : flags &&& DKIMF_DB_FLAG_VALLIST = 0
  · rw [if_neg (by simpa using hflag)]
    exact file_line_eq flags _ st hflag (trimmed_line raw).1 (trimmed_line raw).2 hne
  · rw [if_pos hflag]
    unfold file_record at hval
    simp only at hval
    split at hval
    · cases hval
    · rename_i hV
      simp only [Option.some.injEq] at hval
      rw [file_line_vallist flags _ st hflag (trimmed_line raw).1 (trimmed_line raw).2 hV, hval,
        strtok_loop_all_delim '|' _ v hv]
      rfl

/-- The token "k=||" and the line "k  ||", with `DKIMF_DB_FLAG_VALLIST` set
and with no flag. -/
theorem vallist_without_piece_adds_nothing_witness :
    csl_token 8 "k=||".toList ⟨[], 0⟩ = ⟨[], 0⟩ ∧
    csl_token 0 "k=||".toList ⟨[], 0⟩ = ⟨[⟨"k".toList, some "||".toList⟩], 1⟩ ∧
    file_line 8 (dkimf_trimspaces (strip_comment "k  || # x\n".toList)) ⟨[], 0⟩ =
      some ⟨[], 0⟩ ∧
    file_line 0 (dkimf_trimspaces (strip_comment "k  || # x\n".toList)) ⟨[], 0⟩ =
      some ⟨[⟨"k".toList, some "||".toList⟩], 1⟩ :=
  ⟨(vallist_without_piece_adds_nothing 8).1 "k".toList "||".toList ⟨[], 0⟩
      (by decide) (by decide),
   (vallist_without_piece_adds_nothing 0).1 "k".toList "||".toList ⟨[], 0⟩
      (by decide) (by decide),
   (vallist_without_piece_adds_nothing 8).2.1 "k  || # x\n".toList "||".toList ⟨[], 0⟩
      (by decide) (by decide),
   (vallist_without_piece_adds_nothing 0).2.1 "k  || # x\n".toList "||".toList ⟨[], 0⟩
      (by decide) (by decide)⟩

end OpenDKIM
